import Mathlib

/-!
# BioinspiredAlgorithms, Labwork1: exhaustive knapsack solver and genetic algorithm

A shallow embedding of `Labwork1/bruteforcesolution.go` (`solveKnapsack`) and of
`Labwork1/genalgsolution.go` (`geneticAlgorithm` and its helpers), with theorems about
the embedded functions.

Modelling conventions.

* A Go `int` is a 64-bit two's complement integer.  Values are carried as `Int`; every sum
  or difference of weights the program computes, and the shift `1 << uint(n)`, is reduced
  with `wrap64`.  The generation counters, which never exceed `config.MaxGenerations`,
  are exact.
* A Go slice of `bool` is a reference to a backing array: a `Chromosome` holds the address
  of its gene array in a `Heap`, so that two chromosomes copied from one another share
  their genes exactly as the Go values do.
* The global pseudo-random generator is a stream `rng : Nat → Nat` of raw draws together
  with a cursor; every call of `rand.Intn`, `rand.Float64` or `rand.Float32` consumes one
  raw draw.
* Finite `float64` values are rationals; `float64(x)` of an `int` is an integer, carried
  as `Int`.  The conversion `int(f)` of an out-of-range float is the one of amd64.  The
  wall clock is a function giving the elapsed milliseconds read in each generation.
* A run-time panic (index out of range, `rand.Intn` with a non-positive argument,
  `make` with a negative length) is the result `none`.
-/

namespace Labwork1

/-! ## Machine integers -/

/-- Two's complement reduction of an integer to the range of a 64-bit Go `int`. -/
def wrap64 (x : Int) : Int := (x + 2 ^ 63) % 2 ^ 64 - 2 ^ 63

/-- The value is representable as a 64-bit Go `int`. -/
def isInt64 (x : Int) : Prop := -2 ^ 63 ≤ x ∧ x < 2 ^ 63

instance (x : Int) : Decidable (isInt64 x) := by unfold isInt64; infer_instance

/-! ## Exhaustive solver (`bruteforcesolution.go`) -/

/-- Go `type Item struct { Weight int; Index int }`. -/
structure Item where
  Weight : Int
  Index : Int
deriving DecidableEq, Repr

/-- Go `type Solution struct`, without the two wall-clock fields `FirstSolutionTime` and
`AllSolutionsTime`, which no modelled computation reads. -/
structure Solution where
  AchievedWeight : Int
  Combinations : List (List Int)
deriving DecidableEq, Repr

/-- The inner loop of `solveKnapsack`, `for i := 0; i < n; i++`, started at index `i` with
the items from `i` on still to visit: item `i` is added when bit `i` of `mask` is set,
and the loop is left as soon as `currentWeight > target`.  The loop is reached only for
`n ≤ 62`, where `mask` and `1 << uint(i)` are non-negative and the bit test on `Nat` is
the one on `int`. -/
def subsetLoop (target : Int) (mask : Nat) :
    List Item → Nat → Int → List Int → Int × List Int
  | [], _, currentWeight, currentCombination => (currentWeight, currentCombination)
  | it :: rest, i, currentWeight, currentCombination =>
    let step : Int × List Int :=
      if mask &&& (1 <<< i) ≠ 0 then
        (wrap64 (currentWeight + it.Weight), currentCombination ++ [it.Index])
      else (currentWeight, currentCombination)
    if step.1 > target then step
    else subsetLoop target mask rest (i + 1) step.1 step.2

/-- One iteration of the outer loop of `solveKnapsack` for the subset `mask`, on the pair
`(maxWeight, solutions)`. -/
def maskStep (items : List Item) (target : Int) (st : Int × List (List Int)) (mask : Nat) :
    Int × List (List Int) :=
  let cur := subsetLoop target mask items 0 0 []
  if cur.1 > target then st
  else if cur.1 > st.1 then (cur.1, [cur.2])
  else if cur.1 = st.1 then (st.1, st.2 ++ [cur.2])
  else st

/-- The bound `1 << uint(n)` of the outer loop, as a 64-bit `int`: `2 ^ n` for `n ≤ 62`,
the least `int` for `n = 63`, and `0` from `n = 64` on. -/
def maskLimit (n : Nat) : Int := wrap64 (2 ^ n)

/-- Go `solveKnapsack(items, target)`: `mask` runs from `0` while `mask < 1 << uint(n)`. -/
def solveKnapsack (items : List Item) (target : Int) : Solution :=
  let r := (List.range (maskLimit items.length).toNat).foldl (maskStep items target) (0, [])
  { AchievedWeight := r.1, Combinations := r.2 }

/-! ## Genetic algorithm (`genalgsolution.go`) -/

/-- The spacing of the `float64` values around a magnitude `m < 2 ^ 64`: the least power
of two `u` with `m < 2 ^ 53 * u`, searched upward from `u` by doubling.  Eleven doublings
reach `2 ^ 11`, the spacing just below `2 ^ 64`. -/
def ulpSearch : Nat → Nat → Nat → Nat
  | 0, _, u => u
  | fuel + 1, m, u => if m < 2 ^ 53 * u then u else ulpSearch fuel m (2 * u)

/-- The magnitude of `float64(x)` for an `int` of magnitude `m`: the nearest multiple of
the spacing, a tie going to the even multiple.  The result is an integer. -/
def roundNat53 (m : Nat) : Nat :=
  let ulp := ulpSearch 11 m 1
  let q := m / ulp
  let r := m % ulp
  if 2 * r < ulp then q * ulp
  else if ulp < 2 * r then (q + 1) * ulp
  else if q % 2 = 0 then q * ulp
  else (q + 1) * ulp

/-- Go `float64(x)` for an `int` `x`; the value of the resulting float, always an integer. -/
def float64OfInt (x : Int) : Int :=
  if x < 0 then -(roundNat53 x.natAbs : Int) else (roundNat53 x.natAbs : Int)

/-- Go `int(f)` for an integer-valued `float64`.  A value outside the `int` range converts
to an implementation-dependent result; the one modelled is that of amd64, the least
`int`. -/
def intOfFloat64 (f : Int) : Int := if isInt64 f then f else -2 ^ 63

/-- Go `type KnapsackProblem struct`. -/
structure KnapsackProblem where
  ID : Int
  Target : Int
  Ratio : ℚ
  BruteTimeMs : ℚ

/-- Go `type Chromosome struct`; `Genes` is the address of the backing array of the
slice. -/
structure Chromosome where
  Genes : Nat
  Fitness : Int
  Weight : Int
deriving DecidableEq, Repr

/-- Go `type GAConfig struct`. -/
structure GAConfig where
  PopulationSize : Int
  MutationRate : ℚ
  CrossoverRate : ℚ
  MaxGenerations : Int
  MaxNoImprovement : Int

/-- The backing arrays of all gene slices, by address. -/
abbrev Heap := List (List Bool)

/-- The memory and the position in the stream of random draws. -/
structure World where
  heap : Heap
  cursor : Nat
deriving DecidableEq, Repr

/-- Go `rand.Intn(n)`: panics for `n ≤ 0`, else a value in `[0, n)`. -/
def randIntn (rng : Nat → Nat) (cursor : Nat) (n : Nat) : Option (Nat × Nat) :=
  if n = 0 then none else some (rng cursor % n, cursor + 1)

/-- Go `rand.Float64()`: a value in `[0, 1)`. -/
def randFloat64 (rng : Nat → Nat) (cursor : Nat) : ℚ × Nat :=
  (mkRat (rng cursor % 2 ^ 53) (2 ^ 53), cursor + 1)

/-- Go `rand.Float32()`: a value in `[0, 1)`. -/
def randFloat32 (rng : Nat → Nat) (cursor : Nat) : ℚ × Nat :=
  (mkRat (rng cursor % 2 ^ 24) (2 ^ 24), cursor + 1)

/-- The constant `0.35` as the `float32` it is compared in. -/
def inclusionProbability : ℚ := mkRat 11744051 33554432

/-- The loop of `calculateFitness`, `for i, gene := range c.Genes`, from index `i`. -/
def weighGenes (items : List Item) : List Bool → Nat → Int → Option Int
  | [], _, totalWeight => some totalWeight
  | gene :: rest, i, totalWeight =>
    if gene then
      match items[i]? with
      | none => none
      | some it => weighGenes items rest (i + 1) (wrap64 (totalWeight + it.Weight))
    else weighGenes items rest (i + 1) totalWeight

/-- The fitness `int(math.Abs(float64(target - totalWeight)))`. -/
def fitnessOf (target totalWeight : Int) : Int :=
  intOfFloat64 |float64OfInt (wrap64 (target - totalWeight))|

/-- Go `calculateFitness(c, items, target)`. -/
def calculateFitness (heap : Heap) (c : Chromosome) (items : List Item) (target : Int) :
    Option Chromosome :=
  match heap[c.Genes]? with
  | none => none
  | some genes =>
    match weighGenes items genes 0 0 with
    | none => none
    | some totalWeight =>
      some { c with Weight := totalWeight, Fitness := fitnessOf target totalWeight }

/-- The loop `for j := range genes { genes[j] = rand.Float32() < 0.35 }`. -/
def drawGenes (rng : Nat → Nat) : Nat → Nat → List Bool × Nat
  | 0, cursor => ([], cursor)
  | k + 1, cursor =>
    let d := randFloat32 rng cursor
    let r := drawGenes rng k d.2
    (decide (d.1 < inclusionProbability) :: r.1, r.2)

/-- The loop `for i := range population` of `initializePopulation`. -/
def initLoop (rng : Nat → Nat) (itemCount : Nat) (items : List Item) (target : Int) :
    Nat → World → Option (List Chromosome × World)
  | 0, w => some ([], w)
  | k + 1, w =>
    let g := drawGenes rng itemCount w.cursor
    let heap := w.heap ++ [g.1]
    match calculateFitness heap { Genes := w.heap.length, Fitness := 0, Weight := 0 }
        items target with
    | none => none
    | some c =>
      match initLoop rng itemCount items target k { heap := heap, cursor := g.2 } with
      | none => none
      | some (cs, w2) => some (c :: cs, w2)

/-- Go `initializePopulation(itemCount, populationSize, items, target)`; `make` panics on
a negative length. -/
def initializePopulation (rng : Nat → Nat) (itemCount : Nat) (populationSize : Int)
    (items : List Item) (target : Int) (w : World) : Option (List Chromosome × World) :=
  if populationSize < 0 then none
  else initLoop rng itemCount items target populationSize.toNat w

/-- Go `findBest(population)`; `population[0]` panics on an empty population. -/
def findBest (population : List Chromosome) : Option Chromosome :=
  match population with
  | [] => none
  | first :: _ =>
    some (population.foldl (fun best c => if c.Fitness < best.Fitness then c else best) first)

/-- The loop `for i := 1; i < tournamentSize; i++` of `tournamentSelection`, with
`remaining` iterations to go. -/
def tournamentLoop (rng : Nat → Nat) (population : List Chromosome) :
    Nat → Chromosome → Nat → Option (Chromosome × Nat)
  | 0, best, cursor => some (best, cursor)
  | remaining + 1, best, cursor =>
    match randIntn rng cursor population.length with
    | none => none
    | some (j, cursor2) =>
      match population[j]? with
      | none => none
      | some contender =>
        tournamentLoop rng population remaining
          (if contender.Fitness < best.Fitness then contender else best) cursor2

/-- Go `tournamentSelection(population, tournamentSize)`. -/
def tournamentSelection (rng : Nat → Nat) (population : List Chromosome)
    (tournamentSize : Nat) (cursor : Nat) : Option (Chromosome × Nat) :=
  match randIntn rng cursor population.length with
  | none => none
  | some (j, cursor2) =>
    match population[j]? with
    | none => none
    | some best => tournamentLoop rng population (tournamentSize - 1) best cursor2

/-- Go `crossover(parent1, parent2)`: the children are fresh arrays, filled from one parent
below `crossoverPoint` and from the other from `crossoverPoint` on. -/
def crossover (rng : Nat → Nat) (parent1 parent2 : Chromosome) (w : World) :
    Option ((Chromosome × Chromosome) × World) :=
  match w.heap[parent1.Genes]?, w.heap[parent2.Genes]? with
  | some genes1, some genes2 =>
    if genes1.length ≠ genes2.length then some ((parent1, parent2), w)
    else
      match randIntn rng w.cursor genes1.length with
      | none => none
      | some (crossoverPoint, cursor2) =>
        let child1Genes := (List.range genes1.length).map (fun i =>
          if i < crossoverPoint then genes1.getD i false else genes2.getD i false)
        let child2Genes := (List.range genes2.length).map (fun i =>
          if i < crossoverPoint then genes2.getD i false else genes1.getD i false)
        some (({ Genes := w.heap.length, Fitness := 0, Weight := 0 },
               { Genes := w.heap.length + 1, Fitness := 0, Weight := 0 }),
              { heap := w.heap ++ [child1Genes, child2Genes], cursor := cursor2 })
  | _, _ => none

/-- The assignment `c.Genes[i] = !c.Genes[i]` on the array at `addr`. -/
def flipGene (heap : Heap) (addr i : Nat) : Heap :=
  match heap[addr]? with
  | none => heap
  | some genes => heap.set addr (genes.set i (!(genes.getD i false)))

/-- The loop `for i := range c.Genes` of `mutate`, from index `i` with `remaining`
iterations to go. -/
def mutateLoop (rng : Nat → Nat) (mutationRate : ℚ) (addr : Nat) : Nat → Nat → World → World
  | 0, _, w => w
  | remaining + 1, i, w =>
    let d := randFloat64 rng w.cursor
    let heap := if d.1 < mutationRate then flipGene w.heap addr i else w.heap
    mutateLoop rng mutationRate addr remaining (i + 1) { heap := heap, cursor := d.2 }

/-- Go `mutate(c, mutationRate)`: the bits are flipped in place in the array `c.Genes`
refers to; the chromosome value returned is `c` itself. -/
def mutate (rng : Nat → Nat) (c : Chromosome) (mutationRate : ℚ) (w : World) :
    Option World :=
  match w.heap[c.Genes]? with
  | none => none
  | some genes => some (mutateLoop rng mutationRate c.Genes genes.length 0 w)

/-- One iteration of the loop that fills `newPopulation`: two tournaments, crossover or
copy, two mutations, two fitness computations. -/
def breedPair (rng : Nat → Nat) (items : List Item) (target : Int) (config : GAConfig)
    (population : List Chromosome) (w : World) :
    Option ((Chromosome × Chromosome) × World) :=
  match tournamentSelection rng population 3 w.cursor with
  | none => none
  | some (parent1, cursor1) =>
    match tournamentSelection rng population 3 cursor1 with
    | none => none
    | some (parent2, cursor2) =>
      let d := randFloat64 rng cursor2
      let w3 : World := { heap := w.heap, cursor := d.2 }
      match (if d.1 < config.CrossoverRate then crossover rng parent1 parent2 w3
             else some ((parent1, parent2), w3)) with
      | none => none
      | some ((child1, child2), w4) =>
        match mutate rng child1 config.MutationRate w4 with
        | none => none
        | some w5 =>
          match mutate rng child2 config.MutationRate w5 with
          | none => none
          | some w6 =>
            match calculateFitness w6.heap child1 items target with
            | none => none
            | some c1 =>
              match calculateFitness w6.heap child2 items target with
              | none => none
              | some c2 => some ((c1, c2), w6)

/-- The loop `for len(newPopulation) < config.PopulationSize`; `need` is
`config.PopulationSize - len(newPopulation)`, which every iteration lowers by two. -/
def fillPopulation (rng : Nat → Nat) (items : List Item) (target : Int) (config : GAConfig)
    (population : List Chromosome) :
    Nat → List Chromosome → World → Option (List Chromosome × World)
  | 0, newPopulation, w => some (newPopulation, w)
  | 1, newPopulation, w =>
    match breedPair rng items target config population w with
    | none => none
    | some ((c1, c2), w2) => some (newPopulation ++ [c1, c2], w2)
  | need + 2, newPopulation, w =>
    match breedPair rng items target config population w with
    | none => none
    | some ((c1, c2), w2) =>
      fillPopulation rng items target config population need (newPopulation ++ [c1, c2]) w2

/-- What a run of `geneticAlgorithm` returns: the chromosome, the two entries of `stats`,
and, for reference, the stagnation counter and the memory at the moment of return. -/
structure GARun where
  best : Chromosome
  generations : Int
  terminationReason : String
  noImprovementCount : Int
  heap : Heap
deriving DecidableEq, Repr

/-- The stagnation test of a generation whose best fitness is not zero: either the run
ends with `no_improvement`, or it goes on with the new values of `bestSolution` and
`noImprovementCount`. -/
def updateBest (config : GAConfig) (gen : Nat) (heap : Heap)
    (currentBest bestSolution : Chromosome) (noImprovementCount : Int) :
    GARun ⊕ (Chromosome × Int) :=
  if currentBest.Fitness ≥ bestSolution.Fitness then
    if noImprovementCount + 1 ≥ config.MaxNoImprovement then
      Sum.inl { best := bestSolution, generations := gen + 1,
                terminationReason := "no_improvement",
                noImprovementCount := noImprovementCount + 1, heap := heap }
    else Sum.inr (bestSolution, noImprovementCount + 1)
  else Sum.inr (currentBest, 0)

/-- The loop `for gen := 0; gen < config.MaxGenerations; gen++` of `geneticAlgorithm`, with
`remaining` iterations to go; `clock gen` is the elapsed time in milliseconds read in
generation `gen`.  The counters `gen` and `noImprovementCount` stay below
`config.MaxGenerations`, so their increments are exact. -/
def generationLoop (rng : Nat → Nat) (clock : Nat → ℚ) (items : List Item)
    (problem : KnapsackProblem) (config : GAConfig) :
    Nat → Nat → List Chromosome → Chromosome → Int → World → Option GARun
  | 0, gen, _, bestSolution, noImprovementCount, w =>
    some { best := bestSolution, generations := gen, terminationReason := "max_generations",
           noImprovementCount := noImprovementCount, heap := w.heap }
  | remaining + 1, gen, population, bestSolution, noImprovementCount, w =>
    match fillPopulation rng items problem.Target config population
        config.PopulationSize.toNat [] w with
    | none => none
    | some (newPopulation, w2) =>
      match findBest newPopulation with
      | none => none
      | some currentBest =>
        if currentBest.Fitness = 0 then
          some { best := currentBest, generations := gen + 1,
                 terminationReason := "zero_fitness",
                 noImprovementCount := noImprovementCount, heap := w2.heap }
        else
          match updateBest config gen w2.heap currentBest bestSolution noImprovementCount with
          | Sum.inl run => some run
          | Sum.inr (bestSolution2, noImprovementCount2) =>
            if problem.BruteTimeMs > 0 ∧ clock gen ≥ 2 * problem.BruteTimeMs then
              some { best := bestSolution2, generations := gen + 1,
                     terminationReason := "time_exceeded",
                     noImprovementCount := noImprovementCount2, heap := w2.heap }
            else
              generationLoop rng clock items problem config remaining (gen + 1)
                newPopulation bestSolution2 noImprovementCount2 w2

/-- Go `geneticAlgorithm(items, problem, config)`, run on an empty memory from the start of
the stream of draws. -/
def geneticAlgorithm (rng : Nat → Nat) (clock : Nat → ℚ) (items : List Item)
    (problem : KnapsackProblem) (config : GAConfig) : Option GARun :=
  match initializePopulation rng items.length config.PopulationSize items problem.Target
      { heap := [], cursor := 0 } with
  | none => none
  | some (population, w) =>
    match findBest population with
    | none => none
    | some bestSolution =>
      generationLoop rng clock items problem config config.MaxGenerations.toNat 0
        population bestSolution 0 w

/-- The loop of `getSolutionIndices`, `for i, gene := range c.Genes`, from index `i`. -/
def collectIndices (items : List Item) : List Bool → Nat → List Int → Option (List Int)
  | [], _, indices => some indices
  | gene :: rest, i, indices =>
    if gene then
      match items[i]? with
      | none => none
      | some it => collectIndices items rest (i + 1) (indices ++ [it.Index])
    else collectIndices items rest (i + 1) indices

/-- Go `sort.Ints` of the standard library: the integers in increasing order.  On integers
the sorted rearrangement is unique; it is computed here by insertion. -/
def sortInts (xs : List Int) : List Int := xs.insertionSort (· ≤ ·)

/-- Go `getSolutionIndices(c, items)`. -/
def getSolutionIndices (heap : Heap) (c : Chromosome) (items : List Item) :
    Option (List Int) :=
  match heap[c.Genes]? with
  | none => none
  | some genes =>
    match collectIndices items genes 0 [] with
    | none => none
    | some indices => some (sortInts indices)

/-! ## Specification of the genetic algorithm -/

/-- What `calculateFitness` leaves in a chromosome: a weight in the `int` range and the
fitness computed from that weight. -/
def Evaluated (target : Int) (c : Chromosome) : Prop :=
  isInt64 c.Weight ∧ c.Fitness = fitnessOf target c.Weight

/-- The returned chromosome agrees with its own inclusion vector: the array its `Genes`
refer to when the run returns weighs `Weight`, and `Fitness` is computed from `Weight`. -/
def BestMatchesGenes (items : List Item) (target : Int) (r : GARun) : Prop :=
  (∃ genes, r.heap[r.best.Genes]? = some genes ∧
    weighGenes items genes 0 0 = some r.best.Weight) ∧
  r.best.Fitness = fitnessOf target r.best.Weight

/-- The items whose gene is true, in item order. -/
def includedItems (items : List Item) (genes : List Bool) : List Item :=
  ((items.zip genes).filter (fun p => p.2)).map (fun p => p.1)

/-- Every array in memory holds `n` genes. -/
def HeapOK (n : Nat) (heap : Heap) : Prop := ∀ g ∈ heap, g.length = n

/-- The `Genes` of the chromosome refer to an array in memory. -/
def ChromOK (heap : Heap) (c : Chromosome) : Prop := c.Genes < heap.length

/-- The chromosome the `t`-th draw of a tournament started at `cursor` points at. -/
def drawnAt (rng : Nat → Nat) (population : List Chromosome) (cursor t : Nat) :
    Option Chromosome :=
  population[rng (cursor + t) % population.length]?

/-- The populations a run of `geneticAlgorithm` hands to a generation step, each with the
memory and the position in the stream of draws at that moment: the first step receives the
initial population (`population := initializePopulation(...)`), every later step the
population the step before it produced (`population = newPopulation`).  The tests that end
a run between two steps are left out, so that every step of every run is covered. -/
inductive StepInput (rng : Nat → Nat) (items : List Item) (problem : KnapsackProblem)
    (config : GAConfig) : List Chromosome → World → Prop
  | initial {population : List Chromosome} {w : World} :
      initializePopulation rng items.length config.PopulationSize items problem.Target
        { heap := [], cursor := 0 } = some (population, w) →
      StepInput rng items problem config population w
  | step {population newPopulation : List Chromosome} {w w2 : World} :
      StepInput rng items problem config population w →
      fillPopulation rng items problem.Target config population
        config.PopulationSize.toNat [] w = some (newPopulation, w2) →
      StepInput rng items problem config newPopulation w2

/-! ## Specification of the exhaustive solver -/

/-- The sum of the weights of a collection of items, as a mathematical integer. -/
def totalWeight (s : List Item) : Int := (s.map Item.Weight).sum

/-- The items that `mask` selects from `its`, where the head of `its` stands at position
`i`: those at the positions whose bit is set in `mask`. -/
def pickMask (mask : Nat) : Nat → List Item → List Item
  | _, [] => []
  | i, it :: rest =>
    if mask &&& (1 <<< i) ≠ 0 then it :: pickMask mask (i + 1) rest
    else pickMask mask (i + 1) rest

/-- The weight of the subset `mask` of `items`. -/
def maskWeight (items : List Item) (mask : Nat) : Int := totalWeight (pickMask mask 0 items)

/-- The combination reported for the subset `mask` of `items`. -/
def maskIndices (items : List Item) (mask : Nat) : List Int :=
  (pickMask mask 0 items).map Item.Index

/-- The conditions under which the sums of `solveKnapsack` stay inside the `int` range:
non-negative weights whose total is below `2 ^ 63`. -/
def weightsFit (items : List Item) : Prop :=
  (∀ it ∈ items, 0 ≤ it.Weight) ∧ totalWeight items < 2 ^ 63

/-- `w` is the greatest total weight not exceeding `target` among the sub-collections of
`items`. -/
def IsMaxFeasibleWeight (items : List Item) (target w : Int) : Prop :=
  (∃ s : List Item, s.Sublist items ∧ totalWeight s = w ∧ w ≤ target) ∧
  ∀ s : List Item, s.Sublist items → totalWeight s ≤ target → totalWeight s ≤ w

/-- The sub-collection `s` of `items` has a total weight not exceeding `target`, and no
sub-collection within the target is heavier. -/
def IsOptimalSubset (items : List Item) (target : Int) (s : List Item) : Prop :=
  s.Sublist items ∧ totalWeight s ≤ target ∧
  ∀ s' : List Item, s'.Sublist items → totalWeight s' ≤ target → totalWeight s' ≤ totalWeight s

/-- The running sum of the inner loop over the collection `s`, started from
`currentWeight`, with each addition reduced to the `int` range. -/
def wrapSum (currentWeight : Int) (s : List Item) : Int :=
  s.foldl (fun acc it => wrap64 (acc + it.Weight)) currentWeight

/-- The sum of the weights of the items whose indices the combination lists, an index
standing for the item at that position. -/
def weightOfIndices (items : List Item) (c : List Int) : Int :=
  (c.map (fun idx =>
    if idx < 0 then 0
    else match items[idx.toNat]? with
      | some it => it.Weight
      | none => 0)).sum

/-- The sum of the absolute values of the weights. -/
def absTotal (items : List Item) : Int := (items.map (fun it => |it.Weight|)).sum

/-- Every item carries as `Index` its position in the item set. -/
def IndexIsPosition (items : List Item) : Prop :=
  items.map Item.Index = (List.range items.length).map Int.ofNat

instance (items : List Item) : Decidable (IndexIsPosition items) := by
  unfold IndexIsPosition; infer_instance

/-- The inner loop of `solveKnapsack` with the early exit removed: every item of the
subset is added, whatever the partial weight. -/
def subsetLoopNoExit (mask : Nat) : List Item → Nat → Int → List Int → Int × List Int
  | [], _, currentWeight, currentCombination => (currentWeight, currentCombination)
  | it :: rest, i, currentWeight, currentCombination =>
    if mask &&& (1 <<< i) ≠ 0 then
      subsetLoopNoExit mask rest (i + 1) (wrap64 (currentWeight + it.Weight))
        (currentCombination ++ [it.Index])
    else subsetLoopNoExit mask rest (i + 1) currentWeight currentCombination

/-- One iteration of the outer loop on the complete sum of the subset `mask`: the subset is
discarded only when the complete sum exceeds the target. -/
def maskStepNoExit (items : List Item) (target : Int) (st : Int × List (List Int))
    (mask : Nat) : Int × List (List Int) :=
  let cur := subsetLoopNoExit mask items 0 0 []
  if cur.1 > target then st
  else if cur.1 > st.1 then (cur.1, [cur.2])
  else if cur.1 = st.1 then (st.1, st.2 ++ [cur.2])
  else st

/-- The enumeration of `solveKnapsack` without the early exit, as the specification
describes it: the same loop over the masks, each subset summed completely. -/
def solveKnapsackNoExit (items : List Item) (target : Int) : Solution :=
  let r := (List.range (maskLimit items.length).toNat).foldl (maskStepNoExit items target)
    (0, [])
  { AchievedWeight := r.1, Combinations := r.2 }

/-- The positions below `n` whose bit is set in `mask`, in ascending order, as indices. -/
def maskPositions (n mask : Nat) : List Int :=
  ((List.range n).filter (fun i => mask.testBit i)).map Int.ofNat

/-! ## Concrete inputs -/

/-- The item set with weights `[2, 3, 4, 5]` and indices `0..3`. -/
def scenarioItems : List Item := [⟨2, 0⟩, ⟨3, 1⟩, ⟨4, 2⟩, ⟨5, 3⟩]

/-- Four items with non-negative weights, each a valid `int`, whose sums leave the `int`
range. -/
def overflowItems : List Item :=
  [⟨1, 0⟩, ⟨2 ^ 63 - 1, 1⟩, ⟨2 ^ 63 - 1, 2⟩, ⟨4, 3⟩]

/-- Sixty-three items of weight one, each carrying its position as index. -/
def unitItems63 : List Item := (List.range 63).map (fun i => ⟨1, Int.ofNat i⟩)

/-- A clock that always reads zero elapsed milliseconds. -/
def noClock : Nat → ℚ := fun _ => 0

/-- The stream of draws in which every raw draw is zero. -/
def zeroDraws : Nat → Nat := fun _ => 0

/-- One item of weight one. -/
def unitItem : List Item := [⟨1, 0⟩]

/-- One item of weight zero. -/
def zeroItem : List Item := [⟨0, 0⟩]

/-- Four items of weight one, indices `0..3`. -/
def onesItems : List Item := [⟨1, 0⟩, ⟨1, 1⟩, ⟨1, 2⟩, ⟨1, 3⟩]

/-- Target `1`, no reference duration. -/
def unitProblem : KnapsackProblem := ⟨1, 1, 0, 0⟩

/-- Target `5`, no reference duration. -/
def farProblem : KnapsackProblem := ⟨1, 5, 0, 0⟩

/-- Target `2`, no reference duration. -/
def scenarioProblem : KnapsackProblem := ⟨1, 2, 0, 0⟩

/-- The greatest `int` as target, no reference duration. -/
def hugeProblem : KnapsackProblem := ⟨1, 2 ^ 63 - 1, 0, 0⟩

/-- Population of one, mutation rate `1/2`, no crossover, one generation, stagnation limit
one. -/
def staleConfig : GAConfig := ⟨1, mkRat 1 2, 0, 1, 1⟩

/-- Draws that are all zero except the tenth, which is `2 ^ 52`: as a `float64` draw it
is `1/2`. -/
def staleDraws : Nat → Nat := fun i => if i = 9 then 2 ^ 52 else 0

/-- Population of one, no mutation, no crossover, one generation, stagnation limit one. -/
def copyConfig : GAConfig := ⟨1, 0, 0, 1, 1⟩

/-- Population of one, no mutation, no crossover, five generations, stagnation limit
two. -/
def patientConfig : GAConfig := ⟨1, 0, 0, 5, 2⟩

/-- Population of one, no mutation, no crossover, one generation, stagnation limit
zero. -/
def impatientConfig : GAConfig := ⟨1, 0, 0, 1, 0⟩

/-- Population `50`, mutation rate `1/20`, crossover rate `7/10`, ten generations,
stagnation limit two. -/
def scenarioConfig : GAConfig := ⟨50, mkRat 1 20, mkRat 7 10, 10, 2⟩

/-- The result of the scenario run under `zeroDraws`. -/
def scenarioRun : GARun :=
  { best := ⟨0, 2, 4⟩, generations := 2, terminationReason := "no_improvement",
    noImprovementCount := 2,
    heap := List.replicate 50 [true, true, true, true] ++
      List.replicate 50 [false, false, false, false] ++
      List.replicate 50 [true, true, true, true] }

/-- Two items of weight `2^63 - 1` and one of weight `4`, indices `0..2`. -/
def wrapItems : List Item := [⟨2 ^ 63 - 1, 0⟩, ⟨2 ^ 63 - 1, 1⟩, ⟨4, 2⟩]

/-- The item set with weights `[10, 20, 30]` and indices `0..2`. -/
def tensItems : List Item := [⟨10, 0⟩, ⟨20, 1⟩, ⟨30, 2⟩]

/-- Three items with indices `7, 5, 2`. -/
def shuffledItems : List Item := [⟨1, 7⟩, ⟨2, 5⟩, ⟨3, 2⟩]

/-- Two items of weight `2 ^ 62`. -/
def halfItems : List Item := [⟨2 ^ 62, 0⟩, ⟨2 ^ 62, 1⟩]

/-- Target `0`, no reference duration. -/
def zeroProblem : KnapsackProblem := ⟨1, 0, 0, 0⟩

/-- Population of two, no mutation, no crossover, one generation, stagnation limit one. -/
def pairConfig : GAConfig := ⟨2, 0, 0, 1, 1⟩

/-- Population of zero, no mutation, no crossover, one generation, stagnation limit one. -/
def emptyConfig : GAConfig := ⟨0, 0, 0, 1, 1⟩

/-- Population of three, no mutation, crossover rate one, one generation, stagnation limit
one. -/
def crossingConfig : GAConfig := ⟨3, 0, 1, 1, 1⟩

/-- The stream of draws in which every raw draw is one. -/
def oneDraws : Nat → Nat := fun _ => 1

/-- Draws that are `2 ^ 23` except the sixth, which is `1`: as a `float32` draw `2 ^ 23` is
`1/2`, as a position in a population of two it is `0`, and `1` is position `1`. -/
def apartDraws : Nat → Nat := fun i => if i = 5 then 1 else 2 ^ 23

/-- Population of two, mutation rate one, no crossover, one generation, stagnation limit
one. -/
def flipConfig : GAConfig := ⟨2, 1, 0, 1, 1⟩

/-- Three chromosomes with fitness `5`, `3` and `3`. -/
def tiedPopulation : List Chromosome := [⟨0, 5, 0⟩, ⟨1, 3, 0⟩, ⟨2, 3, 0⟩]

/-- The stream of draws whose `i`-th raw draw is `i`. -/
def countingDraws : Nat → Nat := fun i => i

/-! ## The exhaustive solver: lemmas -/

theorem wrap64_of_isInt64 {x : Int} (h : isInt64 x) : wrap64 x = x := by
  unfold isInt64 at h; unfold wrap64; omega

theorem wrap64_isInt64 (x : Int) : isInt64 (wrap64 x) := by
  unfold isInt64 wrap64; omega

@[simp] theorem totalWeight_nil : totalWeight [] = 0 := rfl

@[simp] theorem totalWeight_cons (it : Item) (s : List Item) :
    totalWeight (it :: s) = it.Weight + totalWeight s := by
  simp [totalWeight]

theorem totalWeight_nonneg {s : List Item} (h : ∀ it ∈ s, 0 ≤ it.Weight) :
    0 ≤ totalWeight s := by
  induction s with
  | nil => simp
  | cons a s ih =>
    have h1 := h a (List.mem_cons_self _ _)
    have h2 := ih (fun it hit => h it (List.mem_cons_of_mem _ hit))
    rw [totalWeight_cons]; omega

theorem totalWeight_sublist_le {s t : List Item} (hst : s.Sublist t)
    (h : ∀ it ∈ t, 0 ≤ it.Weight) : totalWeight s ≤ totalWeight t := by
  induction hst with
  | slnil => simp
  | cons a _ ih =>
    have h1 := h a (List.mem_cons_self _ _)
    have h2 := ih (fun it hit => h it (List.mem_cons_of_mem _ hit))
    rw [totalWeight_cons]; omega
  | cons₂ a _ ih =>
    have h2 := ih (fun it hit => h it (List.mem_cons_of_mem _ hit))
    rw [totalWeight_cons, totalWeight_cons]; omega

theorem pickMask_sublist (mask : Nat) (its : List Item) (i : Nat) :
    (pickMask mask i its).Sublist its := by
  induction its generalizing i with
  | nil => simp [pickMask]
  | cons a s ih =>
    unfold pickMask
    split
    · exact (ih (i + 1)).cons₂ a
    · exact (ih (i + 1)).cons a

/-- With non-negative weights and no overflow, the inner loop started below the target
either visits every item and returns the exact weight and the indices of the selected
items, or leaves with a weight above the target; the second happens exactly when the
selected items together weigh more than the target. -/
theorem subsetLoop_spec (target : Int) (mask : Nat) (its : List Item) :
    ∀ (i : Nat) (cw : Int) (comb : List Int),
      (∀ it ∈ its, 0 ≤ it.Weight) → 0 ≤ cw → cw + totalWeight its < 2 ^ 63 → cw ≤ target →
      (cw + totalWeight (pickMask mask i its) ≤ target →
        subsetLoop target mask its i cw comb =
          (cw + totalWeight (pickMask mask i its),
            comb ++ (pickMask mask i its).map Item.Index)) ∧
      (target < cw + totalWeight (pickMask mask i its) →
        target < (subsetLoop target mask its i cw comb).1) := by
  induction its with
  | nil =>
    intro i cw comb _ _ _ hle
    simp [pickMask, subsetLoop]
  | cons a s ih =>
    intro i cw comb hw hcw hsum hle
    have ha : 0 ≤ a.Weight := hw a (List.mem_cons_self _ _)
    have hs : ∀ it ∈ s, 0 ≤ it.Weight := fun it hit => hw it (List.mem_cons_of_mem _ hit)
    have hs0 : 0 ≤ totalWeight s := totalWeight_nonneg hs
    have hp0 : 0 ≤ totalWeight (pickMask mask (i + 1) s) :=
      totalWeight_nonneg (fun it hit => hs it ((pickMask_sublist mask s (i + 1)).subset hit))
    rw [totalWeight_cons] at hsum
    by_cases hbit : mask &&& (1 <<< i) ≠ 0
    · have hwrap : wrap64 (cw + a.Weight) = cw + a.Weight :=
        wrap64_of_isInt64 (by unfold isInt64; omega)
      have hpick : pickMask mask i (a :: s) = a :: pickMask mask (i + 1) s := by
        simp [pickMask, hbit]
      rw [hpick, totalWeight_cons]
      by_cases hover : cw + a.Weight > target
      · have hres : subsetLoop target mask (a :: s) i cw comb
            = (cw + a.Weight, comb ++ [a.Index]) := by
          simp [subsetLoop, hbit, hwrap, hover]
        rw [hres]
        constructor
        · intro h; omega
        · intro _; exact hover
      · have hres : subsetLoop target mask (a :: s) i cw comb
            = subsetLoop target mask s (i + 1) (cw + a.Weight) (comb ++ [a.Index]) := by
          simp [subsetLoop, hbit, hwrap, hover]
        rw [hres]
        have := ih (i + 1) (cw + a.Weight) (comb ++ [a.Index]) hs (by omega) (by omega)
          (by omega)
        constructor
        · intro h
          rw [this.1 (by omega)]
          simp [add_assoc]
        · intro h
          exact this.2 (by omega)
    · have hpick : pickMask mask i (a :: s) = pickMask mask (i + 1) s := by
        simp [pickMask, hbit]
      have hres : subsetLoop target mask (a :: s) i cw comb
          = subsetLoop target mask s (i + 1) cw comb := by
        have : ¬ cw > target := by omega
        simp [subsetLoop, hbit, this]
      rw [hpick, hres]
      exact ih (i + 1) cw comb hs hcw (by omega) hle

theorem and_one_shiftLeft_ne_zero (m i : Nat) :
    m &&& (1 <<< i) ≠ 0 ↔ m.testBit i = true := by
  rw [Nat.one_shiftLeft, Nat.and_two_pow]
  cases m.testBit i <;> simp

theorem pickMask_succ (m : Nat) (its : List Item) (i : Nat) :
    pickMask m (i + 1) its = pickMask (m / 2) i its := by
  induction its generalizing i with
  | nil => simp [pickMask]
  | cons a s ih =>
    have hb : (m &&& (1 <<< (i + 1)) ≠ 0) ↔ ((m / 2) &&& (1 <<< i) ≠ 0) := by
      rw [and_one_shiftLeft_ne_zero, and_one_shiftLeft_ne_zero, Nat.testBit_succ]
    unfold pickMask
    rw [ih (i + 1)]
    by_cases h : m &&& (1 <<< (i + 1)) ≠ 0
    · rw [if_pos h, if_pos (hb.mp h)]
    · rw [if_neg h, if_neg (fun h2 => h (hb.mpr h2))]

/-- Every sub-collection of the items is the selection of some mask below `2 ^ n`. -/
theorem exists_mask_of_sublist {s its : List Item} (h : s.Sublist its) :
    ∃ m, m < 2 ^ its.length ∧ pickMask m 0 its = s := by
  induction h with
  | slnil => exact ⟨0, by simp, by simp [pickMask]⟩
  | @cons s t a _ ih =>
    obtain ⟨m, hm, hp⟩ := ih
    refine ⟨2 * m, ?_, ?_⟩
    · rw [List.length_cons, pow_succ]; omega
    · have hb : ¬ ((2 * m) &&& (1 <<< 0) ≠ 0) := by
        rw [and_one_shiftLeft_ne_zero]; simp
      unfold pickMask
      rw [if_neg hb, pickMask_succ]
      simpa using hp
  | @cons₂ s t a _ ih =>
    obtain ⟨m, hm, hp⟩ := ih
    refine ⟨2 * m + 1, ?_, ?_⟩
    · rw [List.length_cons, pow_succ]; omega
    · have hb : (2 * m + 1) &&& (1 <<< 0) ≠ 0 := by
        rw [and_one_shiftLeft_ne_zero]; simp; omega
      have hdiv : (2 * m + 1) / 2 = m := by omega
      unfold pickMask
      rw [if_pos hb, pickMask_succ, hdiv, hp]

theorem pickMask_zero (its : List Item) (i : Nat) : pickMask 0 i its = [] := by
  induction its generalizing i with
  | nil => simp [pickMask]
  | cons a s ih => simp [pickMask, ih]

theorem maskStep_spec {items : List Item} {target : Int} (hfit : weightsFit items)
    (ht : 0 ≤ target) (st : Int × List (List Int)) (m : Nat) :
    maskStep items target st m =
      if maskWeight items m > target then st
      else if maskWeight items m > st.1 then (maskWeight items m, [maskIndices items m])
      else if maskWeight items m = st.1 then (st.1, st.2 ++ [maskIndices items m])
      else st := by
  have h := subsetLoop_spec target m items 0 0 [] hfit.1 (le_refl 0)
    (by have := hfit.2; omega) ht
  simp only [zero_add, List.nil_append] at h
  by_cases hover : maskWeight items m > target
  · have h2 := h.2 hover
    simp only [maskStep, gt_iff_lt, h2, hover, if_true]
  · have h1 := h.1 (by unfold maskWeight at hover; omega)
    unfold maskStep
    rw [h1]
    simp only [maskWeight, maskIndices]

/-- The state of the outer loop after the masks below `k`. -/
theorem fold_invariant {items : List Item} {target : Int} (hfit : weightsFit items)
    (ht : 0 ≤ target) (k : Nat) :
    let st := (List.range k).foldl (maskStep items target) (0, [])
    0 ≤ st.1 ∧ st.1 ≤ target ∧
    (∀ m, m < k → maskWeight items m ≤ target → maskWeight items m ≤ st.1) ∧
    (∃ m, (m < k ∨ m = 0) ∧ maskWeight items m = st.1) ∧
    st.2 = ((List.range k).filter (fun m => decide (maskWeight items m = st.1))).map
      (maskIndices items) := by
  induction k with
  | zero =>
    refine ⟨le_refl _, ht, ?_, ⟨0, Or.inr rfl, ?_⟩, ?_⟩
    · intro m hm; omega
    · simp [maskWeight, pickMask_zero]
    · simp
  | succ k ih =>
    simp only [List.range_succ, List.foldl_append, List.foldl_cons, List.foldl_nil]
    simp only at ih
    generalize (List.range k).foldl (maskStep items target) (0, []) = st at ih ⊢
    obtain ⟨h0, h1, h2, ⟨m0, hm0, hm0w⟩, h4⟩ := ih
    rw [maskStep_spec hfit ht]
    by_cases hover : maskWeight items k > target
    · simp only [hover, if_true]
      refine ⟨h0, h1, ?_, ⟨m0, by omega, hm0w⟩, ?_⟩
      · intro m hm hle
        rcases Nat.lt_succ_iff_lt_or_eq.mp hm with h | h
        · exact h2 m h hle
        · subst h; omega
      · have : ¬ maskWeight items k = st.1 := by omega
        rw [List.filter_append, h4]
        simp [this]
    · simp only [hover, if_false]
      by_cases hgt : maskWeight items k > st.1
      · simp only [hgt, if_true]
        refine ⟨by omega, by omega, ?_, ⟨k, by omega, rfl⟩, ?_⟩
        · intro m hm hle
          rcases Nat.lt_succ_iff_lt_or_eq.mp hm with h | h
          · have := h2 m h hle; omega
          · subst h; exact le_refl _
        · have hnone : (List.range k).filter
              (fun m => decide (maskWeight items m = maskWeight items k)) = [] := by
            rw [List.filter_eq_nil_iff]
            intro m hm
            have hmk : m < k := List.mem_range.mp hm
            simp only [decide_eq_true_eq]
            intro heq
            have := h2 m hmk (by omega)
            omega
          rw [List.filter_append, hnone]
          simp
      · simp only [hgt, if_false]
        by_cases heq : maskWeight items k = st.1
        · simp only [heq, if_true]
          refine ⟨h0, h1, ?_, ⟨m0, by omega, hm0w⟩, ?_⟩
          · intro m hm hle
            rcases Nat.lt_succ_iff_lt_or_eq.mp hm with h | h
            · exact h2 m h hle
            · subst h; omega
          · rw [List.filter_append, h4]
            simp [heq]
        · simp only [heq, if_false]
          refine ⟨h0, h1, ?_, ⟨m0, by omega, hm0w⟩, ?_⟩
          · intro m hm hle
            rcases Nat.lt_succ_iff_lt_or_eq.mp hm with h | h
            · exact h2 m h hle
            · subst h; omega
          · rw [List.filter_append, h4]
            simp [heq]

theorem maskLimit_small {n : Nat} (hn : n ≤ 62) : (maskLimit n).toNat = 2 ^ n := by
  have h1 : (2 : Int) ^ n ≤ 2 ^ 62 := pow_le_pow_right₀ (by norm_num) hn
  have h2 : (0 : Int) < 2 ^ n := by positivity
  have h3 : maskLimit n = 2 ^ n := by
    unfold maskLimit
    exact wrap64_of_isInt64 (by unfold isInt64; omega)
  rw [h3]
  exact_mod_cast Int.toNat_natCast (2 ^ n)

theorem solveKnapsack_eq_fold (items : List Item) (target : Int) (hn : items.length ≤ 62) :
    solveKnapsack items target =
      { AchievedWeight :=
          ((List.range (2 ^ items.length)).foldl (maskStep items target) (0, [])).1,
        Combinations :=
          ((List.range (2 ^ items.length)).foldl (maskStep items target) (0, [])).2 } := by
  unfold solveKnapsack
  rw [maskLimit_small hn]

theorem achieved_isMax {items : List Item} {target : Int} (hn : items.length ≤ 62)
    (hfit : weightsFit items) (ht : 0 ≤ target) :
    IsMaxFeasibleWeight items target (solveKnapsack items target).AchievedWeight := by
  rw [solveKnapsack_eq_fold items target hn]
  have hinv := fold_invariant hfit ht (2 ^ items.length)
  simp only at hinv
  generalize (List.range (2 ^ items.length)).foldl (maskStep items target) (0, []) = st
    at hinv ⊢
  obtain ⟨_, h1, h2, ⟨m0, _, hm0w⟩, _⟩ := hinv
  refine ⟨⟨pickMask m0 0 items, pickMask_sublist _ _ _, hm0w, h1⟩, ?_⟩
  intro s hs hle
  obtain ⟨m, hm, hp⟩ := exists_mask_of_sublist hs
  have := h2 m hm (by unfold maskWeight; rw [hp]; exact hle)
  unfold maskWeight at this
  rw [hp] at this
  exact this

theorem combinations_spec {items : List Item} {target : Int} (hn : items.length ≤ 62)
    (hfit : weightsFit items) (ht : 0 ≤ target) :
    (∀ c : List Int, c ∈ (solveKnapsack items target).Combinations ↔
      ∃ s : List Item, IsOptimalSubset items target s ∧ c = s.map Item.Index) ∧
    (solveKnapsack items target).Combinations ≠ [] := by
  have hmax := achieved_isMax hn hfit ht
  rw [solveKnapsack_eq_fold items target hn] at hmax ⊢
  have hinv := fold_invariant hfit ht (2 ^ items.length)
  simp only at hinv hmax ⊢
  generalize (List.range (2 ^ items.length)).foldl (maskStep items target) (0, []) = st
    at hinv hmax ⊢
  obtain ⟨_, h1, h2, ⟨m0, hm0, hm0w⟩, h4⟩ := hinv
  have hm0lt : m0 < 2 ^ items.length := by
    rcases hm0 with h | h
    · exact h
    · rw [h]; positivity
  constructor
  · intro c
    rw [h4]
    simp only [List.mem_map, List.mem_filter, List.mem_range, decide_eq_true_eq]
    constructor
    · rintro ⟨m, ⟨_, hw⟩, rfl⟩
      refine ⟨pickMask m 0 items, ⟨pickMask_sublist _ _ _, ?_, ?_⟩, rfl⟩
      · show maskWeight items m ≤ target
        omega
      · intro s' hs' hle
        show totalWeight s' ≤ maskWeight items m
        rw [hw]
        exact hmax.2 s' hs' hle
    · rintro ⟨s, ⟨hs, hle, hopt⟩, rfl⟩
      obtain ⟨m, hm, hp⟩ := exists_mask_of_sublist hs
      refine ⟨m, ⟨hm, ?_⟩, by unfold maskIndices; rw [hp]⟩
      have hle2 : maskWeight items m ≤ st.1 :=
        h2 m hm (by unfold maskWeight; rw [hp]; exact hle)
      have hge : st.1 ≤ maskWeight items m := by
        have := hopt (pickMask m0 0 items) (pickMask_sublist _ _ _)
          (by show maskWeight items m0 ≤ target; omega)
        unfold maskWeight
        rw [hp]
        unfold maskWeight at hm0w
        omega
      omega
  · rw [h4]
    intro hnil
    have hmem : maskIndices items m0 ∈ ((List.range (2 ^ items.length)).filter
        (fun m => decide (maskWeight items m = st.1))).map (maskIndices items) := by
      simp only [List.mem_map, List.mem_filter, List.mem_range, decide_eq_true_eq]
      exact ⟨m0, ⟨hm0lt, hm0w⟩, rfl⟩
    rw [hnil] at hmem
    exact absurd hmem (List.not_mem_nil _)

theorem wrap64_add_wrap64 (a b : Int) : wrap64 (wrap64 a + b) = wrap64 (a + b) := by
  unfold wrap64; omega

theorem wrap64_wrapSum (cw : Int) (s : List Item) :
    wrap64 (wrapSum cw s) = wrap64 (cw + totalWeight s) := by
  induction s generalizing cw with
  | nil => simp [wrapSum]
  | cons a s ih =>
    have h := ih (wrap64 (cw + a.Weight))
    simp only [wrapSum, List.foldl_cons] at h ⊢
    rw [h, wrap64_add_wrap64, totalWeight_cons, add_assoc]

theorem wrapSum_isInt64 {cw : Int} (h : isInt64 cw) (s : List Item) :
    isInt64 (wrapSum cw s) := by
  induction s generalizing cw with
  | nil => simpa [wrapSum] using h
  | cons a s ih =>
    simp only [wrapSum, List.foldl_cons]
    exact ih (wrap64_isInt64 _)

theorem wrapSum_zero (s : List Item) : wrapSum 0 s = wrap64 (totalWeight s) := by
  have h1 := wrap64_wrapSum 0 s
  have h2 : isInt64 (wrapSum 0 s) := wrapSum_isInt64 (by unfold isInt64; omega) s
  rw [wrap64_of_isInt64 h2, zero_add] at h1
  exact h1

/-- When the inner loop ends with a weight within the target, it has visited every item:
its result is the wrapped sum and the indices of the selected items. -/
theorem subsetLoop_done (target : Int) (mask : Nat) (its : List Item) :
    ∀ (i : Nat) (cw : Int) (comb : List Int),
      (subsetLoop target mask its i cw comb).1 ≤ target →
      subsetLoop target mask its i cw comb =
        (wrapSum cw (pickMask mask i its), comb ++ (pickMask mask i its).map Item.Index) := by
  induction its with
  | nil =>
    intro i cw comb _
    simp [pickMask, subsetLoop, wrapSum]
  | cons a s ih =>
    intro i cw comb hle
    by_cases hbit : mask &&& (1 <<< i) ≠ 0
    · have hpick : pickMask mask i (a :: s) = a :: pickMask mask (i + 1) s := by
        simp [pickMask, hbit]
      by_cases hover : wrap64 (cw + a.Weight) > target
      · have hres : subsetLoop target mask (a :: s) i cw comb
            = (wrap64 (cw + a.Weight), comb ++ [a.Index]) := by
          simp [subsetLoop, hbit, hover]
        rw [hres] at hle
        exact absurd hle (by simp only; omega)
      · have hres : subsetLoop target mask (a :: s) i cw comb
            = subsetLoop target mask s (i + 1) (wrap64 (cw + a.Weight))
                (comb ++ [a.Index]) := by
          simp [subsetLoop, hbit, hover]
        rw [hres] at hle ⊢
        rw [ih _ _ _ hle, hpick]
        simp [wrapSum]
    · have hpick : pickMask mask i (a :: s) = pickMask mask (i + 1) s := by
        simp [pickMask, hbit]
      by_cases hover : cw > target
      · have hres : subsetLoop target mask (a :: s) i cw comb = (cw, comb) := by
          simp [subsetLoop, hbit, hover]
        rw [hres] at hle
        exact absurd hle (by simp only; omega)
      · have hres : subsetLoop target mask (a :: s) i cw comb
            = subsetLoop target mask s (i + 1) cw comb := by
          simp [subsetLoop, hbit, hover]
        rw [hres] at hle ⊢
        rw [ih _ _ _ hle, hpick]

/-- Every recorded combination is the index list of a mask whose wrapped sum is the
current best weight. -/
theorem fold_combinations (items : List Item) (target : Int) (ms : List Nat) :
    ∀ st : Int × List (List Int),
      (∀ c ∈ st.2, ∃ m, c = maskIndices items m ∧ wrapSum 0 (pickMask m 0 items) = st.1) →
      ∀ c ∈ (ms.foldl (maskStep items target) st).2,
        ∃ m, c = maskIndices items m ∧
          wrapSum 0 (pickMask m 0 items) = (ms.foldl (maskStep items target) st).1 := by
  induction ms with
  | nil => intro st h; simpa using h
  | cons m ms ih =>
    intro st h
    rw [List.foldl_cons]
    apply ih
    unfold maskStep
    simp only
    by_cases hover : (subsetLoop target m items 0 0 []).1 > target
    · simpa only [hover, if_true] using h
    · have hdone := subsetLoop_done target m items 0 0 [] (by omega)
      simp only [hover, if_false]
      by_cases hgt : (subsetLoop target m items 0 0 []).1 > st.1
      · simp only [hgt, if_true]
        intro c hc
        rw [List.mem_singleton] at hc
        refine ⟨m, ?_, ?_⟩
        · rw [hc, hdone]; simp [maskIndices]
        · rw [hdone]
      · simp only [hgt, if_false]
        by_cases heq : (subsetLoop target m items 0 0 []).1 = st.1
        · simp only [heq, if_true]
          intro c hc
          rcases List.mem_append.mp hc with hc | hc
          · exact h c hc
          · rw [List.mem_singleton] at hc
            refine ⟨m, ?_, ?_⟩
            · rw [hc, hdone]; simp [maskIndices]
            · rw [← heq, hdone]
        · simpa only [heq, if_false] using h

theorem index_of_position {items : List Item} (hidx : IndexIsPosition items) (p : Nat)
    (hp : p < items.length) : (items[p]).Index = (p : Int) := by
  have h := congrArg (fun l => l[p]?) hidx
  simp only [List.getElem?_map, List.getElem?_eq_getElem hp, List.getElem?_range hp,
    Option.map_some'] at h
  exact Option.some.inj h

theorem weightOfIndices_map_index {items : List Item} (hidx : IndexIsPosition items)
    {s : List Item} (hs : ∀ it ∈ s, it ∈ items) :
    weightOfIndices items (s.map Item.Index) = totalWeight s := by
  unfold weightOfIndices totalWeight
  rw [List.map_map]
  congr 1
  apply List.map_congr_left
  intro it hit
  obtain ⟨p, hp, hget⟩ := List.mem_iff_getElem.mp (hs it hit)
  have hi : it.Index = (p : Int) := by
    have := index_of_position hidx p hp
    rw [hget] at this
    exact this
  have hlook : items[p]? = some it := by
    rw [List.getElem?_eq_getElem hp, hget]
  simp only [Function.comp, hi, Int.toNat_ofNat, hlook]
  have : ¬ ((p : Int) < 0) := by omega
  simp [this]

@[simp] theorem absTotal_cons (it : Item) (s : List Item) :
    absTotal (it :: s) = |it.Weight| + absTotal s := by
  simp [absTotal]

theorem absTotal_nonneg (s : List Item) : 0 ≤ absTotal s := by
  induction s with
  | nil => simp [absTotal]
  | cons a s ih => rw [absTotal_cons]; have := abs_nonneg a.Weight; omega

theorem abs_totalWeight_le_of_sublist {s t : List Item} (hst : s.Sublist t) :
    |totalWeight s| ≤ absTotal t := by
  induction hst with
  | slnil => simp [absTotal]
  | cons a _ ih =>
    rw [absTotal_cons]; have := abs_nonneg a.Weight; omega
  | @cons₂ s1 _ a _ ih =>
    rw [absTotal_cons, totalWeight_cons]
    have := abs_add a.Weight (totalWeight s1)
    omega

theorem combination_weight {items : List Item} (target : Int) (hidx : IndexIsPosition items)
    {c : List Int} (hc : c ∈ (solveKnapsack items target).Combinations) :
    wrap64 (weightOfIndices items c) = (solveKnapsack items target).AchievedWeight ∧
    (absTotal items < 2 ^ 63 →
      weightOfIndices items c = (solveKnapsack items target).AchievedWeight) := by
  unfold solveKnapsack at hc ⊢
  simp only at hc ⊢
  obtain ⟨m, hm, hw⟩ := fold_combinations items target _ (0, [])
    (by intro c hc; simp at hc) c hc
  have hsub := pickMask_sublist m items 0
  have hlook : weightOfIndices items c = totalWeight (pickMask m 0 items) := by
    rw [hm]
    exact weightOfIndices_map_index hidx (fun it hit => hsub.subset hit)
  rw [wrapSum_zero] at hw
  rw [hlook]
  refine ⟨hw, fun habs => ?_⟩
  rw [← hw]
  have := abs_totalWeight_le_of_sublist hsub
  have h2 := abs_le.mp this
  exact (wrap64_of_isInt64 (by unfold isInt64; omega)).symm

theorem fold_bounds (items : List Item) (target : Int) (ms : List Nat) :
    ∀ st : Int × List (List Int), 0 ≤ st.1 ∧ st.1 ≤ target →
      0 ≤ (ms.foldl (maskStep items target) st).1 ∧
        (ms.foldl (maskStep items target) st).1 ≤ target := by
  induction ms with
  | nil => intro st h; simpa using h
  | cons m ms ih =>
    intro st h
    rw [List.foldl_cons]
    apply ih
    unfold maskStep
    simp only
    split_ifs <;> omega

theorem subsetLoop_cons_set (t : Int) {mask i : Nat} (h : mask &&& (1 <<< i) ≠ 0)
    (a : Item) (s : List Item) (cw : Int) (comb : List Int) :
    subsetLoop t mask (a :: s) i cw comb =
      if wrap64 (cw + a.Weight) > t then (wrap64 (cw + a.Weight), comb ++ [a.Index])
      else subsetLoop t mask s (i + 1) (wrap64 (cw + a.Weight)) (comb ++ [a.Index]) := by
  simp [subsetLoop, h]

theorem subsetLoop_cons_unset (t : Int) {mask i : Nat} (h : ¬ mask &&& (1 <<< i) ≠ 0)
    (a : Item) (s : List Item) (cw : Int) (comb : List Int) :
    subsetLoop t mask (a :: s) i cw comb =
      if cw > t then (cw, comb) else subsetLoop t mask s (i + 1) cw comb := by
  simp [subsetLoop, h]

/-- A subset that survives the inner loop under a target survives it, with the same
result, under any larger target. -/
theorem subsetLoop_mono {t1 t2 : Int} (h12 : t1 ≤ t2) (mask : Nat) (its : List Item) :
    ∀ (i : Nat) (cw : Int) (comb : List Int),
      (subsetLoop t1 mask its i cw comb).1 ≤ t1 →
      subsetLoop t2 mask its i cw comb = subsetLoop t1 mask its i cw comb := by
  induction its with
  | nil => intro i cw comb _; simp [subsetLoop]
  | cons a s ih =>
    intro i cw comb h
    by_cases hbit : mask &&& (1 <<< i) ≠ 0
    · rw [subsetLoop_cons_set t1 hbit] at h ⊢
      rw [subsetLoop_cons_set t2 hbit]
      by_cases hover : wrap64 (cw + a.Weight) > t1
      · rw [if_pos hover] at h
        exact absurd h (by dsimp only; omega)
      · have hover2 : ¬ wrap64 (cw + a.Weight) > t2 := by omega
        rw [if_neg hover] at h ⊢
        rw [if_neg hover2]
        exact ih _ _ _ h
    · rw [subsetLoop_cons_unset t1 hbit] at h ⊢
      rw [subsetLoop_cons_unset t2 hbit]
      by_cases hover : cw > t1
      · rw [if_pos hover] at h
        exact absurd h (by dsimp only; omega)
      · have hover2 : ¬ cw > t2 := by omega
        rw [if_neg hover] at h ⊢
        rw [if_neg hover2]
        exact ih _ _ _ h

theorem maskStep_mono {t1 t2 : Int} (h12 : t1 ≤ t2) (items : List Item) (m : Nat)
    (st1 st2 : Int × List (List Int)) (h : st1.1 ≤ st2.1) :
    (maskStep items t1 st1 m).1 ≤ (maskStep items t2 st2 m).1 := by
  by_cases hsurv : (subsetLoop t1 m items 0 0 []).1 ≤ t1
  · have heq := subsetLoop_mono h12 m items 0 0 [] hsurv
    unfold maskStep
    simp only [heq]
    split_ifs <;> omega
  · have h1 : maskStep items t1 st1 m = st1 := by
      unfold maskStep
      simp only
      rw [if_pos (by omega)]
    rw [h1]
    unfold maskStep
    simp only
    split_ifs <;> omega

theorem fold_mono {t1 t2 : Int} (h12 : t1 ≤ t2) (items : List Item) (ms : List Nat) :
    ∀ st1 st2 : Int × List (List Int), st1.1 ≤ st2.1 →
      (ms.foldl (maskStep items t1) st1).1 ≤ (ms.foldl (maskStep items t2) st2).1 := by
  induction ms with
  | nil => intro st1 st2 h; simpa using h
  | cons m ms ih =>
    intro st1 st2 h
    rw [List.foldl_cons, List.foldl_cons]
    exact ih _ _ (maskStep_mono h12 items m st1 st2 h)

theorem solveKnapsack_bounds (items : List Item) (target : Int) (ht : 0 ≤ target) :
    0 ≤ (solveKnapsack items target).AchievedWeight ∧
      (solveKnapsack items target).AchievedWeight ≤ target := by
  unfold solveKnapsack
  exact fold_bounds items target _ (0, []) ⟨le_refl 0, ht⟩

theorem overflowItems_no_weight_three : ∀ s ∈ overflowItems.sublists, totalWeight s ≠ 3 := by
  decide

theorem overflowItems_all_indices :
    ∀ s ∈ overflowItems.sublists, [0, 1, 2, 3] = s.map Item.Index → ¬ totalWeight s ≤ 3 := by
  decide

/-! ## The exhaustive solver: claims -/

/-- C1 (amended): for an item set of at most 62 items with non-negative weights whose total
is below `2 ^ 63`, and a target `≥ 0`, the `AchievedWeight` returned by `solveKnapsack` is
the total weight of some sub-collection of the items, does not exceed the target, and is
at least the total weight of every sub-collection that does not exceed the target. -/
theorem solveKnapsack_achievedWeight_is_max (items : List Item) (target : Int)
    (hn : items.length ≤ 62) (hw : ∀ it ∈ items, 0 ≤ it.Weight)
    (hsum : totalWeight items < 2 ^ 63) (ht : 0 ≤ target) :
    IsMaxFeasibleWeight items target (solveKnapsack items target).AchievedWeight :=
  achieved_isMax hn ⟨hw, hsum⟩ ht

/-- C1, witness: weights `[2, 3, 4, 5]` and target `5`. -/
theorem solveKnapsack_achievedWeight_is_max_witness :
    (scenarioItems.length ≤ 62 ∧ (∀ it ∈ scenarioItems, 0 ≤ it.Weight) ∧
      totalWeight scenarioItems < 2 ^ 63 ∧ (0 : Int) ≤ 5) ∧
    IsMaxFeasibleWeight scenarioItems 5 (solveKnapsack scenarioItems 5).AchievedWeight :=
  ⟨by decide, solveKnapsack_achievedWeight_is_max scenarioItems 5 (by decide) (by decide)
    (by decide) (by decide)⟩

/-- C1, counterexample: on four items of weights `1, 2^63-1, 2^63-1, 4` (all non-negative
`int` values) and target `3` the sum of all four wraps around to `3`, which
`solveKnapsack` returns as `AchievedWeight`, although no sub-collection weighs `3`. -/
theorem solveKnapsack_achievedWeight_overflow :
    overflowItems.length ≤ 62 ∧
    (∀ it ∈ overflowItems, 0 ≤ it.Weight ∧ isInt64 it.Weight) ∧ (0 : Int) ≤ 3 ∧
    (solveKnapsack overflowItems 3).AchievedWeight = 3 ∧
    ¬ IsMaxFeasibleWeight overflowItems 3 (solveKnapsack overflowItems 3).AchievedWeight := by
  refine ⟨by decide, by decide, by decide, by decide, ?_⟩
  rintro ⟨⟨s, hs, hw, _⟩, _⟩
  have h3 : (solveKnapsack overflowItems 3).AchievedWeight = 3 := by decide
  rw [h3] at hw
  exact overflowItems_no_weight_three s (List.mem_sublists.mpr hs) hw

/-- C2 (amended): for an item set of at most 62 items with non-negative weights whose total
is below `2 ^ 63`, and a target `≥ 0`, a combination is in the `Combinations` returned by
`solveKnapsack` exactly when it is the list of the `Index` values of a sub-collection that
is within the target and at least as heavy as every sub-collection within the target; and
`Combinations` is not empty.  (This holds whatever the `Index` values are; when they are
the positions, the list is the list of included positions.) -/
theorem solveKnapsack_combinations_are_optima (items : List Item) (target : Int)
    (hn : items.length ≤ 62) (hw : ∀ it ∈ items, 0 ≤ it.Weight)
    (hsum : totalWeight items < 2 ^ 63) (ht : 0 ≤ target) :
    (∀ c : List Int, c ∈ (solveKnapsack items target).Combinations ↔
      ∃ s : List Item, IsOptimalSubset items target s ∧ c = s.map Item.Index) ∧
    (solveKnapsack items target).Combinations ≠ [] :=
  combinations_spec hn ⟨hw, hsum⟩ ht

/-- C2, witness: weights `[2, 3, 4, 5]` and target `5`. -/
theorem solveKnapsack_combinations_are_optima_witness :
    (scenarioItems.length ≤ 62 ∧ (∀ it ∈ scenarioItems, 0 ≤ it.Weight) ∧
      totalWeight scenarioItems < 2 ^ 63 ∧ (0 : Int) ≤ 5) ∧
    ((∀ c : List Int, c ∈ (solveKnapsack scenarioItems 5).Combinations ↔
      ∃ s : List Item, IsOptimalSubset scenarioItems 5 s ∧ c = s.map Item.Index) ∧
    (solveKnapsack scenarioItems 5).Combinations ≠ []) :=
  ⟨by decide, solveKnapsack_combinations_are_optima scenarioItems 5 (by decide) (by decide)
    (by decide) (by decide)⟩

/-- C2, counterexample: for 63 items of weight one, indexed by position, and target `0`
the loop bound `1 << 63` is negative, no subset is visited and `Combinations` is empty;
and for the weights `1, 2^63-1, 2^63-1, 4` and target `3` the combination `[0, 1, 2, 3]`
is returned although the four items together weigh far more than the target. -/
theorem solveKnapsack_combinations_counterexample :
    (IndexIsPosition unitItems63 ∧ (∀ it ∈ unitItems63, 0 ≤ it.Weight) ∧
      (solveKnapsack unitItems63 0).Combinations = []) ∧
    (IndexIsPosition overflowItems ∧ (∀ it ∈ overflowItems, 0 ≤ it.Weight) ∧
      [0, 1, 2, 3] ∈ (solveKnapsack overflowItems 3).Combinations ∧
      ¬ ∃ s : List Item, IsOptimalSubset overflowItems 3 s ∧ [0, 1, 2, 3] = s.map Item.Index) := by
  refine ⟨⟨by decide, by decide, by decide⟩, by decide, by decide, by decide, ?_⟩
  rintro ⟨s, ⟨hs, hle, _⟩, hc⟩
  exact overflowItems_all_indices s (List.mem_sublists.mpr hs) hc hle

/-- C3 (amended): for an item set whose items carry `Index` equal to their position and
every target, every combination in the `Combinations` returned by `solveKnapsack` has a
total weight (the sum of the weights of the items whose indices it lists) that, reduced to
the 64-bit `int` range, equals the returned `AchievedWeight`; when the absolute values of
the weights sum to less than `2 ^ 63` the total weight itself equals `AchievedWeight`. -/
theorem solveKnapsack_combination_weight (items : List Item) (target : Int)
    (hidx : IndexIsPosition items) (c : List Int)
    (hc : c ∈ (solveKnapsack items target).Combinations) :
    wrap64 (weightOfIndices items c) = (solveKnapsack items target).AchievedWeight ∧
    (absTotal items < 2 ^ 63 →
      weightOfIndices items c = (solveKnapsack items target).AchievedWeight) :=
  combination_weight target hidx hc

/-- C3, witness: weights `[2, 3, 4, 5]`, target `5`, combination `[0, 1]`. -/
theorem solveKnapsack_combination_weight_witness :
    (IndexIsPosition scenarioItems ∧ [0, 1] ∈ (solveKnapsack scenarioItems 5).Combinations) ∧
    (wrap64 (weightOfIndices scenarioItems [0, 1])
        = (solveKnapsack scenarioItems 5).AchievedWeight ∧
      (absTotal scenarioItems < 2 ^ 63 →
        weightOfIndices scenarioItems [0, 1] = (solveKnapsack scenarioItems 5).AchievedWeight)) :=
  ⟨by decide, solveKnapsack_combination_weight scenarioItems 5 (by decide) [0, 1] (by decide)⟩

/-- C3, counterexample: for the weights `1, 2^63-1, 2^63-1, 4` (indices `0..3`) and target
`3`, the combination `[0, 1, 2, 3]` is returned with `AchievedWeight` `3`, while the four
weights sum to `2^64 + 3`. -/
theorem solveKnapsack_combination_weight_overflow :
    IndexIsPosition overflowItems ∧ (0 : Int) ≤ 3 ∧
    [0, 1, 2, 3] ∈ (solveKnapsack overflowItems 3).Combinations ∧
    weightOfIndices overflowItems [0, 1, 2, 3] = 2 ^ 64 + 3 ∧
    weightOfIndices overflowItems [0, 1, 2, 3]
      ≠ (solveKnapsack overflowItems 3).AchievedWeight := by
  decide

/-- C4: for every item set and every target `≥ 0`, the `AchievedWeight` returned by
`solveKnapsack` satisfies `0 ≤ AchievedWeight ≤ target`. -/
theorem solveKnapsack_achievedWeight_bounds (items : List Item) (target : Int)
    (ht : 0 ≤ target) :
    0 ≤ (solveKnapsack items target).AchievedWeight ∧
      (solveKnapsack items target).AchievedWeight ≤ target :=
  solveKnapsack_bounds items target ht

/-- C4, witness: weights `[2, 3, 4, 5]` and target `5`. -/
theorem solveKnapsack_achievedWeight_bounds_witness :
    (0 : Int) ≤ 5 ∧
    (0 ≤ (solveKnapsack scenarioItems 5).AchievedWeight ∧
      (solveKnapsack scenarioItems 5).AchievedWeight ≤ 5) :=
  ⟨by decide, solveKnapsack_achievedWeight_bounds scenarioItems 5 (by decide)⟩

/-- C5: for every item set and every pair of targets `t1 ≤ t2`, the `AchievedWeight` of
`solveKnapsack items t1` is at most the `AchievedWeight` of `solveKnapsack items t2`. -/
theorem solveKnapsack_monotone_in_target (items : List Item) (t1 t2 : Int) (h : t1 ≤ t2) :
    (solveKnapsack items t1).AchievedWeight ≤ (solveKnapsack items t2).AchievedWeight := by
  unfold solveKnapsack
  exact fold_mono h items _ (0, []) (0, []) (le_refl 0)

/-- C5, witness: weights `[2, 3, 4, 5]`, targets `4` and `6`. -/
theorem solveKnapsack_monotone_in_target_witness :
    (4 : Int) ≤ 6 ∧
    (solveKnapsack scenarioItems 4).AchievedWeight
      ≤ (solveKnapsack scenarioItems 6).AchievedWeight :=
  ⟨by decide, solveKnapsack_monotone_in_target scenarioItems 4 6 (by decide)⟩


/-! ## The genetic algorithm: lemmas -/

theorem ulpSearch_spec (m : Nat) (fuel : Nat) :
    ∀ j : Nat, (j = 0 ∨ 2 ^ (52 + j) ≤ m) →
      ∃ k, k ≤ j + fuel ∧ ulpSearch fuel m (2 ^ j) = 2 ^ k ∧
        (k = 0 ∨ 2 ^ (52 + k) ≤ m) ∧ (k < j + fuel → m < 2 ^ (53 + k)) := by
  induction fuel with
  | zero =>
    intro j hj
    exact ⟨j, le_refl _, rfl, hj, fun h => absurd h (lt_irrefl _)⟩
  | succ fuel ih =>
    intro j hj
    unfold ulpSearch
    by_cases hlt : m < 2 ^ 53 * 2 ^ j
    · rw [if_pos hlt]
      exact ⟨j, by omega, rfl, hj, fun _ => by rw [pow_add]; exact hlt⟩
    · rw [if_neg hlt]
      have hge : 2 ^ (52 + (j + 1)) ≤ m := by
        have : (2 : Nat) ^ (52 + (j + 1)) = 2 ^ 53 * 2 ^ j := by
          rw [← pow_add]; congr 1; omega
        omega
      obtain ⟨k, hk1, hk2, hk3, hk4⟩ := ih (j + 1) (Or.inr hge)
      refine ⟨k, by omega, ?_, hk3, fun h => hk4 (by omega)⟩
      rw [← hk2, pow_succ, mul_comm]

theorem ulp_cases (m : Nat) :
    ∃ k, k ≤ 11 ∧ ulpSearch 11 m 1 = 2 ^ k ∧
      (k = 0 ∨ 2 ^ (52 + k) ≤ m) ∧ (k < 11 → m < 2 ^ (53 + k)) := by
  have h := ulpSearch_spec m 11 0 (Or.inl rfl)
  simpa using h

theorem roundNat53_eq_zero {m : Nat} (h : roundNat53 m = 0) : m = 0 := by
  obtain ⟨k, hk, hu, hlo, _⟩ := ulp_cases m
  simp only [roundNat53, hu] at h
  interval_cases k <;> simp only [Nat.reducePow, Nat.reduceAdd] at h hlo <;>
    split_ifs at h <;> omega

theorem roundNat53_lt {m : Nat} (h : m < 2 ^ 63 - 512) : roundNat53 m < 2 ^ 63 := by
  obtain ⟨k, hk, hu, hlo, hhi⟩ := ulp_cases m
  simp only [roundNat53, hu]
  interval_cases k <;> simp only [Nat.reducePow, Nat.reduceAdd] at hlo hhi ⊢ <;>
    split_ifs <;> omega

theorem fitnessOf_eq_zero {target w : Int} (h : fitnessOf target w = 0) :
    wrap64 (target - w) = 0 := by
  unfold fitnessOf intOfFloat64 at h
  split_ifs at h with hr
  · have h0 : float64OfInt (wrap64 (target - w)) = 0 := abs_eq_zero.mp h
    unfold float64OfInt at h0
    have hr0 : roundNat53 (wrap64 (target - w)).natAbs = 0 := by
      split_ifs at h0 <;> omega
    have := roundNat53_eq_zero hr0
    omega
  · omega

theorem fitnessOf_nonneg {target w : Int} (h : |target - w| < 2 ^ 63 - 512) :
    0 ≤ fitnessOf target w := by
  have hb := abs_lt.mp h
  have hwrap : wrap64 (target - w) = target - w :=
    wrap64_of_isInt64 (by unfold isInt64; omega)
  have hlt : roundNat53 (target - w).natAbs < 2 ^ 63 := roundNat53_lt (by omega)
  have habs : |float64OfInt (target - w)| = (roundNat53 (target - w).natAbs : Int) := by
    unfold float64OfInt
    split_ifs
    · rw [abs_neg]; exact abs_of_nonneg (by positivity)
    · exact abs_of_nonneg (by positivity)
  unfold fitnessOf intOfFloat64
  rw [hwrap, habs]
  have hin : isInt64 (roundNat53 (target - w).natAbs : Int) := by
    unfold isInt64; omega
  rw [if_pos hin]
  positivity

theorem weighGenes_isInt64 (items : List Item) (genes : List Bool) :
    ∀ (i : Nat) (tw r : Int), isInt64 tw → weighGenes items genes i tw = some r → isInt64 r := by
  induction genes with
  | nil =>
    intro i tw r htw h
    simp only [weighGenes, Option.some.injEq] at h
    rw [← h]; exact htw
  | cons g rest ih =>
    intro i tw r htw h
    unfold weighGenes at h
    split_ifs at h
    · split at h
      · exact absurd h (by simp)
      · exact ih _ _ _ (wrap64_isInt64 _) h
    · exact ih _ _ _ htw h

theorem calculateFitness_evaluated {heap : Heap} {c c2 : Chromosome} {items : List Item}
    {target : Int} (h : calculateFitness heap c items target = some c2) :
    Evaluated target c2 := by
  unfold calculateFitness at h
  cases hg : heap[c.Genes]? with
  | none => rw [hg] at h; exact absurd h (by simp)
  | some genes =>
    rw [hg] at h
    simp only at h
    cases hw : weighGenes items genes 0 0 with
    | none => rw [hw] at h; exact absurd h (by simp)
    | some tw =>
      rw [hw] at h
      simp only [Option.some.injEq] at h
      rw [← h]
      exact ⟨weighGenes_isInt64 items genes 0 0 tw (by unfold isInt64; omega) hw, rfl⟩

theorem findBest_fold_mem (cs : List Chromosome) (b : Chromosome) :
    cs.foldl (fun best c => if c.Fitness < best.Fitness then c else best) b = b ∨
    cs.foldl (fun best c => if c.Fitness < best.Fitness then c else best) b ∈ cs := by
  induction cs generalizing b with
  | nil => left; rfl
  | cons a cs ih =>
    rw [List.foldl_cons]
    rcases ih (if a.Fitness < b.Fitness then a else b) with h | h
    · rw [h]
      split_ifs
      · right; exact List.mem_cons_self _ _
      · left; rfl
    · right; exact List.mem_cons_of_mem _ h

theorem findBest_fold_le (cs : List Chromosome) (b : Chromosome) :
    (cs.foldl (fun best c => if c.Fitness < best.Fitness then c else best) b).Fitness
        ≤ b.Fitness ∧
    ∀ c ∈ cs,
      (cs.foldl (fun best c => if c.Fitness < best.Fitness then c else best) b).Fitness
        ≤ c.Fitness := by
  induction cs generalizing b with
  | nil => exact ⟨le_refl _, fun c hc => absurd hc (List.not_mem_nil _)⟩
  | cons a cs ih =>
    rw [List.foldl_cons]
    obtain ⟨h1, h2⟩ := ih (if a.Fitness < b.Fitness then a else b)
    have h3 : (if a.Fitness < b.Fitness then a else b).Fitness ≤ b.Fitness ∧
        (if a.Fitness < b.Fitness then a else b).Fitness ≤ a.Fitness := by
      split_ifs <;> constructor <;> omega
    refine ⟨le_trans h1 h3.1, fun c hc => ?_⟩
    rcases List.mem_cons.mp hc with h | h
    · rw [h]; exact le_trans h1 h3.2
    · exact h2 c h

theorem findBest_mem {population : List Chromosome} {b : Chromosome}
    (h : findBest population = some b) : b ∈ population := by
  unfold findBest at h
  split at h
  · exact absurd h (by simp)
  · next first rest =>
    simp only [Option.some.injEq] at h
    rw [← h]
    rcases findBest_fold_mem (first :: rest) first with h2 | h2
    · rw [h2]; exact List.mem_cons_self _ _
    · exact h2

theorem findBest_le {population : List Chromosome} {b : Chromosome}
    (h : findBest population = some b) : ∀ c ∈ population, b.Fitness ≤ c.Fitness := by
  unfold findBest at h
  split at h
  · exact absurd h (by simp)
  · next first rest =>
    simp only [Option.some.injEq] at h
    rw [← h]
    exact (findBest_fold_le (first :: rest) first).2


theorem breedPair_calc {Q : Chromosome → Prop} {items : List Item} {target : Int}
    (hQ : ∀ heap c c2, calculateFitness heap c items target = some c2 → Q c2)
    {rng : Nat → Nat} {config : GAConfig} {population : List Chromosome} {w w2 : World}
    {c1 c2 : Chromosome}
    (h : breedPair rng items target config population w = some ((c1, c2), w2)) :
    Q c1 ∧ Q c2 := by
  unfold breedPair at h
  split at h
  · contradiction
  · split at h
    · contradiction
    · next parent1 cursor1 _ _ parent2 cursor2 _ =>
      simp only at h
      generalize (if (randFloat64 rng cursor2).1 < config.CrossoverRate then
          crossover rng parent1 parent2
            { heap := w.heap, cursor := (randFloat64 rng cursor2).2 }
        else some ((parent1, parent2),
            { heap := w.heap, cursor := (randFloat64 rng cursor2).2 })) = offspring at h
      repeat' (split at h <;> try contradiction)
      simp only [Option.some.injEq, Prod.mk.injEq] at h
      obtain ⟨⟨rfl, rfl⟩, rfl⟩ := h
      exact ⟨hQ _ _ _ (by assumption), hQ _ _ _ (by assumption)⟩

theorem fillPopulation_calc {Q : Chromosome → Prop} {items : List Item} {target : Int}
    (hQ : ∀ heap c c2, calculateFitness heap c items target = some c2 → Q c2)
    (rng : Nat → Nat) (config : GAConfig) (population : List Chromosome) (need : Nat) :
    ∀ (acc : List Chromosome) (w : World) (newPopulation : List Chromosome) (w2 : World),
      fillPopulation rng items target config population need acc w = some (newPopulation, w2) →
      (∀ c ∈ acc, Q c) → ∀ c ∈ newPopulation, Q c := by
  induction need using Nat.strong_induction_on with
  | _ need ih =>
    intro acc w newPopulation w2 h hacc
    match need, ih with
    | 0, _ =>
      simp only [fillPopulation, Option.some.injEq, Prod.mk.injEq] at h
      rw [← h.1]; exact hacc
    | 1, _ =>
      unfold fillPopulation at h
      split at h
      · exact absurd h (by simp)
      · next c1 c2 w3 hb =>
        simp only [Option.some.injEq, Prod.mk.injEq] at h
        have hq := breedPair_calc hQ hb
        rw [← h.1]
        intro c hc
        rcases List.mem_append.mp hc with hc | hc
        · exact hacc c hc
        · simp only [List.mem_cons, List.mem_singleton, List.not_mem_nil, or_false] at hc
          rcases hc with rfl | rfl
          · exact hq.1
          · exact hq.2
    | k + 2, ih =>
      unfold fillPopulation at h
      split at h
      · exact absurd h (by simp)
      · next c1 c2 w3 hb =>
        have hq := breedPair_calc hQ hb
        refine ih k (by omega) _ _ _ _ h ?_
        intro c hc
        rcases List.mem_append.mp hc with hc | hc
        · exact hacc c hc
        · simp only [List.mem_cons, List.mem_singleton, List.not_mem_nil, or_false] at hc
          rcases hc with rfl | rfl
          · exact hq.1
          · exact hq.2

theorem initLoop_calc {Q : Chromosome → Prop} {items : List Item} {target : Int}
    (hQ : ∀ heap c c2, calculateFitness heap c items target = some c2 → Q c2)
    (rng : Nat → Nat) (itemCount : Nat) (k : Nat) :
    ∀ (w : World) (population : List Chromosome) (w2 : World),
      initLoop rng itemCount items target k w = some (population, w2) →
      ∀ c ∈ population, Q c := by
  induction k with
  | zero =>
    intro w population w2 h
    simp only [initLoop, Option.some.injEq, Prod.mk.injEq] at h
    rw [← h.1]
    intro c hc
    exact absurd hc (List.not_mem_nil _)
  | succ k ih =>
    intro w population w2 h
    unfold initLoop at h
    simp only at h
    split at h
    · exact absurd h (by simp)
    · next c0 hc0 =>
      split at h
      · exact absurd h (by simp)
      · next cs w3 hrest =>
        simp only [Option.some.injEq, Prod.mk.injEq] at h
        rw [← h.1]
        intro c hc
        rcases List.mem_cons.mp hc with rfl | hc
        · exact hQ _ _ _ hc0
        · exact ih _ _ _ hrest c hc


theorem updateBest_inl {config : GAConfig} {gen : Nat} {heap : Heap}
    {cur best : Chromosome} {cnt : Int} {run : GARun}
    (h : updateBest config gen heap cur best cnt = Sum.inl run) :
    cur.Fitness ≥ best.Fitness ∧ cnt + 1 ≥ config.MaxNoImprovement ∧
    run = { best := best, generations := gen + 1, terminationReason := "no_improvement",
            noImprovementCount := cnt + 1, heap := heap } := by
  unfold updateBest at h
  split_ifs at h with h1 h2
  exact ⟨h1, h2, (Sum.inl.inj h).symm⟩

theorem updateBest_inr {config : GAConfig} {gen : Nat} {heap : Heap}
    {cur best best2 : Chromosome} {cnt cnt2 : Int}
    (h : updateBest config gen heap cur best cnt = Sum.inr (best2, cnt2)) :
    (cur.Fitness ≥ best.Fitness ∧ cnt + 1 < config.MaxNoImprovement ∧
      best2 = best ∧ cnt2 = cnt + 1) ∨
    (cur.Fitness < best.Fitness ∧ best2 = cur ∧ cnt2 = 0) := by
  unfold updateBest at h
  split_ifs at h with h1 h2
  · have := Sum.inr.inj h
    simp only [Prod.mk.injEq] at this
    exact Or.inl ⟨h1, by omega, this.1.symm, this.2.symm⟩
  · have := Sum.inr.inj h
    simp only [Prod.mk.injEq] at this
    exact Or.inr ⟨by omega, this.1.symm, this.2.symm⟩

/-- The ways in which one generation can produce the result of the run. -/
theorem generationLoop_succ {rng : Nat → Nat} {clock : Nat → ℚ} {items : List Item}
    {problem : KnapsackProblem} {config : GAConfig} {remaining gen : Nat}
    {population : List Chromosome} {best : Chromosome} {cnt : Int} {w : World} {r : GARun}
    (h : generationLoop rng clock items problem config (remaining + 1) gen population best cnt w
      = some r) :
    ∃ (newPopulation : List Chromosome) (w2 : World) (cur : Chromosome),
      fillPopulation rng items problem.Target config population config.PopulationSize.toNat [] w
        = some (newPopulation, w2) ∧
      findBest newPopulation = some cur ∧
      ((cur.Fitness = 0 ∧
          r = { best := cur, generations := gen + 1, terminationReason := "zero_fitness",
                noImprovementCount := cnt, heap := w2.heap }) ∨
       (cur.Fitness ≠ 0 ∧ updateBest config gen w2.heap cur best cnt = Sum.inl r) ∨
       (cur.Fitness ≠ 0 ∧ ∃ (best2 : Chromosome) (cnt2 : Int),
          updateBest config gen w2.heap cur best cnt = Sum.inr (best2, cnt2) ∧
          (r = { best := best2, generations := gen + 1, terminationReason := "time_exceeded",
                 noImprovementCount := cnt2, heap := w2.heap } ∨
           generationLoop rng clock items problem config remaining (gen + 1) newPopulation
             best2 cnt2 w2 = some r))) := by
  unfold generationLoop at h
  cases hfill : fillPopulation rng items problem.Target config population
      config.PopulationSize.toNat [] w with
  | none => rw [hfill] at h; contradiction
  | some p =>
    obtain ⟨newPopulation, w2⟩ := p
    rw [hfill] at h
    simp only at h
    cases hbest : findBest newPopulation with
    | none => rw [hbest] at h; contradiction
    | some cur =>
      rw [hbest] at h
      simp only at h
      refine ⟨newPopulation, w2, cur, rfl, hbest, ?_⟩
      by_cases hz : cur.Fitness = 0
      · rw [if_pos hz] at h
        exact Or.inl ⟨hz, (Option.some.inj h).symm⟩
      · rw [if_neg hz] at h
        right
        cases hup : updateBest config gen w2.heap cur best cnt with
        | inl run =>
          rw [hup] at h
          simp only [Option.some.injEq] at h
          exact Or.inl ⟨hz, by rw [h]⟩
        | inr p2 =>
          obtain ⟨best2, cnt2⟩ := p2
          rw [hup] at h
          simp only at h
          refine Or.inr ⟨hz, best2, cnt2, rfl, ?_⟩
          split_ifs at h
          · exact Or.inl (Option.some.inj h).symm
          · exact Or.inr h


/-- Every chromosome the loop can return satisfies a property that holds of the initial
best chromosome and of everything `calculateFitness` returns. -/
theorem generationLoop_best_calc {Q : Chromosome → Prop} {items : List Item}
    {problem : KnapsackProblem}
    (hQ : ∀ heap c c2, calculateFitness heap c items problem.Target = some c2 → Q c2)
    (rng : Nat → Nat) (clock : Nat → ℚ) (config : GAConfig) (remaining : Nat) :
    ∀ (gen : Nat) (population : List Chromosome) (best : Chromosome) (cnt : Int) (w : World)
      (r : GARun),
      generationLoop rng clock items problem config remaining gen population best cnt w
        = some r →
      Q best → Q r.best := by
  induction remaining with
  | zero =>
    intro gen population best cnt w r h hb
    simp only [generationLoop, Option.some.injEq] at h
    rw [← h]; exact hb
  | succ k ih =>
    intro gen population best cnt w r h hb
    obtain ⟨newPopulation, w2, cur, hfill, hcur, hcases⟩ := generationLoop_succ h
    have hnew : ∀ c ∈ newPopulation, Q c :=
      fillPopulation_calc hQ rng config population _ [] w newPopulation w2 hfill
        (fun c hc => absurd hc (List.not_mem_nil _))
    have hqcur : Q cur := hnew cur (findBest_mem hcur)
    rcases hcases with ⟨_, hr⟩ | ⟨_, hr⟩ | ⟨_, best2, cnt2, hup, hr⟩
    · rw [hr]; exact hqcur
    · rw [(updateBest_inl hr).2.2]; exact hb
    · have hb2 : Q best2 := by
        rcases updateBest_inr hup with ⟨_, _, h2, _⟩ | ⟨_, h2, _⟩
        · rw [h2]; exact hb
        · rw [h2]; exact hqcur
      rcases hr with hr | hr
      · rw [hr]; exact hb2
      · exact ih _ _ _ _ _ _ hr hb2

theorem generationLoop_zero_fitness (rng : Nat → Nat) (clock : Nat → ℚ) (items : List Item)
    (problem : KnapsackProblem) (config : GAConfig) (remaining : Nat) :
    ∀ (gen : Nat) (population : List Chromosome) (best : Chromosome) (cnt : Int) (w : World)
      (r : GARun),
      generationLoop rng clock items problem config remaining gen population best cnt w
        = some r →
      r.terminationReason = "zero_fitness" → r.best.Fitness = 0 := by
  induction remaining with
  | zero =>
    intro gen population best cnt w r h hz
    simp only [generationLoop, Option.some.injEq] at h
    rw [← h] at hz
    simp only at hz
    exact absurd hz (by decide)
  | succ k ih =>
    intro gen population best cnt w r h hz
    obtain ⟨newPopulation, w2, cur, _, _, hcases⟩ := generationLoop_succ h
    rcases hcases with ⟨h0, hr⟩ | ⟨_, hr⟩ | ⟨_, best2, cnt2, _, hr⟩
    · rw [hr]; exact h0
    · rw [(updateBest_inl hr).2.2] at hz
      simp only at hz
      exact absurd hz (by decide)
    · rcases hr with hr | hr
      · rw [hr] at hz
        simp only at hz
        exact absurd hz (by decide)
      · exact ih _ _ _ _ _ _ hr hz

theorem generationLoop_generations (rng : Nat → Nat) (clock : Nat → ℚ) (items : List Item)
    (problem : KnapsackProblem) (config : GAConfig) (remaining : Nat) :
    ∀ (gen : Nat) (population : List Chromosome) (best : Chromosome) (cnt : Int) (w : World)
      (r : GARun),
      generationLoop rng clock items problem config remaining gen population best cnt w
        = some r →
      (gen : Int) ≤ r.generations ∧ r.generations ≤ gen + remaining ∧
      (1 ≤ remaining → (gen : Int) + 1 ≤ r.generations) := by
  induction remaining with
  | zero =>
    intro gen population best cnt w r h
    simp only [generationLoop, Option.some.injEq] at h
    rw [← h]
    simp
  | succ k ih =>
    intro gen population best cnt w r h
    obtain ⟨newPopulation, w2, cur, _, _, hcases⟩ := generationLoop_succ h
    rcases hcases with ⟨_, hr⟩ | ⟨_, hr⟩ | ⟨_, best2, cnt2, _, hr⟩
    · rw [hr]; simp only; push_cast; omega
    · rw [(updateBest_inl hr).2.2]; simp only; push_cast; omega
    · rcases hr with hr | hr
      · rw [hr]; simp only; push_cast; omega
      · have := ih _ _ _ _ _ _ hr
        push_cast at this ⊢
        omega

theorem generationLoop_no_improvement (rng : Nat → Nat) (clock : Nat → ℚ) (items : List Item)
    (problem : KnapsackProblem) (config : GAConfig) (remaining : Nat) :
    ∀ (gen : Nat) (population : List Chromosome) (best : Chromosome) (cnt : Int) (w : World)
      (r : GARun),
      generationLoop rng clock items problem config remaining gen population best cnt w
        = some r →
      0 ≤ cnt → cnt < config.MaxNoImprovement → r.terminationReason = "no_improvement" →
      r.noImprovementCount = config.MaxNoImprovement := by
  induction remaining with
  | zero =>
    intro gen population best cnt w r h _ _ hz
    simp only [generationLoop, Option.some.injEq] at h
    rw [← h] at hz
    simp only at hz
    exact absurd hz (by decide)
  | succ k ih =>
    intro gen population best cnt w r h hcnt0 hcnt hz
    obtain ⟨newPopulation, w2, cur, _, _, hcases⟩ := generationLoop_succ h
    rcases hcases with ⟨_, hr⟩ | ⟨_, hr⟩ | ⟨_, best2, cnt2, hup, hr⟩
    · rw [hr] at hz
      simp only at hz
      exact absurd hz (by decide)
    · obtain ⟨_, hge, hr2⟩ := updateBest_inl hr
      rw [hr2]
      simp only
      omega
    · have hcnt2 : 0 ≤ cnt2 ∧ cnt2 < config.MaxNoImprovement := by
        rcases updateBest_inr hup with ⟨_, h1, _, h2⟩ | ⟨_, _, h2⟩ <;> omega
      rcases hr with hr | hr
      · rw [hr] at hz
        simp only at hz
        exact absurd hz (by decide)
      · exact ih _ _ _ _ _ _ hr hcnt2.1 hcnt2.2 hz

theorem generationLoop_fitness_le {items : List Item} {problem : KnapsackProblem}
    (hQ : ∀ heap c c2, calculateFitness heap c items problem.Target = some c2 →
      0 ≤ c2.Fitness)
    (rng : Nat → Nat) (clock : Nat → ℚ) (config : GAConfig) (remaining : Nat) :
    ∀ (gen : Nat) (population : List Chromosome) (best : Chromosome) (cnt : Int) (w : World)
      (r : GARun),
      generationLoop rng clock items problem config remaining gen population best cnt w
        = some r →
      0 ≤ best.Fitness → r.best.Fitness ≤ best.Fitness := by
  induction remaining with
  | zero =>
    intro gen population best cnt w r h _
    simp only [generationLoop, Option.some.injEq] at h
    rw [← h]
  | succ k ih =>
    intro gen population best cnt w r h hb
    obtain ⟨newPopulation, w2, cur, hfill, hcur, hcases⟩ := generationLoop_succ h
    have hnew : ∀ c ∈ newPopulation, 0 ≤ c.Fitness :=
      fillPopulation_calc (Q := fun c => 0 ≤ c.Fitness) hQ rng config population _ [] w
        newPopulation w2 hfill (fun c hc => absurd hc (List.not_mem_nil _))
    have hqcur : 0 ≤ cur.Fitness := hnew cur (findBest_mem hcur)
    rcases hcases with ⟨h0, hr⟩ | ⟨_, hr⟩ | ⟨_, best2, cnt2, hup, hr⟩
    · rw [hr]; simp only; omega
    · rw [(updateBest_inl hr).2.2]
    · have hb2 : best2.Fitness ≤ best.Fitness ∧ 0 ≤ best2.Fitness := by
        rcases updateBest_inr hup with ⟨_, _, h2, _⟩ | ⟨hlt, h2, _⟩
        · rw [h2]; exact ⟨le_refl _, hb⟩
        · rw [h2]; exact ⟨by omega, hqcur⟩
      rcases hr with hr | hr
      · rw [hr]; exact hb2.1
      · exact le_trans (ih _ _ _ _ _ _ hr hb2.2) hb2.1

theorem geneticAlgorithm_some {rng : Nat → Nat} {clock : Nat → ℚ} {items : List Item}
    {problem : KnapsackProblem} {config : GAConfig} {r : GARun}
    (h : geneticAlgorithm rng clock items problem config = some r) :
    ∃ (population : List Chromosome) (w : World) (best : Chromosome),
      initializePopulation rng items.length config.PopulationSize items problem.Target
        { heap := [], cursor := 0 } = some (population, w) ∧
      findBest population = some best ∧
      generationLoop rng clock items problem config config.MaxGenerations.toNat 0
        population best 0 w = some r := by
  unfold geneticAlgorithm at h
  cases hinit : initializePopulation rng items.length config.PopulationSize items
      problem.Target { heap := [], cursor := 0 } with
  | none => rw [hinit] at h; contradiction
  | some p =>
    obtain ⟨population, w⟩ := p
    rw [hinit] at h
    simp only at h
    cases hbest : findBest population with
    | none => rw [hbest] at h; contradiction
    | some best =>
      rw [hbest] at h
      exact ⟨population, w, best, rfl, hbest, h⟩

theorem initializePopulation_calc {Q : Chromosome → Prop} {items : List Item} {target : Int}
    (hQ : ∀ heap c c2, calculateFitness heap c items target = some c2 → Q c2)
    {rng : Nat → Nat} {itemCount : Nat} {populationSize : Int} {w w2 : World}
    {population : List Chromosome}
    (h : initializePopulation rng itemCount populationSize items target w
      = some (population, w2)) :
    ∀ c ∈ population, Q c := by
  unfold initializePopulation at h
  split_ifs at h
  exact initLoop_calc hQ rng itemCount _ _ _ _ h

theorem absTotal_drop_succ_le (items : List Item) (i : Nat) :
    absTotal (items.drop (i + 1)) ≤ absTotal (items.drop i) := by
  by_cases hi : i < items.length
  · rw [List.drop_eq_getElem_cons hi, absTotal_cons]
    have := abs_nonneg (items[i]).Weight
    omega
  · rw [List.drop_eq_nil_of_le (by omega), List.drop_eq_nil_of_le (by omega)]

/-- Without overflow the weight of an inclusion vector is bounded by the sum of the
absolute weights of the items still to visit. -/
theorem weighGenes_abs_le (items : List Item) (genes : List Bool) :
    ∀ (i : Nat) (tw r : Int), |tw| + absTotal (items.drop i) < 2 ^ 63 →
      weighGenes items genes i tw = some r → |r| ≤ |tw| + absTotal (items.drop i) := by
  induction genes with
  | nil =>
    intro i tw r _ h
    simp only [weighGenes, Option.some.injEq] at h
    rw [← h]
    have := absTotal_nonneg (items.drop i)
    omega
  | cons g rest ih =>
    intro i tw r hb h
    have hdrop := absTotal_drop_succ_le items i
    unfold weighGenes at h
    split_ifs at h
    · cases hit : items[i]? with
      | none => rw [hit] at h; contradiction
      | some it =>
        rw [hit] at h
        simp only at h
        have hi : i < items.length := by
          by_contra hc
          rw [List.getElem?_eq_none (by omega)] at hit
          contradiction
        have hget : items[i] = it := by
          rw [List.getElem?_eq_getElem hi] at hit
          exact Option.some.inj hit
        have hsplit : absTotal (items.drop i) = |it.Weight| + absTotal (items.drop (i + 1)) := by
          rw [List.drop_eq_getElem_cons hi, absTotal_cons, hget]
        have htri := abs_add tw it.Weight
        have hrest := absTotal_nonneg (items.drop (i + 1))
        have hlt := abs_lt.mp (show |tw + it.Weight| < 2 ^ 63 by omega)
        have hwrap : wrap64 (tw + it.Weight) = tw + it.Weight :=
          wrap64_of_isInt64 (by unfold isInt64; omega)
        rw [hwrap] at h
        have := ih (i + 1) (tw + it.Weight) r (by omega) h
        omega
    · have := ih (i + 1) tw r (by omega) h
      omega

theorem calculateFitness_fitness_nonneg {items : List Item} {target : Int}
    (hb : absTotal items + |target| < 2 ^ 63 - 512) (heap : Heap) (c c2 : Chromosome)
    (h : calculateFitness heap c items target = some c2) : 0 ≤ c2.Fitness := by
  unfold calculateFitness at h
  cases hg : heap[c.Genes]? with
  | none => rw [hg] at h; contradiction
  | some genes =>
    rw [hg] at h
    simp only at h
    cases hw : weighGenes items genes 0 0 with
    | none => rw [hw] at h; contradiction
    | some tw =>
      rw [hw] at h
      simp only [Option.some.injEq] at h
      rw [← h]
      have habs := abs_nonneg target
      have hle := weighGenes_abs_le items genes 0 0 tw
        (by simp only [abs_zero, List.drop_zero]; omega) hw
      simp only [abs_zero, List.drop_zero, zero_add] at hle
      have htri := abs_sub target tw
      exact fitnessOf_nonneg (by omega)

theorem evaluated_zero_fitness {target : Int} {c : Chromosome} (ht : isInt64 target)
    (hc : Evaluated target c) (hz : c.Fitness = 0) : c.Weight = target := by
  obtain ⟨hw, hf⟩ := hc
  rw [hf] at hz
  have h0 := fitnessOf_eq_zero hz
  unfold isInt64 at ht hw
  unfold wrap64 at h0
  omega

/-! ## The genetic algorithm: claims -/

/-- C6 (the code departs from the claim): with one item of weight one, target `1`, a
population of one, no crossover, mutation rate `1/2` and draws under which the first
child is flipped and the second is not, the run returns the initial best chromosome with
`Weight` `1` and `Fitness` `0`, while the array its `Genes` refer to has been flipped in
place, through the child that shares it, to `[false]`, which weighs `0`. -/
theorem geneticAlgorithm_returns_stale_weight :
    geneticAlgorithm staleDraws noClock unitItem unitProblem staleConfig
      = some { best := ⟨0, 0, 1⟩, generations := 1, terminationReason := "no_improvement",
               noImprovementCount := 1, heap := [[false]] } ∧
    weighGenes unitItem [false] 0 0 = some 0 ∧
    ¬ BestMatchesGenes unitItem unitProblem.Target
      { best := ⟨0, 0, 1⟩, generations := 1, terminationReason := "no_improvement",
        noImprovementCount := 1, heap := [[false]] } := by
  refine ⟨by decide, by decide, ?_⟩
  rintro ⟨⟨genes, hg, hw⟩, _⟩
  simp only [List.getElem?_cons_zero, Option.some.injEq] at hg
  rw [← hg] at hw
  exact absurd hw (by decide)

/-- C7: for every run of `geneticAlgorithm` (the target being an `int`) that ends with
termination reason `zero_fitness`, the `Weight` of the returned chromosome is exactly
`problem.Target`. -/
theorem geneticAlgorithm_zero_fitness_weight (rng : Nat → Nat) (clock : Nat → ℚ)
    (items : List Item) (problem : KnapsackProblem) (config : GAConfig) (r : GARun)
    (ht : isInt64 problem.Target)
    (h : geneticAlgorithm rng clock items problem config = some r)
    (hz : r.terminationReason = "zero_fitness") :
    r.best.Weight = problem.Target := by
  obtain ⟨population, w, best, hinit, hbest, hloop⟩ := geneticAlgorithm_some h
  have hQ : ∀ heap c c2, calculateFitness heap c items problem.Target = some c2 →
      Evaluated problem.Target c2 := fun _ _ _ hc => calculateFitness_evaluated hc
  have hb : Evaluated problem.Target best :=
    initializePopulation_calc hQ hinit best (findBest_mem hbest)
  have hr : Evaluated problem.Target r.best :=
    generationLoop_best_calc hQ rng clock config _ _ _ _ _ _ _ hloop hb
  exact evaluated_zero_fitness ht hr
    (generationLoop_zero_fitness rng clock items problem config _ _ _ _ _ _ _ hloop hz)

/-- C7, witness: one item of weight one, target `1`, children copied unchanged; the first
generation has fitness zero. -/
theorem geneticAlgorithm_zero_fitness_weight_witness :
    (isInt64 unitProblem.Target ∧
      geneticAlgorithm zeroDraws noClock unitItem unitProblem copyConfig
        = some { best := ⟨0, 0, 1⟩, generations := 1, terminationReason := "zero_fitness",
                 noImprovementCount := 0, heap := [[true]] }) ∧
    (1 : Int) = unitProblem.Target :=
  ⟨by decide,
   geneticAlgorithm_zero_fitness_weight zeroDraws noClock unitItem unitProblem copyConfig
     { best := ⟨0, 0, 1⟩, generations := 1, terminationReason := "zero_fitness",
       noImprovementCount := 0, heap := [[true]] } (by decide) (by decide) (by decide)⟩

/-- C8: for every run of `geneticAlgorithm` with `MaxGenerations ≥ 1` that returns, the
reported generation count satisfies `1 ≤ generations ≤ MaxGenerations`.  (A run returns
only when `PopulationSize ≥ 1`.) -/
theorem geneticAlgorithm_generations_bounds (rng : Nat → Nat) (clock : Nat → ℚ)
    (items : List Item) (problem : KnapsackProblem) (config : GAConfig) (r : GARun)
    (hg : 1 ≤ config.MaxGenerations)
    (h : geneticAlgorithm rng clock items problem config = some r) :
    1 ≤ r.generations ∧ r.generations ≤ config.MaxGenerations := by
  obtain ⟨population, w, best, _, _, hloop⟩ := geneticAlgorithm_some h
  have hb := generationLoop_generations rng clock items problem config _ _ _ _ _ _ _ hloop
  have hcast : ((config.MaxGenerations.toNat : Nat) : Int) = config.MaxGenerations :=
    Int.toNat_of_nonneg (by omega)
  have h1 : 1 ≤ config.MaxGenerations.toNat := by omega
  have h3 := hb.2.2 h1
  have h2 := hb.2.1
  push_cast at h2 h3
  omega

/-- C8, witness: one item of weight one, target `5`, up to five generations; the run stops
after two. -/
theorem geneticAlgorithm_generations_bounds_witness :
    ((1 : Int) ≤ patientConfig.MaxGenerations ∧
      geneticAlgorithm zeroDraws noClock unitItem farProblem patientConfig
        = some { best := ⟨0, 4, 1⟩, generations := 2, terminationReason := "no_improvement",
                 noImprovementCount := 2, heap := [[true]] }) ∧
    ((1 : Int) ≤ 2 ∧ (2 : Int) ≤ patientConfig.MaxGenerations) :=
  ⟨by decide,
   geneticAlgorithm_generations_bounds zeroDraws noClock unitItem farProblem patientConfig
     { best := ⟨0, 4, 1⟩, generations := 2, terminationReason := "no_improvement",
       noImprovementCount := 2, heap := [[true]] } (by decide) (by decide)⟩

/-- C9 (amended): for every run of `geneticAlgorithm` with `MaxNoImprovement ≥ 1` that ends
with termination reason `no_improvement`, the stagnation counter at the moment of
termination is exactly `config.MaxNoImprovement`. -/
theorem geneticAlgorithm_no_improvement_count (rng : Nat → Nat) (clock : Nat → ℚ)
    (items : List Item) (problem : KnapsackProblem) (config : GAConfig) (r : GARun)
    (hm : 1 ≤ config.MaxNoImprovement)
    (h : geneticAlgorithm rng clock items problem config = some r)
    (hr : r.terminationReason = "no_improvement") :
    r.noImprovementCount = config.MaxNoImprovement := by
  obtain ⟨population, w, best, _, _, hloop⟩ := geneticAlgorithm_some h
  exact generationLoop_no_improvement rng clock items problem config _ _ _ _ _ _ _ hloop
    (le_refl 0) (by omega) hr

/-- C9, witness: stagnation limit two; the run stops in the second generation with the
counter at two. -/
theorem geneticAlgorithm_no_improvement_count_witness :
    ((1 : Int) ≤ patientConfig.MaxNoImprovement ∧
      geneticAlgorithm zeroDraws noClock unitItem farProblem patientConfig
        = some { best := ⟨0, 4, 1⟩, generations := 2, terminationReason := "no_improvement",
                 noImprovementCount := 2, heap := [[true]] }) ∧
    (2 : Int) = patientConfig.MaxNoImprovement :=
  ⟨by decide,
   geneticAlgorithm_no_improvement_count zeroDraws noClock unitItem farProblem patientConfig
     { best := ⟨0, 4, 1⟩, generations := 2, terminationReason := "no_improvement",
       noImprovementCount := 2, heap := [[true]] } (by decide) (by decide) (by decide)⟩

/-- C9, counterexample: with `MaxNoImprovement = 0` the first stagnant generation ends the
run with reason `no_improvement` and the counter at `1`, not `0`. -/
theorem geneticAlgorithm_no_improvement_count_zero_limit :
    geneticAlgorithm zeroDraws noClock unitItem farProblem impatientConfig
      = some { best := ⟨0, 4, 1⟩, generations := 1, terminationReason := "no_improvement",
               noImprovementCount := 1, heap := [[true]] } ∧
    (1 : Int) ≠ impatientConfig.MaxNoImprovement := by
  decide

/-- C10 (amended): for every run of `geneticAlgorithm` that returns, on items and a target
with `Σ |weight| + |target| < 2 ^ 63 - 512`, the `Fitness` of the returned chromosome is
`≥ 0` and `≤` the `Fitness` of every chromosome of the initial population.  (A run
returns only when `PopulationSize ≥ 1`.) -/
theorem geneticAlgorithm_fitness_bounds (rng : Nat → Nat) (clock : Nat → ℚ)
    (items : List Item) (problem : KnapsackProblem) (config : GAConfig) (r : GARun)
    (hb : absTotal items + |problem.Target| < 2 ^ 63 - 512)
    (h : geneticAlgorithm rng clock items problem config = some r) :
    0 ≤ r.best.Fitness ∧
    ∀ (population : List Chromosome) (w : World),
      initializePopulation rng items.length config.PopulationSize items problem.Target
        { heap := [], cursor := 0 } = some (population, w) →
      ∀ c ∈ population, r.best.Fitness ≤ c.Fitness := by
  obtain ⟨population, w, best, hinit, hbest, hloop⟩ := geneticAlgorithm_some h
  have hQ := @calculateFitness_fitness_nonneg items problem.Target hb
  have hb0 : 0 ≤ best.Fitness :=
    initializePopulation_calc (Q := fun c => 0 ≤ c.Fitness) hQ hinit best (findBest_mem hbest)
  have hr0 : 0 ≤ r.best.Fitness :=
    generationLoop_best_calc (Q := fun c => 0 ≤ c.Fitness) hQ rng clock config _ _ _ _ _ _ _
      hloop hb0
  have hle := generationLoop_fitness_le hQ rng clock config _ _ _ _ _ _ _ hloop hb0
  refine ⟨hr0, fun population2 w2 hinit2 c hc => ?_⟩
  rw [hinit] at hinit2
  simp only [Option.some.injEq, Prod.mk.injEq] at hinit2
  rw [← hinit2.1] at hc
  exact le_trans hle (findBest_le hbest c hc)

set_option maxRecDepth 100000 in
/-- C10, witness: the scenario of the specification, population `50`, ten generations,
stagnation limit two, items `[1, 1, 1, 1]`, target `2`, under the all-zero draws. -/
theorem geneticAlgorithm_fitness_bounds_witness :
    (absTotal onesItems + |scenarioProblem.Target| < 2 ^ 63 - 512 ∧
      geneticAlgorithm zeroDraws noClock onesItems scenarioProblem scenarioConfig
        = some scenarioRun) ∧
    (0 ≤ scenarioRun.best.Fitness ∧
      ∀ (population : List Chromosome) (w : World),
        initializePopulation zeroDraws onesItems.length scenarioConfig.PopulationSize
          onesItems scenarioProblem.Target { heap := [], cursor := 0 }
            = some (population, w) →
        ∀ c ∈ population, scenarioRun.best.Fitness ≤ c.Fitness) :=
  ⟨by decide,
   geneticAlgorithm_fitness_bounds zeroDraws noClock onesItems scenarioProblem scenarioConfig
     scenarioRun (by decide) (by decide)⟩

/-- C10, counterexample: with the greatest `int` as target and one item of weight zero,
`float64(target - 0)` rounds up to `2 ^ 63`, which converts back to the least `int`: the
returned `Fitness` is negative. -/
theorem geneticAlgorithm_fitness_negative :
    (1 : Int) ≤ copyConfig.PopulationSize ∧
    geneticAlgorithm zeroDraws noClock zeroItem hugeProblem copyConfig
      = some { best := ⟨0, -2 ^ 63, 0⟩, generations := 1,
               terminationReason := "no_improvement", noImprovementCount := 1,
               heap := [[true]] } ∧
    ¬ (0 : Int) ≤ -2 ^ 63 := by
  decide

/-! ## The exhaustive solver: further lemmas -/

theorem maskStep_negative_target (items : List Item) {target : Int} (ht : target < 0)
    (m : Nat) : maskStep items target (0, []) m = (0, []) := by
  unfold maskStep
  simp only
  split_ifs with h1 h2 h3
  · rfl
  · omega
  · omega
  · rfl

theorem solveKnapsack_negative_target (items : List Item) {target : Int} (ht : target < 0) :
    solveKnapsack items target = { AchievedWeight := 0, Combinations := [] } := by
  unfold solveKnapsack
  have h : ∀ ms : List Nat, ms.foldl (maskStep items target) (0, []) = (0, []) := by
    intro ms
    induction ms with
    | nil => rfl
    | cons m ms ih => rw [List.foldl_cons, maskStep_negative_target items ht, ih]
  rw [h]

/-- With target `0` and positive weights the inner loop leaves at the first selected item:
it returns weight `0` exactly for the masks that select nothing. -/
theorem subsetLoop_zero_target (mask : Nat) (its : List Item) :
    ∀ (i : Nat) (comb : List Int), (∀ it ∈ its, 0 < it.Weight ∧ isInt64 it.Weight) →
      (pickMask mask i its = [] → subsetLoop 0 mask its i 0 comb = (0, comb)) ∧
      (pickMask mask i its ≠ [] → 0 < (subsetLoop 0 mask its i 0 comb).1) := by
  induction its with
  | nil =>
    intro i comb _
    simp [pickMask, subsetLoop]
  | cons a s ih =>
    intro i comb hw
    have ha := hw a (List.mem_cons_self _ _)
    have hs : ∀ it ∈ s, 0 < it.Weight ∧ isInt64 it.Weight :=
      fun it hit => hw it (List.mem_cons_of_mem _ hit)
    by_cases hbit : mask &&& (1 <<< i) ≠ 0
    · have hpick : pickMask mask i (a :: s) = a :: pickMask mask (i + 1) s := by
        simp [pickMask, hbit]
      have hwrap : wrap64 (0 + a.Weight) = a.Weight := by
        rw [zero_add]; exact wrap64_of_isInt64 ha.2
      rw [subsetLoop_cons_set 0 hbit, hwrap, if_pos ha.1, hpick]
      exact ⟨fun h => absurd h (List.cons_ne_nil _ _), fun _ => ha.1⟩
    · have hpick : pickMask mask i (a :: s) = pickMask mask (i + 1) s := by
        simp [pickMask, hbit]
      rw [subsetLoop_cons_unset 0 hbit, if_neg (lt_irrefl 0), hpick]
      exact ih (i + 1) comb hs

theorem pickMask_eq_nil (its : List Item) :
    ∀ m : Nat, m < 2 ^ its.length → pickMask m 0 its = [] → m = 0 := by
  induction its with
  | nil =>
    intro m hm _
    simp only [List.length_nil, pow_zero] at hm
    omega
  | cons a s ih =>
    intro m hm hp
    rw [List.length_cons, pow_succ] at hm
    by_cases hbit : m &&& (1 <<< 0) ≠ 0
    · unfold pickMask at hp
      rw [if_pos hbit] at hp
      exact absurd hp (List.cons_ne_nil _ _)
    · have hp2 : pickMask m 1 s = [] := by
        unfold pickMask at hp
        rw [if_neg hbit] at hp
        exact hp
      rw [pickMask_succ] at hp2
      have h2 := ih (m / 2) (by omega) hp2
      have hodd : ¬ m.testBit 0 = true := fun h => hbit ((and_one_shiftLeft_ne_zero m 0).mpr h)
      rw [Nat.testBit_zero] at hodd
      simp only [decide_eq_true_eq] at hodd
      omega

theorem fold_zero_target {items : List Item}
    (hw : ∀ it ∈ items, 0 < it.Weight ∧ isInt64 it.Weight) (k : Nat)
    (hk : k + 1 ≤ 2 ^ items.length) :
    (List.range (k + 1)).foldl (maskStep items 0) (0, []) = (0, [[]]) := by
  induction k with
  | zero =>
    have h0 := (subsetLoop_zero_target 0 items 0 [] hw).1 (pickMask_zero items 0)
    rw [show List.range (0 + 1) = [0] from rfl]
    simp [maskStep, h0]
  | succ k ih =>
    rw [List.range_succ, List.foldl_append, ih (by omega)]
    have hne : pickMask (k + 1) 0 items ≠ [] := fun h => by
      have := pickMask_eq_nil items (k + 1) (by omega) h
      omega
    have hpos := (subsetLoop_zero_target (k + 1) items 0 [] hw).2 hne
    simp only [List.foldl_cons, List.foldl_nil, maskStep]
    rw [if_pos hpos]

theorem solveKnapsack_zero_target {items : List Item} (hn : items.length ≤ 62)
    (hw : ∀ it ∈ items, 0 < it.Weight ∧ isInt64 it.Weight) :
    solveKnapsack items 0 = { AchievedWeight := 0, Combinations := [[]] } := by
  rw [solveKnapsack_eq_fold items 0 hn]
  have hpos : 1 ≤ 2 ^ items.length := Nat.one_le_two_pow
  obtain ⟨k, hk⟩ : ∃ k, 2 ^ items.length = k + 1 := ⟨2 ^ items.length - 1, by omega⟩
  rw [hk, fold_zero_target hw k (by omega)]

theorem subsetLoopNoExit_eq (mask : Nat) (its : List Item) :
    ∀ (i : Nat) (cw : Int) (comb : List Int),
      subsetLoopNoExit mask its i cw comb =
        (wrapSum cw (pickMask mask i its), comb ++ (pickMask mask i its).map Item.Index) := by
  induction its with
  | nil => intro i cw comb; simp [subsetLoopNoExit, pickMask, wrapSum]
  | cons a s ih =>
    intro i cw comb
    unfold subsetLoopNoExit pickMask
    by_cases hbit : mask &&& (1 <<< i) ≠ 0
    · rw [if_pos hbit, if_pos hbit, ih]
      simp [wrapSum]
    · rw [if_neg hbit, if_neg hbit, ih]

theorem maskStepNoExit_spec {items : List Item} (hfit : weightsFit items) (target : Int)
    (st : Int × List (List Int)) (m : Nat) :
    maskStepNoExit items target st m =
      if maskWeight items m > target then st
      else if maskWeight items m > st.1 then (maskWeight items m, [maskIndices items m])
      else if maskWeight items m = st.1 then (st.1, st.2 ++ [maskIndices items m])
      else st := by
  have hsub := pickMask_sublist m items 0
  have h0 : 0 ≤ totalWeight (pickMask m 0 items) :=
    totalWeight_nonneg (fun it hit => hfit.1 it (hsub.subset hit))
  have hle := totalWeight_sublist_le hsub hfit.1
  have hlt := hfit.2
  have hsum : wrapSum 0 (pickMask m 0 items) = totalWeight (pickMask m 0 items) := by
    rw [wrapSum_zero]
    exact wrap64_of_isInt64 (by unfold isInt64; omega)
  unfold maskStepNoExit
  rw [subsetLoopNoExit_eq]
  simp only [hsum, List.nil_append, maskWeight, maskIndices]

theorem solveKnapsack_eq_noExit {items : List Item} (hfit : weightsFit items) (target : Int) :
    solveKnapsack items target = solveKnapsackNoExit items target := by
  by_cases ht : 0 ≤ target
  · unfold solveKnapsack solveKnapsackNoExit
    have h : maskStep items target = maskStepNoExit items target := by
      funext st m
      rw [maskStep_spec hfit ht, maskStepNoExit_spec hfit]
    rw [h]
  · have ht2 : target < 0 := by omega
    rw [solveKnapsack_negative_target items ht2]
    unfold solveKnapsackNoExit
    have h : ∀ ms : List Nat, ms.foldl (maskStepNoExit items target) (0, []) = (0, []) := by
      intro ms
      induction ms with
      | nil => rfl
      | cons m ms ih =>
        rw [List.foldl_cons, maskStepNoExit_spec hfit]
        have h0 : 0 ≤ maskWeight items m :=
          totalWeight_nonneg (fun it hit => hfit.1 it ((pickMask_sublist m items 0).subset hit))
        rw [if_pos (by omega), ih]
    rw [h]

/-! ## The genetic algorithm: further lemmas -/

theorem includedItems_cons (x : Item) (xs : List Item) (g : Bool) (gs : List Bool) :
    includedItems (x :: xs) (g :: gs) =
      if g then x :: includedItems xs gs else includedItems xs gs := by
  cases g <;> simp [includedItems]

theorem includedItems_nil_genes (xs : List Item) : includedItems xs [] = [] := by
  simp [includedItems]

theorem includedItems_sublist (items : List Item) :
    ∀ genes : List Bool, (includedItems items genes).Sublist items := by
  induction items with
  | nil => intro genes; simp [includedItems]
  | cons x xs ih =>
    intro genes
    cases genes with
    | nil => simp [includedItems]
    | cons g gs =>
      rw [includedItems_cons]
      split_ifs
      · exact (ih gs).cons₂ x
      · exact (ih gs).cons x

theorem weighGenes_eq (items : List Item) (genes : List Bool) :
    ∀ (i : Nat) (tw : Int), i + genes.length ≤ items.length →
      weighGenes items genes i tw = some (wrapSum tw (includedItems (items.drop i) genes)) := by
  induction genes with
  | nil =>
    intro i tw _
    simp [weighGenes, includedItems_nil_genes, wrapSum]
  | cons g gs ih =>
    intro i tw hlen
    rw [List.length_cons] at hlen
    have hi : i < items.length := by omega
    rw [List.drop_eq_getElem_cons hi, includedItems_cons]
    unfold weighGenes
    cases g with
    | true =>
      simp only [if_true, List.getElem?_eq_getElem hi]
      rw [ih (i + 1) _ (by omega)]
      simp [wrapSum]
    | false =>
      simp only [Bool.false_eq_true, if_false]
      exact ih (i + 1) tw (by omega)

theorem roundNat53_exact {m : Nat} (h : m ≤ 2 ^ 53) : roundNat53 m = m := by
  obtain ⟨k, hk, hu, hlo, hhi⟩ := ulp_cases m
  simp only [roundNat53, hu]
  interval_cases k <;> simp only [Nat.reducePow, Nat.reduceAdd] at hlo hhi ⊢ <;>
    split_ifs <;> omega

theorem fitnessOf_exact {target w : Int} (h : |target - w| ≤ 2 ^ 53) :
    fitnessOf target w = |target - w| := by
  have hb := abs_le.mp h
  have hwrap : wrap64 (target - w) = target - w :=
    wrap64_of_isInt64 (by unfold isInt64; omega)
  have hex : roundNat53 (target - w).natAbs = (target - w).natAbs :=
    roundNat53_exact (by omega)
  have habs : |float64OfInt (target - w)| = |target - w| := by
    unfold float64OfInt
    rw [hex]
    split_ifs with hneg
    · rw [abs_neg, abs_of_nonneg (by positivity), abs_of_neg hneg]; omega
    · rw [abs_of_nonneg (by positivity), abs_of_nonneg (by omega)]; omega
  unfold fitnessOf intOfFloat64
  rw [hwrap, habs]
  have hin : isInt64 |target - w| := by
    have := abs_nonneg (target - w)
    unfold isInt64; omega
  rw [if_pos hin]

theorem calculateFitness_eq {heap : Heap} {c : Chromosome} {items : List Item}
    {genes : List Bool} (target : Int) (hg : heap[c.Genes]? = some genes)
    (hlen : genes.length ≤ items.length) :
    calculateFitness heap c items target =
      some { c with
        Weight := wrapSum 0 (includedItems items genes),
        Fitness := fitnessOf target (wrapSum 0 (includedItems items genes)) } := by
  unfold calculateFitness
  rw [hg]
  simp only
  rw [weighGenes_eq items genes 0 0 (by omega)]
  simp only [List.drop_zero]

theorem calculateFitness_spec {heap : Heap} {c : Chromosome} {items : List Item}
    {genes : List Bool} (target : Int) (hg : heap[c.Genes]? = some genes)
    (hlen : genes.length = items.length) :
    ∃ c2 : Chromosome, calculateFitness heap c items target = some c2 ∧
      c2.Genes = c.Genes ∧
      c2.Weight = wrap64 (totalWeight (includedItems items genes)) ∧
      (absTotal items < 2 ^ 63 → c2.Weight = totalWeight (includedItems items genes)) ∧
      (|target - c2.Weight| ≤ 2 ^ 53 → c2.Fitness = |target - c2.Weight|) := by
  refine ⟨_, calculateFitness_eq target hg (by omega), rfl, wrapSum_zero _, ?_, ?_⟩
  · intro habs
    simp only
    rw [wrapSum_zero]
    have := abs_le.mp (abs_totalWeight_le_of_sublist (includedItems_sublist items genes))
    exact wrap64_of_isInt64 (by unfold isInt64; omega)
  · intro hb
    exact fitnessOf_exact hb

theorem calculateFitness_twice {heap : Heap} {c : Chromosome} {items : List Item}
    {genes : List Bool} (target : Int) (hg : heap[c.Genes]? = some genes)
    (hlen : genes.length = items.length) :
    ∃ c2 : Chromosome, calculateFitness heap c items target = some c2 ∧
      calculateFitness heap c2 items target = some c2 := by
  refine ⟨_, calculateFitness_eq target hg (by omega), ?_⟩
  rw [calculateFitness_eq target (c := { c with
        Weight := wrapSum 0 (includedItems items genes),
        Fitness := fitnessOf target (wrapSum 0 (includedItems items genes)) }) hg (by omega)]

theorem collectIndices_eq (items : List Item) (genes : List Bool) :
    ∀ (i : Nat) (indices : List Int), i + genes.length ≤ items.length →
      collectIndices items genes i indices =
        some (indices ++ (includedItems (items.drop i) genes).map Item.Index) := by
  induction genes with
  | nil =>
    intro i indices _
    simp [collectIndices, includedItems_nil_genes]
  | cons g gs ih =>
    intro i indices hlen
    rw [List.length_cons] at hlen
    have hi : i < items.length := by omega
    rw [List.drop_eq_getElem_cons hi, includedItems_cons]
    unfold collectIndices
    cases g with
    | true =>
      simp only [if_true, List.getElem?_eq_getElem hi]
      rw [ih (i + 1) _ (by omega)]
      simp
    | false =>
      simp only [Bool.false_eq_true, if_false]
      exact ih (i + 1) indices (by omega)

theorem getSolutionIndices_spec {heap : Heap} {c : Chromosome} {items : List Item}
    {genes : List Bool} (hg : heap[c.Genes]? = some genes)
    (hlen : genes.length = items.length) :
    ∃ out : List Int, getSolutionIndices heap c items = some out ∧
      out.Sorted (· ≤ ·) ∧
      out.Perm ((includedItems items genes).map Item.Index) := by
  refine ⟨sortInts ((includedItems items genes).map Item.Index), ?_, ?_, ?_⟩
  · unfold getSolutionIndices
    rw [hg]
    simp only
    rw [collectIndices_eq items genes 0 [] (by omega)]
    simp
  · exact List.sorted_insertionSort (· ≤ ·) _
  · exact List.perm_insertionSort (· ≤ ·) _

theorem range_map_split (g1 g2 : List Bool) (hlen : g1.length = g2.length) (p : Nat)
    (hp : p ≤ g1.length) :
    (List.range g1.length).map
        (fun i => if i < p then g1.getD i false else g2.getD i false)
      = g1.take p ++ g2.drop p := by
  apply List.ext_getElem
  · simp only [List.length_map, List.length_range, List.length_append, List.length_take,
      List.length_drop]
    omega
  · intro i h1 h2
    simp only [List.length_map, List.length_range] at h1
    simp only [List.getElem_map, List.getElem_range]
    by_cases hi : i < p
    · rw [if_pos hi, List.getElem_append_left (by simp; omega), List.getElem_take,
        List.getD_eq_getElem _ _ h1]
    · rw [if_neg hi, List.getElem_append_right (by simp; omega), List.getElem_drop,
        List.getD_eq_getElem _ _ (by omega)]
      congr 1
      simp only [List.length_take]
      omega

theorem heap_getElem?_append_left {heap : Heap} {a : Nat} {g : List Bool} (extra : Heap)
    (h : heap[a]? = some g) : (heap ++ extra)[a]? = some g := by
  have ha : a < heap.length := by
    by_contra hc
    rw [List.getElem?_eq_none (by omega)] at h
    contradiction
  rw [List.getElem?_append_left ha]
  exact h

theorem crossover_eq (rng : Nat → Nat) (parent1 parent2 : Chromosome) (w : World)
    (g1 g2 : List Bool) (h1 : w.heap[parent1.Genes]? = some g1)
    (h2 : w.heap[parent2.Genes]? = some g2) (hlen : g1.length = g2.length)
    (hn : 1 ≤ g1.length) :
    crossover rng parent1 parent2 w =
      some (({ Genes := w.heap.length, Fitness := 0, Weight := 0 },
             { Genes := w.heap.length + 1, Fitness := 0, Weight := 0 }),
            { heap := w.heap ++
                [g1.take (rng w.cursor % g1.length) ++ g2.drop (rng w.cursor % g1.length),
                 g2.take (rng w.cursor % g1.length) ++ g1.drop (rng w.cursor % g1.length)],
              cursor := w.cursor + 1 }) := by
  have hp : rng w.cursor % g1.length < g1.length := Nat.mod_lt _ (by omega)
  have hne : ¬ g1.length = 0 := by omega
  unfold crossover
  rw [h1, h2]
  simp only [ne_eq, hlen, not_true_eq_false, if_false, randIntn]
  rw [← hlen, if_neg hne]
  simp only
  rw [range_map_split g1 g2 hlen _ (by omega)]
  have h3 := range_map_split g2 g1 hlen.symm (rng w.cursor % g1.length) (by omega)
  rw [← hlen] at h3
  rw [h3]

theorem crossover_children (rng : Nat → Nat) (parent1 parent2 : Chromosome) (w : World)
    (g1 g2 : List Bool) (h1 : w.heap[parent1.Genes]? = some g1)
    (h2 : w.heap[parent2.Genes]? = some g2) (hlen : g1.length = g2.length)
    (hn : 1 ≤ g1.length) :
    ∃ (child1 child2 : Chromosome) (w2 : World),
      crossover rng parent1 parent2 w = some ((child1, child2), w2) ∧
      w2.heap[child1.Genes]? =
        some (g1.take (rng w.cursor % g1.length) ++ g2.drop (rng w.cursor % g1.length)) ∧
      w2.heap[child2.Genes]? =
        some (g2.take (rng w.cursor % g1.length) ++ g1.drop (rng w.cursor % g1.length)) ∧
      (∀ (a : Nat) (g : List Bool), w.heap[a]? = some g → w2.heap[a]? = some g) := by
  refine ⟨_, _, _, crossover_eq rng parent1 parent2 w g1 g2 h1 h2 hlen hn, ?_, ?_, ?_⟩
  · simp only
    rw [List.getElem?_append_right (le_refl _), Nat.sub_self]
    rfl
  · simp only
    rw [List.getElem?_append_right (by omega)]
    simp
  · intro a g ha
    exact heap_getElem?_append_left _ ha

theorem heap_lookup {n : Nat} {heap : Heap} {c : Chromosome} (hh : HeapOK n heap)
    (hc : ChromOK heap c) : ∃ g, heap[c.Genes]? = some g ∧ g.length = n := by
  unfold ChromOK at hc
  exact ⟨heap[c.Genes], List.getElem?_eq_getElem hc, hh _ (List.getElem_mem hc)⟩

theorem HeapOK_append {n : Nat} {heap extra : Heap} (hh : HeapOK n heap)
    (he : ∀ g ∈ extra, g.length = n) : HeapOK n (heap ++ extra) := by
  intro g hg
  rcases List.mem_append.mp hg with h | h
  · exact hh g h
  · exact he g h

theorem ChromOK_mono {heap heap2 : Heap} {c : Chromosome} (hc : ChromOK heap c)
    (hle : heap.length ≤ heap2.length) : ChromOK heap2 c := by
  unfold ChromOK at hc ⊢; omega

theorem calculateFitness_some {heap : Heap} {c : Chromosome} {items : List Item}
    (target : Int) (hh : HeapOK items.length heap) (hc : ChromOK heap c) :
    ∃ c2 : Chromosome, calculateFitness heap c items target = some c2 ∧
      c2.Genes = c.Genes := by
  obtain ⟨g, hg, hlen⟩ := heap_lookup hh hc
  exact ⟨_, calculateFitness_eq target hg (by omega), rfl⟩

theorem drawGenes_length (rng : Nat → Nat) (k : Nat) :
    ∀ cursor : Nat, (drawGenes rng k cursor).1.length = k := by
  induction k with
  | zero => intro cursor; simp [drawGenes]
  | succ k ih => intro cursor; simp [drawGenes, ih]

theorem initLoop_some (rng : Nat → Nat) (items : List Item) (target : Int) (k : Nat) :
    ∀ w : World, HeapOK items.length w.heap →
      ∃ (population : List Chromosome) (w2 : World),
        initLoop rng items.length items target k w = some (population, w2) ∧
        population.length = k ∧ HeapOK items.length w2.heap ∧
        (∀ c ∈ population, ChromOK w2.heap c) ∧ w.heap.length ≤ w2.heap.length := by
  induction k with
  | zero =>
    intro w hh
    exact ⟨[], w, rfl, rfl, hh, fun c hc => absurd hc (List.not_mem_nil _), le_refl _⟩
  | succ k ih =>
    intro w hh
    have hh1 : HeapOK items.length (w.heap ++ [(drawGenes rng items.length w.cursor).1]) :=
      HeapOK_append hh (by
        intro g hg
        rw [List.mem_singleton] at hg
        rw [hg, drawGenes_length])
    have hc0 : ChromOK (w.heap ++ [(drawGenes rng items.length w.cursor).1])
        { Genes := w.heap.length, Fitness := 0, Weight := 0 } := by
      unfold ChromOK; simp
    obtain ⟨c, hcalc, hgenes⟩ := calculateFitness_some target hh1 hc0
    obtain ⟨cs, w2, hrest, hlen, hh2, hcs, hle⟩ :=
      ih { heap := w.heap ++ [(drawGenes rng items.length w.cursor).1],
           cursor := (drawGenes rng items.length w.cursor).2 } hh1
    simp only [List.length_append, List.length_singleton] at hle
    refine ⟨c :: cs, w2, ?_, by simp [hlen], hh2, ?_, by omega⟩
    · unfold initLoop
      simp only
      rw [hcalc]
      simp only
      rw [hrest]
    · intro c2 hc2
      rcases List.mem_cons.mp hc2 with h | h
      · rw [h]
        unfold ChromOK
        rw [hgenes]
        simp only
        omega
      · exact hcs c2 h

theorem findBest_some {population : List Chromosome} (h : population ≠ []) :
    ∃ b, findBest population = some b := by
  cases population with
  | nil => exact absurd rfl h
  | cons a s => exact ⟨_, rfl⟩

theorem tournamentLoop_some (rng : Nat → Nat) {population : List Chromosome}
    (hne : population ≠ []) (k : Nat) :
    ∀ (best : Chromosome) (cursor : Nat), best ∈ population →
      ∃ (c : Chromosome) (cursor2 : Nat),
        tournamentLoop rng population k best cursor = some (c, cursor2) ∧ c ∈ population := by
  have hlen : population.length ≠ 0 := fun h => hne (List.length_eq_zero.mp h)
  induction k with
  | zero => intro best cursor hb; exact ⟨best, cursor, rfl, hb⟩
  | succ k ih =>
    intro best cursor hb
    have hj : rng cursor % population.length < population.length :=
      Nat.mod_lt _ (by omega)
    unfold tournamentLoop
    simp only [randIntn, if_neg hlen, List.getElem?_eq_getElem hj]
    apply ih
    split_ifs
    · exact List.getElem_mem hj
    · exact hb

theorem tournamentSelection_some (rng : Nat → Nat) {population : List Chromosome}
    (hne : population ≠ []) (k cursor : Nat) :
    ∃ (c : Chromosome) (cursor2 : Nat),
      tournamentSelection rng population k cursor = some (c, cursor2) ∧ c ∈ population := by
  have hlen : population.length ≠ 0 := fun h => hne (List.length_eq_zero.mp h)
  have hj : rng cursor % population.length < population.length :=
    Nat.mod_lt _ (by omega)
  unfold tournamentSelection
  simp only [randIntn, if_neg hlen, List.getElem?_eq_getElem hj]
  exact tournamentLoop_some rng hne _ _ _ (List.getElem_mem hj)

theorem flipGene_length (heap : Heap) (addr i : Nat) :
    (flipGene heap addr i).length = heap.length := by
  unfold flipGene
  split <;> simp

theorem flipGene_HeapOK {n : Nat} {heap : Heap} (hh : HeapOK n heap) (addr i : Nat) :
    HeapOK n (flipGene heap addr i) := by
  unfold flipGene
  cases hg : heap[addr]? with
  | none => simpa using hh
  | some genes =>
    simp only
    intro g hmem
    rcases List.mem_or_eq_of_mem_set hmem with h | h
    · exact hh g h
    · rw [h, List.length_set]
      have ha : addr < heap.length := by
        by_contra hc
        rw [List.getElem?_eq_none (by omega)] at hg
        contradiction
      rw [List.getElem?_eq_getElem ha] at hg
      rw [← Option.some.inj hg]
      exact hh _ (List.getElem_mem ha)

theorem mutateLoop_heap (n : Nat) (rng : Nat → Nat) (rate : ℚ) (addr : Nat) (k : Nat) :
    ∀ (i : Nat) (w : World),
      (mutateLoop rng rate addr k i w).heap.length = w.heap.length ∧
      (HeapOK n w.heap → HeapOK n (mutateLoop rng rate addr k i w).heap) := by
  induction k with
  | zero => intro i w; exact ⟨rfl, fun h => h⟩
  | succ k ih =>
    intro i w
    unfold mutateLoop
    simp only
    obtain ⟨h1, h2⟩ := ih (i + 1)
      { heap := if (randFloat64 rng w.cursor).1 < rate then flipGene w.heap addr i else w.heap,
        cursor := (randFloat64 rng w.cursor).2 }
    constructor
    · rw [h1]
      simp only
      split_ifs
      · exact flipGene_length _ _ _
      · rfl
    · intro hh
      apply h2
      simp only
      split_ifs
      · exact flipGene_HeapOK hh _ _
      · exact hh

theorem mutate_some (n : Nat) (rng : Nat → Nat) {c : Chromosome} (rate : ℚ) {w : World}
    (hc : ChromOK w.heap c) :
    ∃ w2 : World, mutate rng c rate w = some w2 ∧ w2.heap.length = w.heap.length ∧
      (HeapOK n w.heap → HeapOK n w2.heap) := by
  unfold ChromOK at hc
  unfold mutate
  rw [List.getElem?_eq_getElem hc]
  exact ⟨_, rfl, (mutateLoop_heap n rng rate c.Genes _ 0 w).1,
    (mutateLoop_heap n rng rate c.Genes _ 0 w).2⟩

/-- With a non-empty population of chromosomes that refer to arrays of `n ≥ 1` genes, one
breeding step runs through and yields two such chromosomes. -/
theorem breedPair_some (rng : Nat → Nat) {items : List Item} (target : Int)
    (config : GAConfig) {population : List Chromosome} {w : World}
    (hn : 1 ≤ items.length) (hne : population ≠ [])
    (hh : HeapOK items.length w.heap) (hpop : ∀ c ∈ population, ChromOK w.heap c) :
    ∃ (c1 c2 : Chromosome) (w2 : World),
      breedPair rng items target config population w = some ((c1, c2), w2) ∧
      ChromOK w2.heap c1 ∧ ChromOK w2.heap c2 ∧ HeapOK items.length w2.heap ∧
      w.heap.length ≤ w2.heap.length := by
  obtain ⟨p1, cur1, ht1, hp1⟩ := tournamentSelection_some rng hne 3 w.cursor
  obtain ⟨p2, cur2, ht2, hp2⟩ := tournamentSelection_some rng hne 3 cur1
  have hok1 := hpop p1 hp1
  have hok2 := hpop p2 hp2
  obtain ⟨g1, hg1, hl1⟩ := heap_lookup hh hok1
  obtain ⟨g2, hg2, hl2⟩ := heap_lookup hh hok2
  -- the children before mutation
  have hchildren : ∃ (ch1 ch2 : Chromosome) (w4 : World),
      (if (randFloat64 rng cur2).1 < config.CrossoverRate then
          crossover rng p1 p2 { heap := w.heap, cursor := (randFloat64 rng cur2).2 }
        else some ((p1, p2), { heap := w.heap, cursor := (randFloat64 rng cur2).2 }))
        = some ((ch1, ch2), w4) ∧
      ChromOK w4.heap ch1 ∧ ChromOK w4.heap ch2 ∧ HeapOK items.length w4.heap ∧
      w.heap.length ≤ w4.heap.length := by
    split_ifs
    · have heq := crossover_eq rng p1 p2
        { heap := w.heap, cursor := (randFloat64 rng cur2).2 } g1 g2 hg1 hg2
        (by omega) (by omega)
      refine ⟨_, _, _, heq, ?_, ?_, ?_, ?_⟩
      · unfold ChromOK; simp
      · unfold ChromOK; simp
      · apply HeapOK_append hh
        intro g hg
        simp only [List.mem_cons, List.mem_singleton, List.not_mem_nil, or_false] at hg
        have hlt : rng (randFloat64 rng cur2).2 % g1.length < g1.length :=
          Nat.mod_lt _ (by omega)
        rcases hg with h | h <;>
          (rw [h]
           simp only [List.length_append, List.length_take, List.length_drop]
           omega)
      · simp
    · exact ⟨p1, p2, _, rfl, hok1, hok2, hh, le_refl _⟩
  obtain ⟨ch1, ch2, w4, hch, hc1, hc2, hh4, hle4⟩ := hchildren
  obtain ⟨w5, hm1, hlen5, hh5⟩ := mutate_some items.length rng config.MutationRate hc1
  have hc2b : ChromOK w5.heap ch2 := ChromOK_mono hc2 (by omega)
  obtain ⟨w6, hm2, hlen6, hh6⟩ := mutate_some items.length rng config.MutationRate hc2b
  have hh6b := hh6 (hh5 hh4)
  have hc1c : ChromOK w6.heap ch1 := ChromOK_mono hc1 (by omega)
  have hc2c : ChromOK w6.heap ch2 := ChromOK_mono hc2 (by omega)
  obtain ⟨c1, hf1, hgen1⟩ := calculateFitness_some target hh6b hc1c
  obtain ⟨c2, hf2, hgen2⟩ := calculateFitness_some target hh6b hc2c
  refine ⟨c1, c2, w6, ?_, ?_, ?_, hh6b, by omega⟩
  · unfold breedPair
    rw [ht1]
    simp only
    rw [ht2]
    simp only
    rw [hch]
    simp only
    rw [hm1]
    simp only
    rw [hm2]
    simp only
    rw [hf1]
    simp only
    rw [hf2]
  · unfold ChromOK at hc1c ⊢; rw [hgen1]; exact hc1c
  · unfold ChromOK at hc2c ⊢; rw [hgen2]; exact hc2c

theorem fillPopulation_some (rng : Nat → Nat) {items : List Item} (target : Int)
    (config : GAConfig) {population : List Chromosome} (hn : 1 ≤ items.length)
    (hne : population ≠ []) (need : Nat) :
    ∀ (acc : List Chromosome) (w : World), HeapOK items.length w.heap →
      (∀ c ∈ population, ChromOK w.heap c) → (∀ c ∈ acc, ChromOK w.heap c) →
      ∃ (newPopulation : List Chromosome) (w2 : World),
        fillPopulation rng items target config population need acc w
          = some (newPopulation, w2) ∧
        newPopulation.length = acc.length + 2 * ((need + 1) / 2) ∧
        (∀ c ∈ newPopulation, ChromOK w2.heap c) ∧ HeapOK items.length w2.heap ∧
        w.heap.length ≤ w2.heap.length := by
  induction need using Nat.strong_induction_on with
  | _ need ih =>
    intro acc w hh hpop hacc
    match need, ih with
    | 0, _ => exact ⟨acc, w, rfl, by simp, hacc, hh, le_refl _⟩
    | 1, _ =>
      obtain ⟨c1, c2, w2, hb, hc1, hc2, hh2, hle⟩ :=
        breedPair_some rng target config hn hne hh hpop
      refine ⟨acc ++ [c1, c2], w2, ?_, by simp, ?_, hh2, hle⟩
      · unfold fillPopulation
        rw [hb]
      · intro c hc
        rcases List.mem_append.mp hc with h | h
        · exact ChromOK_mono (hacc c h) hle
        · simp only [List.mem_cons, List.mem_singleton, List.not_mem_nil, or_false] at h
          rcases h with rfl | rfl
          · exact hc1
          · exact hc2
    | k + 2, ih =>
      obtain ⟨c1, c2, w2, hb, hc1, hc2, hh2, hle⟩ :=
        breedPair_some rng target config hn hne hh hpop
      have hacc2 : ∀ c ∈ acc ++ [c1, c2], ChromOK w2.heap c := by
        intro c hc
        rcases List.mem_append.mp hc with h | h
        · exact ChromOK_mono (hacc c h) hle
        · simp only [List.mem_cons, List.mem_singleton, List.not_mem_nil, or_false] at h
          rcases h with rfl | rfl
          · exact hc1
          · exact hc2
      obtain ⟨newPopulation, w3, hfill, hlen, hall, hh3, hle3⟩ :=
        ih k (by omega) (acc ++ [c1, c2]) w2 hh2
          (fun c hc => ChromOK_mono (hpop c hc) hle) hacc2
      refine ⟨newPopulation, w3, ?_, ?_, hall, hh3, by omega⟩
      · unfold fillPopulation
        rw [hb]
        exact hfill
      · rw [hlen]
        simp only [List.length_append, List.length_cons, List.length_nil]
        omega

theorem generationLoop_some (rng : Nat → Nat) (clock : Nat → ℚ) {items : List Item}
    (problem : KnapsackProblem) {config : GAConfig} (hn : 1 ≤ items.length)
    (hp : 1 ≤ config.PopulationSize) (remaining : Nat) :
    ∀ (gen : Nat) (population : List Chromosome) (best : Chromosome) (cnt : Int) (w : World),
      population ≠ [] → HeapOK items.length w.heap →
      (∀ c ∈ population, ChromOK w.heap c) →
      ∃ r : GARun,
        generationLoop rng clock items problem config remaining gen population best cnt w
          = some r := by
  induction remaining with
  | zero => intro gen population best cnt w _ _ _; exact ⟨_, rfl⟩
  | succ k ih =>
    intro gen population best cnt w hne hh hpop
    obtain ⟨newPopulation, w2, hfill, hlen, hall, hh2, _⟩ :=
      fillPopulation_some rng problem.Target config hn hne config.PopulationSize.toNat [] w hh
        hpop (fun c hc => absurd hc (List.not_mem_nil _))
    have hne2 : newPopulation ≠ [] := by
      intro h
      rw [h] at hlen
      simp only [List.length_nil, zero_add] at hlen
      omega
    obtain ⟨cur, hcur⟩ := findBest_some hne2
    unfold generationLoop
    rw [hfill]
    simp only
    rw [hcur]
    simp only
    by_cases hz : cur.Fitness = 0
    · rw [if_pos hz]
      exact ⟨_, rfl⟩
    · rw [if_neg hz]
      cases hup : updateBest config gen w2.heap cur best cnt with
      | inl run => exact ⟨_, rfl⟩
      | inr p =>
        obtain ⟨best2, cnt2⟩ := p
        simp only
        by_cases ht : problem.BruteTimeMs > 0 ∧ clock gen ≥ 2 * problem.BruteTimeMs
        · rw [if_pos ht]
          exact ⟨_, rfl⟩
        · rw [if_neg ht]
          exact ih (gen + 1) newPopulation best2 cnt2 w2 hne2 hh2 hall

/-- With a non-empty item set and a population size of at least one, every run of
`geneticAlgorithm` returns, whatever the draws, the clock and the rest of the
configuration. -/
theorem geneticAlgorithm_returns (rng : Nat → Nat) (clock : Nat → ℚ) {items : List Item}
    (problem : KnapsackProblem) {config : GAConfig} (hn : items ≠ [])
    (hp : 1 ≤ config.PopulationSize) :
    ∃ r : GARun, geneticAlgorithm rng clock items problem config = some r := by
  have hlen : 1 ≤ items.length := by
    cases items with
    | nil => exact absurd rfl hn
    | cons a s => simp
  obtain ⟨population, w, hinit, hplen, hh, hall, _⟩ :=
    initLoop_some rng items problem.Target config.PopulationSize.toNat
      { heap := [], cursor := 0 } (fun g hg => absurd hg (List.not_mem_nil _))
  have hne : population ≠ [] := by
    intro h
    rw [h] at hplen
    simp only [List.length_nil] at hplen
    omega
  obtain ⟨best, hbest⟩ := findBest_some hne
  obtain ⟨r, hr⟩ := generationLoop_some rng clock problem hlen hp config.MaxGenerations.toNat
    0 population best 0 w hne hh hall
  refine ⟨r, ?_⟩
  unfold geneticAlgorithm initializePopulation
  rw [if_neg (by omega), hinit]
  simp only
  rw [hbest]
  exact hr

theorem geneticAlgorithm_no_population (rng : Nat → Nat) (clock : Nat → ℚ)
    (items : List Item) (problem : KnapsackProblem) {config : GAConfig}
    (hp : config.PopulationSize ≤ 0) :
    geneticAlgorithm rng clock items problem config = none := by
  unfold geneticAlgorithm initializePopulation
  by_cases hneg : config.PopulationSize < 0
  · rw [if_pos hneg]
  · rw [if_neg hneg]
    have h0 : config.PopulationSize.toNat = 0 := by omega
    rw [h0]
    rfl

/-! ## Further claims -/

/-- C11 (amended): for every chromosome whose `Genes` have the length of the item set,
every item set and every target, `calculateFitness` returns a chromosome with the same
`Genes`, whose `Weight` is the sum of the weights of the items whose gene is true reduced
to the 64-bit `int` range (the sum itself when the absolute weights total less than
`2 ^ 63`), and whose `Fitness` is exactly `|target - Weight|` whenever that difference is
at most `2 ^ 53`. -/
theorem calculateFitness_weight_and_fitness (heap : Heap) (c : Chromosome)
    (items : List Item) (target : Int) (genes : List Bool)
    (hg : heap[c.Genes]? = some genes) (hlen : genes.length = items.length) :
    ∃ c2 : Chromosome, calculateFitness heap c items target = some c2 ∧
      c2.Genes = c.Genes ∧
      c2.Weight = wrap64 (totalWeight (includedItems items genes)) ∧
      (absTotal items < 2 ^ 63 → c2.Weight = totalWeight (includedItems items genes)) ∧
      (|target - c2.Weight| ≤ 2 ^ 53 → c2.Fitness = |target - c2.Weight|) :=
  calculateFitness_spec target hg hlen

/-- C11, witness: genes `[true, false, true]` over weights `1, 2, 3`, target `10`. -/
theorem calculateFitness_weight_and_fitness_witness :
    (([[true, false, true]] : Heap)[(⟨0, 0, 0⟩ : Chromosome).Genes]?
        = some [true, false, true] ∧
      [true, false, true].length = shuffledItems.length) ∧
    ∃ c2 : Chromosome,
      calculateFitness [[true, false, true]] ⟨0, 0, 0⟩ shuffledItems 10 = some c2 ∧
      c2.Genes = (⟨0, 0, 0⟩ : Chromosome).Genes ∧
      c2.Weight = wrap64 (totalWeight (includedItems shuffledItems [true, false, true])) ∧
      (absTotal shuffledItems < 2 ^ 63 →
        c2.Weight = totalWeight (includedItems shuffledItems [true, false, true])) ∧
      (|10 - c2.Weight| ≤ 2 ^ 53 → c2.Fitness = |10 - c2.Weight|) :=
  ⟨by decide,
   calculateFitness_weight_and_fitness [[true, false, true]] ⟨0, 0, 0⟩ shuffledItems 10
     [true, false, true] (by decide) (by decide)⟩

set_option maxRecDepth 10000 in
/-- C11, counterexample: with no item included and target `2^53 + 1` the fitness returned
is `2^53`, the `float64` nearest to the difference `2^53 + 1`; and with two included items
of weight `2^62` the weight returned is `-2^63`, not their sum `2^63`. -/
theorem calculateFitness_inexact :
    (calculateFitness [[false]] ⟨0, 0, 0⟩ unitItem (2 ^ 53 + 1) = some ⟨0, 2 ^ 53, 0⟩ ∧
      |(2 ^ 53 + 1 : Int) - 0| ≠ 2 ^ 53) ∧
    (calculateFitness [[true, true]] ⟨0, 0, 0⟩ halfItems 0 = some ⟨0, -2 ^ 63, -2 ^ 63⟩ ∧
      totalWeight (includedItems halfItems [true, true]) = 2 ^ 63) := by
  decide

/-- C12: for every chromosome and item set of equal length, `getSolutionIndices` returns a
list sorted in ascending order that is a permutation of the `Index` values of the items
whose gene is true, whatever the order of the `Index` values in the item set. -/
theorem getSolutionIndices_sorted_perm (heap : Heap) (c : Chromosome) (items : List Item)
    (genes : List Bool) (hg : heap[c.Genes]? = some genes)
    (hlen : genes.length = items.length) :
    ∃ out : List Int, getSolutionIndices heap c items = some out ∧
      out.Sorted (· ≤ ·) ∧
      out.Perm ((includedItems items genes).map Item.Index) :=
  getSolutionIndices_spec hg hlen

/-- C12, witness: genes `[true, false, true]` over items with indices `7, 5, 2`; the result
is `[2, 7]`. -/
theorem getSolutionIndices_sorted_perm_witness :
    (([[true, false, true]] : Heap)[(⟨0, 0, 0⟩ : Chromosome).Genes]?
        = some [true, false, true] ∧
      [true, false, true].length = shuffledItems.length ∧
      getSolutionIndices [[true, false, true]] ⟨0, 0, 0⟩ shuffledItems = some [2, 7]) ∧
    ∃ out : List Int,
      getSolutionIndices [[true, false, true]] ⟨0, 0, 0⟩ shuffledItems = some out ∧
      out.Sorted (· ≤ ·) ∧
      out.Perm ((includedItems shuffledItems [true, false, true]).map Item.Index) :=
  ⟨by decide,
   getSolutionIndices_sorted_perm [[true, false, true]] ⟨0, 0, 0⟩ shuffledItems
     [true, false, true] (by decide) (by decide)⟩

/-- C13: for the item set with weights `[2, 3, 4, 5]` (indices `0..3`) and target `5`,
`solveKnapsack` returns `AchievedWeight` `5` and the two combinations `[0, 1]` and `[3]`,
and no other. -/
theorem solveKnapsack_scenario_five :
    solveKnapsack scenarioItems 5 = { AchievedWeight := 5, Combinations := [[0, 1], [3]] } := by
  decide

/-- C14 (amended): for every item set of at most 62 items whose weights are all strictly
positive `int` values, and target `0`, `solveKnapsack` returns `AchievedWeight` `0` and
exactly one combination, the empty one. -/
theorem solveKnapsack_target_zero (items : List Item) (hn : items.length ≤ 62)
    (hw : ∀ it ∈ items, 0 < it.Weight ∧ isInt64 it.Weight) :
    solveKnapsack items 0 = { AchievedWeight := 0, Combinations := [[]] } :=
  solveKnapsack_zero_target hn hw

/-- C14, witness: weights `[10, 20, 30]`, target `0`. -/
theorem solveKnapsack_target_zero_witness :
    (tensItems.length ≤ 62 ∧ (∀ it ∈ tensItems, 0 < it.Weight ∧ isInt64 it.Weight)) ∧
    solveKnapsack tensItems 0 = { AchievedWeight := 0, Combinations := [[]] } :=
  ⟨by decide, solveKnapsack_target_zero tensItems (by decide) (by decide)⟩

/-- C14, counterexample: with 63 items of weight one the loop bound `1 << 63` is negative,
no subset is visited, and the result holds no combination at all. -/
theorem solveKnapsack_target_zero_sixty_three :
    (∀ it ∈ unitItems63, 0 < it.Weight ∧ isInt64 it.Weight) ∧
    solveKnapsack unitItems63 0 = { AchievedWeight := 0, Combinations := [] } ∧
    solveKnapsack unitItems63 0 ≠ { AchievedWeight := 0, Combinations := [[]] } := by
  decide

/-- C15 (the code departs from the claim): on the empty item set, with a population of
three, crossover rate one, one generation and stagnation limit one, the first crossover
asks `rand.Intn` for a draw below the gene count `0`, and the run ends in a panic. -/
theorem geneticAlgorithm_panics_on_empty_items :
    (3 : Int) ≤ crossingConfig.PopulationSize ∧ (1 : Int) ≤ crossingConfig.MaxGenerations ∧
    (1 : Int) ≤ crossingConfig.MaxNoImprovement ∧ (0 : Int) ≤ zeroProblem.Target ∧
    geneticAlgorithm zeroDraws noClock [] zeroProblem crossingConfig = none := by
  decide

/-- C16 (amended): `solveKnapsack` checks nothing and returns a `Solution` on every input.
With a negative target the `Solution` has `AchievedWeight` `0` and no combination,
whatever the weights; with a target `≥ 0` it satisfies `0 ≤ AchievedWeight ≤ target`,
negative weights included. -/
theorem solveKnapsack_unchecked_input (items : List Item) (target : Int) :
    (target < 0 → solveKnapsack items target = { AchievedWeight := 0, Combinations := [] }) ∧
    (0 ≤ target → 0 ≤ (solveKnapsack items target).AchievedWeight ∧
      (solveKnapsack items target).AchievedWeight ≤ target) :=
  ⟨fun ht => solveKnapsack_negative_target items ht, solveKnapsack_bounds items target⟩

/-- C16, witness: target `-1` on weights `[10, 20, 30]`, and target `3` on one item of
weight `-5`. -/
theorem solveKnapsack_unchecked_input_witness :
    solveKnapsack tensItems (-1) = { AchievedWeight := 0, Combinations := [] } ∧
    (0 ≤ (solveKnapsack [⟨-5, 0⟩] 3).AchievedWeight ∧
      (solveKnapsack [⟨-5, 0⟩] 3).AchievedWeight ≤ 3) :=
  ⟨(solveKnapsack_unchecked_input tensItems (-1)).1 (by decide),
   (solveKnapsack_unchecked_input [⟨-5, 0⟩] 3).2 (by decide)⟩

/-- C16, counterexample: a negative target and a negative weight are both accepted, and a
`Solution` is returned for each. -/
theorem solveKnapsack_accepts_negative_input :
    ((-1 : Int) < 0 ∧
      solveKnapsack tensItems (-1) = { AchievedWeight := 0, Combinations := [] }) ∧
    ((∃ it ∈ ([⟨-5, 0⟩] : List Item), it.Weight < 0) ∧
      solveKnapsack [⟨-5, 0⟩] 3 = { AchievedWeight := 0, Combinations := [[]] }) := by
  decide

/-- C17 (amended): `geneticAlgorithm` checks nothing and signals no configuration error.
With `PopulationSize ≤ 0` it returns no chromosome: the run ends in a panic before the
first generation.  With `PopulationSize` `1` or `2`, below the tournament size `3`, and a
non-empty item set, the run evolves a population and returns. -/
theorem geneticAlgorithm_small_population (rng : Nat → Nat) (clock : Nat → ℚ)
    (items : List Item) (problem : KnapsackProblem) (config : GAConfig) :
    (config.PopulationSize ≤ 0 → geneticAlgorithm rng clock items problem config = none) ∧
    (items ≠ [] → config.PopulationSize = 1 ∨ config.PopulationSize = 2 →
      ∃ r : GARun, geneticAlgorithm rng clock items problem config = some r) :=
  ⟨fun hp => geneticAlgorithm_no_population rng clock items problem hp,
   fun hn hp => geneticAlgorithm_returns rng clock problem hn (by omega)⟩

/-- C17, witness: a population of zero and a population of two on one item. -/
theorem geneticAlgorithm_small_population_witness :
    geneticAlgorithm zeroDraws noClock unitItem farProblem emptyConfig = none ∧
    ∃ r : GARun, geneticAlgorithm zeroDraws noClock unitItem farProblem pairConfig = some r :=
  ⟨(geneticAlgorithm_small_population zeroDraws noClock unitItem farProblem emptyConfig).1
     (by decide),
   (geneticAlgorithm_small_population zeroDraws noClock unitItem farProblem pairConfig).2
     (by decide) (by decide)⟩

/-- C17, counterexample: with a population of two, smaller than the tournament size, the
run is not refused: it goes through one generation and returns a chromosome. -/
theorem geneticAlgorithm_runs_with_two :
    pairConfig.PopulationSize < 3 ∧
    geneticAlgorithm zeroDraws noClock unitItem farProblem pairConfig
      = some { best := ⟨0, 4, 1⟩, generations := 1, terminationReason := "no_improvement",
               noImprovementCount := 1, heap := [[true], [true]] } := by
  decide

/-- C18: for every chromosome, item set of matching length and target, `calculateFitness`
is idempotent: applied to its own result it returns that result again, equal in `Genes`,
`Weight` and `Fitness`. -/
theorem calculateFitness_idempotent (heap : Heap) (c : Chromosome) (items : List Item)
    (target : Int) (genes : List Bool) (hg : heap[c.Genes]? = some genes)
    (hlen : genes.length = items.length) :
    ∃ c2 : Chromosome, calculateFitness heap c items target = some c2 ∧
      calculateFitness heap c2 items target = some c2 :=
  calculateFitness_twice target hg hlen

set_option maxRecDepth 10000 in
/-- C18, witness: genes `[true, false, true]` over weights `1, 2, 3`, target `10`. -/
theorem calculateFitness_idempotent_witness :
    (([[true, false, true]] : Heap)[(⟨0, 0, 0⟩ : Chromosome).Genes]?
        = some [true, false, true] ∧
      [true, false, true].length = shuffledItems.length ∧
      calculateFitness [[true, false, true]] ⟨0, 0, 0⟩ shuffledItems 10 = some ⟨0, 6, 4⟩) ∧
    ∃ c2 : Chromosome,
      calculateFitness [[true, false, true]] ⟨0, 0, 0⟩ shuffledItems 10 = some c2 ∧
      calculateFitness [[true, false, true]] c2 shuffledItems 10 = some c2 :=
  ⟨by decide,
   calculateFitness_idempotent [[true, false, true]] ⟨0, 0, 0⟩ shuffledItems 10
     [true, false, true] (by decide) (by decide)⟩

/-- C19 (amended): for every item set with non-negative weights whose total is below
`2 ^ 63` and every target, `solveKnapsack` with its early exit returns the same
`AchievedWeight` and the same `Combinations` as the enumeration without the early exit. -/
theorem solveKnapsack_early_exit_agrees (items : List Item) (target : Int)
    (hw : ∀ it ∈ items, 0 ≤ it.Weight) (hsum : totalWeight items < 2 ^ 63) :
    solveKnapsack items target = solveKnapsackNoExit items target :=
  solveKnapsack_eq_noExit ⟨hw, hsum⟩ target

/-- C19, witness: weights `[2, 3, 4, 5]` and target `5`. -/
theorem solveKnapsack_early_exit_agrees_witness :
    ((∀ it ∈ scenarioItems, 0 ≤ it.Weight) ∧ totalWeight scenarioItems < 2 ^ 63 ∧
      solveKnapsackNoExit scenarioItems 5
        = { AchievedWeight := 5, Combinations := [[0, 1], [3]] }) ∧
    solveKnapsack scenarioItems 5 = solveKnapsackNoExit scenarioItems 5 :=
  ⟨by decide, solveKnapsack_early_exit_agrees scenarioItems 5 (by decide) (by decide)⟩

/-- C19, counterexample: on the non-negative weights `2^63-1, 2^63-1, 4` and target `3`
the early exit abandons the full subset at its first item, while the complete sum wraps
around to `2`, within the target: the two enumerations return different results. -/
theorem solveKnapsack_early_exit_differs :
    (∀ it ∈ wrapItems, 0 ≤ it.Weight ∧ isInt64 it.Weight) ∧
    solveKnapsack wrapItems 3 = { AchievedWeight := 0, Combinations := [[]] } ∧
    solveKnapsackNoExit wrapItems 3 = { AchievedWeight := 2, Combinations := [[0, 1, 2]] } := by
  decide

/-- C20: for every pair of parents whose `Genes` have the same length `n ≥ 1`, and the
split index `p` drawn in `0..n-1`, `crossover` returns two children, new arrays of length
`n`: child 1 holds parent 1's genes before `p` and parent 2's genes from `p` on, child 2
parent 2's genes before `p` and parent 1's from `p` on; the parents' genes, like every
array already in memory, are unchanged. -/
theorem crossover_single_point (rng : Nat → Nat) (parent1 parent2 : Chromosome) (w : World)
    (g1 g2 : List Bool) (p : Nat) (h1 : w.heap[parent1.Genes]? = some g1)
    (h2 : w.heap[parent2.Genes]? = some g2) (hlen : g1.length = g2.length)
    (hn : 1 ≤ g1.length) (hp : rng w.cursor % g1.length = p) :
    p < g1.length ∧
    ∃ (child1 child2 : Chromosome) (w2 : World),
      crossover rng parent1 parent2 w = some ((child1, child2), w2) ∧
      w2.heap[child1.Genes]? = some (g1.take p ++ g2.drop p) ∧
      w2.heap[child2.Genes]? = some (g2.take p ++ g1.drop p) ∧
      (g1.take p ++ g2.drop p).length = g1.length ∧
      (g2.take p ++ g1.drop p).length = g1.length ∧
      w2.heap[parent1.Genes]? = some g1 ∧ w2.heap[parent2.Genes]? = some g2 ∧
      (∀ (a : Nat) (g : List Bool), w.heap[a]? = some g → w2.heap[a]? = some g) := by
  have hlt : p < g1.length := by rw [← hp]; exact Nat.mod_lt _ (by omega)
  obtain ⟨child1, child2, w2, hc, hc1, hc2, hold⟩ :=
    crossover_children rng parent1 parent2 w g1 g2 h1 h2 hlen hn
  rw [hp] at hc1 hc2
  refine ⟨hlt, child1, child2, w2, hc, hc1, hc2, ?_, ?_, hold _ _ h1, hold _ _ h2, hold⟩
  · simp only [List.length_append, List.length_take, List.length_drop]; omega
  · simp only [List.length_append, List.length_take, List.length_drop]; omega

/-- C20, witness: parents `[true, true, true]` and `[false, false, false]`, split index
`1`: the children are `[true, false, false]` and `[false, true, true]`. -/
theorem crossover_single_point_witness :
    (crossover oneDraws ⟨0, 0, 0⟩ ⟨1, 0, 0⟩
        { heap := [[true, true, true], [false, false, false]], cursor := 0 }
      = some ((⟨2, 0, 0⟩, ⟨3, 0, 0⟩),
          { heap := [[true, true, true], [false, false, false],
                     [true, false, false], [false, true, true]], cursor := 1 })) ∧
    (1 < [true, true, true].length ∧
    ∃ (child1 child2 : Chromosome) (w2 : World),
      crossover oneDraws ⟨0, 0, 0⟩ ⟨1, 0, 0⟩
          { heap := [[true, true, true], [false, false, false]], cursor := 0 }
        = some ((child1, child2), w2) ∧
      w2.heap[child1.Genes]?
        = some ([true, true, true].take 1 ++ [false, false, false].drop 1) ∧
      w2.heap[child2.Genes]?
        = some ([false, false, false].take 1 ++ [true, true, true].drop 1) ∧
      ([true, true, true].take 1 ++ [false, false, false].drop 1).length
        = [true, true, true].length ∧
      ([false, false, false].take 1 ++ [true, true, true].drop 1).length
        = [true, true, true].length ∧
      w2.heap[(⟨0, 0, 0⟩ : Chromosome).Genes]? = some [true, true, true] ∧
      w2.heap[(⟨1, 0, 0⟩ : Chromosome).Genes]? = some [false, false, false] ∧
      (∀ (a : Nat) (g : List Bool),
        ([[true, true, true], [false, false, false]] : Heap)[a]? = some g →
        w2.heap[a]? = some g)) :=
  ⟨by decide,
   crossover_single_point oneDraws ⟨0, 0, 0⟩ ⟨1, 0, 0⟩
     { heap := [[true, true, true], [false, false, false]], cursor := 0 }
     [true, true, true] [false, false, false] 1 (by decide) (by decide) (by decide)
     (by decide) (by decide)⟩

/-! ## Tournaments, generation steps and the order of the combinations: lemmas -/

/-- The winner of a run of contenders `cs` against the current `best`: the first one of
least fitness, `best` counting as drawn before them. -/
theorem firstMin_fold (cs : List Chromosome) :
    ∀ b : Chromosome,
      (cs.foldl (fun best c => if c.Fitness < best.Fitness then c else best) b = b ∧
        ∀ c ∈ cs, b.Fitness ≤ c.Fitness) ∨
      ∃ i : Nat, i < cs.length ∧
        cs[i]? = some (cs.foldl (fun best c => if c.Fitness < best.Fitness then c else best) b) ∧
        (cs.foldl (fun best c => if c.Fitness < best.Fitness then c else best) b).Fitness
          < b.Fitness ∧
        (∀ t d, t < i → cs[t]? = some d →
          (cs.foldl (fun best c => if c.Fitness < best.Fitness then c else best) b).Fitness
            < d.Fitness) ∧
        (∀ d ∈ cs,
          (cs.foldl (fun best c => if c.Fitness < best.Fitness then c else best) b).Fitness
            ≤ d.Fitness) := by
  induction cs with
  | nil => intro b; exact Or.inl ⟨rfl, fun c hc => absurd hc (List.not_mem_nil _)⟩
  | cons a cs ih =>
    intro b
    rw [List.foldl_cons]
    generalize hb2 : (if a.Fitness < b.Fitness then a else b) = b2
    have hb2f : b2.Fitness ≤ b.Fitness ∧ b2.Fitness ≤ a.Fitness := by
      rw [← hb2]; split_ifs <;> constructor <;> omega
    rcases ih b2 with ⟨hr, hall⟩ | ⟨i, hi, hget, hlt, hfirst, hall⟩
    · rw [hr]
      by_cases hab : a.Fitness < b.Fitness
      · rw [if_pos hab] at hb2
        right
        refine ⟨0, by simp, by simp [hb2], by rw [← hb2]; exact hab, ?_, ?_⟩
        · intro t d ht _; omega
        · intro d hd
          rcases List.mem_cons.mp hd with h | h
          · rw [h, ← hb2]
          · exact hall d h
      · rw [if_neg hab] at hb2
        left
        refine ⟨hb2.symm, ?_⟩
        intro c hc
        rcases List.mem_cons.mp hc with h | h
        · rw [h]; omega
        · rw [hb2]; exact hall c h
    · right
      refine ⟨i + 1, by simp; omega, by simpa using hget, by omega, ?_, ?_⟩
      · intro t d ht hd
        cases t with
        | zero =>
          simp only [List.getElem?_cons_zero, Option.some.injEq] at hd
          rw [← hd]; omega
        | succ t =>
          simp only [List.getElem?_cons_succ] at hd
          exact hfirst t d (by omega) hd
      · intro d hd
        rcases List.mem_cons.mp hd with h | h
        · rw [h]; omega
        · exact hall d h

/-- The contenders of the loop of `tournamentSelection`: the chromosomes at the positions
drawn from `cursor` on. -/
theorem tournamentLoop_eq (rng : Nat → Nat) {population : List Chromosome}
    (hne : population ≠ []) (k : Nat) :
    ∀ (best : Chromosome) (cursor : Nat),
      ∃ cs : List Chromosome, cs.length = k ∧
        (∀ t, t < k → cs[t]? = drawnAt rng population cursor t) ∧
        tournamentLoop rng population k best cursor =
          some (cs.foldl (fun best c => if c.Fitness < best.Fitness then c else best) best,
            cursor + k) := by
  have hlen : population.length ≠ 0 := fun h => hne (List.length_eq_zero.mp h)
  induction k with
  | zero => intro best cursor; exact ⟨[], rfl, fun t ht => by omega, rfl⟩
  | succ k ih =>
    intro best cursor
    have hj : rng cursor % population.length < population.length :=
      Nat.mod_lt _ (by omega)
    obtain ⟨cs, hcl, hcs, hloop⟩ := ih
      (if (population[rng cursor % population.length]).Fitness < best.Fitness then
        population[rng cursor % population.length] else best) (cursor + 1)
    refine ⟨population[rng cursor % population.length] :: cs, by simp [hcl], ?_, ?_⟩
    · intro t ht
      cases t with
      | zero =>
        simp only [List.getElem?_cons_zero, drawnAt, Nat.add_zero]
        exact (List.getElem?_eq_getElem hj).symm
      | succ t =>
        simp only [List.getElem?_cons_succ]
        rw [hcs t (by omega)]
        unfold drawnAt
        rw [show cursor + 1 + t = cursor + (t + 1) by omega]
    · unfold tournamentLoop
      simp only [randIntn, if_neg hlen, List.getElem?_eq_getElem hj]
      rw [hloop, List.foldl_cons]
      congr 2
      omega

theorem tournamentSelection_first_min (rng : Nat → Nat) {population : List Chromosome}
    (hne : population ≠ []) {k : Nat} (hk : 1 ≤ k) (cursor : Nat) :
    ∃ (c : Chromosome) (i : Nat),
      tournamentSelection rng population k cursor = some (c, cursor + k) ∧
      i < k ∧ drawnAt rng population cursor i = some c ∧
      (∀ t d, t < k → drawnAt rng population cursor t = some d → c.Fitness ≤ d.Fitness) ∧
      (∀ t d, t < i → drawnAt rng population cursor t = some d → c.Fitness < d.Fitness) := by
  have hlen : population.length ≠ 0 := fun h => hne (List.length_eq_zero.mp h)
  have hj : rng cursor % population.length < population.length :=
    Nat.mod_lt _ (by omega)
  obtain ⟨cs, hcl, hcs, hloop⟩ :=
    tournamentLoop_eq rng hne (k - 1) (population[rng cursor % population.length]) (cursor + 1)
  have hsel : tournamentSelection rng population k cursor =
      some (cs.foldl (fun best c => if c.Fitness < best.Fitness then c else best)
        (population[rng cursor % population.length]), cursor + k) := by
    unfold tournamentSelection
    simp only [randIntn, if_neg hlen, List.getElem?_eq_getElem hj]
    rw [hloop]
    congr 2
    omega
  have hfirst : drawnAt rng population cursor 0
      = some (population[rng cursor % population.length]) := by
    unfold drawnAt
    rw [Nat.add_zero]
    exact List.getElem?_eq_getElem hj
  have hlater : ∀ t, t < k - 1 → drawnAt rng population cursor (t + 1) = cs[t]? := by
    intro t ht
    rw [hcs t ht]
    unfold drawnAt
    rw [show cursor + 1 + t = cursor + (t + 1) by omega]
  rcases firstMin_fold cs (population[rng cursor % population.length]) with
    ⟨hr, hall⟩ | ⟨i, hi, hget, hlt, hbefore, hall⟩
  · refine ⟨_, 0, hsel, by omega, ?_, ?_, ?_⟩
    · rw [hr]; exact hfirst
    · intro t d ht hd
      rw [hr]
      cases t with
      | zero =>
        rw [hfirst] at hd
        rw [← Option.some.inj hd]
      | succ t =>
        rw [hlater t (by omega)] at hd
        exact hall d (List.getElem?_mem hd)
    · intro t d ht _
      omega
  · refine ⟨_, i + 1, hsel, by omega, ?_, ?_, ?_⟩
    · rw [hlater i (by omega)]
      exact hget
    · intro t d ht hd
      cases t with
      | zero =>
        rw [hfirst] at hd
        rw [← Option.some.inj hd]
        omega
      | succ t =>
        rw [hlater t (by omega)] at hd
        exact hall d (List.getElem?_mem hd)
    · intro t d ht hd
      cases t with
      | zero =>
        rw [hfirst] at hd
        rw [← Option.some.inj hd]
        exact hlt
      | succ t =>
        rw [hlater t (by omega)] at hd
        exact hbefore t d (by omega) hd

theorem maskLimit_large {n : Nat} (hn : 63 ≤ n) : (maskLimit n).toNat = 0 := by
  have h : (2 : Int) ^ n = 2 ^ 63 * 2 ^ (n - 63) := by
    rw [← pow_add]; congr 1; omega
  have hpos : (0 : Int) < 2 ^ (n - 63) := by positivity
  unfold maskLimit wrap64
  rw [h]
  generalize (2 : Int) ^ (n - 63) = k at hpos
  omega

theorem maskLimit_le (n : Nat) : (maskLimit n).toNat ≤ 2 ^ n := by
  by_cases hn : n ≤ 62
  · rw [maskLimit_small hn]
  · rw [maskLimit_large (by omega)]; exact Nat.zero_le _

/-- The recorded combinations are the index lists of an ascending run of masks. -/
theorem fold_masks (items : List Item) (target : Int) (k : Nat) :
    ∃ masks : List Nat, masks.Sorted (· < ·) ∧ (∀ m ∈ masks, m < k) ∧
      ((List.range k).foldl (maskStep items target) (0, [])).2
        = masks.map (maskIndices items) := by
  induction k with
  | zero => exact ⟨[], List.sorted_nil, fun m hm => absurd hm (List.not_mem_nil _), rfl⟩
  | succ k ih =>
    obtain ⟨masks, hs, hlt, heq⟩ := ih
    rw [List.range_succ, List.foldl_append, List.foldl_cons, List.foldl_nil]
    generalize (List.range k).foldl (maskStep items target) (0, []) = st at heq
    have hkeep : ∃ masks2 : List Nat, masks2.Sorted (· < ·) ∧ (∀ m ∈ masks2, m < k + 1) ∧
        st.2 = masks2.map (maskIndices items) :=
      ⟨masks, hs, fun m hm => by have := hlt m hm; omega, heq⟩
    unfold maskStep
    simp only
    by_cases hover : (subsetLoop target k items 0 0 []).1 > target
    · rw [if_pos hover]; exact hkeep
    · rw [if_neg hover]
      have hdone := subsetLoop_done target k items 0 0 [] (by omega)
      have hcomb : (subsetLoop target k items 0 0 []).2 = maskIndices items k := by
        rw [hdone]; simp [maskIndices]
      by_cases hgt : (subsetLoop target k items 0 0 []).1 > st.1
      · rw [if_pos hgt]
        refine ⟨[k], List.sorted_singleton k, ?_, by simp [hcomb]⟩
        intro m hm
        rw [List.mem_singleton] at hm
        omega
      · rw [if_neg hgt]
        by_cases he : (subsetLoop target k items 0 0 []).1 = st.1
        · rw [if_pos he]
          refine ⟨masks ++ [k], ?_, ?_, by simp [heq, hcomb]⟩
          · rw [List.Sorted, List.pairwise_append]
            refine ⟨hs, List.pairwise_singleton _ _, ?_⟩
            intro a ha b hb
            rw [List.mem_singleton] at hb
            rw [hb]; exact hlt a ha
          · intro m hm
            rcases List.mem_append.mp hm with h | h
            · have := hlt m h; omega
            · rw [List.mem_singleton] at h; omega
        · rw [if_neg he]; exact hkeep

theorem pickMask_index_eq (m : Nat) (its : List Item) :
    ∀ i : Nat, (∀ (j : Nat) (h : j < its.length), (its[j]).Index = Int.ofNat (i + j)) →
      (pickMask m i its).map Item.Index
        = ((List.range' i its.length).filter (fun p => m.testBit p)).map Int.ofNat := by
  induction its with
  | nil => intro i _; simp [pickMask]
  | cons a s ih =>
    intro i hidx
    have ha : a.Index = Int.ofNat i := by simpa using hidx 0 (by simp)
    have hs : ∀ (j : Nat) (h : j < s.length), (s[j]).Index = Int.ofNat (i + 1 + j) := by
      intro j hj
      have := hidx (j + 1) (by simp; omega)
      simp only [List.getElem_cons_succ] at this
      rw [this]
      congr 1
      omega
    have hrec := ih (i + 1) hs
    unfold pickMask
    simp only [List.length_cons, List.range'_succ, List.filter_cons]
    by_cases hbit : m &&& (1 <<< i) ≠ 0
    · have htb : m.testBit i = true := (and_one_shiftLeft_ne_zero m i).mp hbit
      rw [if_pos hbit, htb]
      simp only [if_true, List.map_cons, ha, hrec]
    · have htb : m.testBit i = false := by
        cases h : m.testBit i with
        | false => rfl
        | true => exact absurd ((and_one_shiftLeft_ne_zero m i).mpr h) hbit
      rw [if_neg hbit, htb]
      simp only [Bool.false_eq_true, if_false, hrec]

theorem maskIndices_eq_positions {items : List Item} (hidx : IndexIsPosition items)
    (m : Nat) : maskIndices items m = maskPositions items.length m := by
  unfold maskIndices maskPositions
  rw [pickMask_index_eq m items 0, List.range_eq_range']
  intro j hj
  rw [Nat.zero_add]
  exact index_of_position hidx j hj

theorem maskPositions_sorted (n m : Nat) : (maskPositions n m).Sorted (· < ·) := by
  unfold maskPositions
  have h1 : (List.range n).Sorted (· < ·) := List.sorted_lt_range n
  have h2 : ((List.range n).filter (fun i => m.testBit i)).Sorted (· < ·) :=
    List.Pairwise.filter _ h1
  exact List.Pairwise.map _ (fun a b hab => by
    show Int.ofNat a < Int.ofNat b
    exact Int.ofNat_lt.mpr hab) h2

theorem maskPositions_injective (n : Nat) {m1 m2 : Nat} (h1 : m1 < 2 ^ n) (h2 : m2 < 2 ^ n)
    (h : maskPositions n m1 = maskPositions n m2) : m1 = m2 := by
  unfold maskPositions at h
  have hf := List.map_injective_iff.mpr (fun a b hab => Int.ofNat.inj hab) h
  apply Nat.eq_of_testBit_eq
  intro i
  by_cases hi : i < n
  · have hmem : ∀ m : Nat, i ∈ (List.range n).filter (fun i => m.testBit i) ↔
        m.testBit i = true := by
      intro m
      simp [List.mem_filter, hi]
    have := hmem m1
    rw [hf, hmem m2] at this
    cases hb1 : m1.testBit i <;> cases hb2 : m2.testBit i <;> simp_all
  · have hpow : 2 ^ n ≤ 2 ^ i := Nat.pow_le_pow_right (by norm_num) (by omega)
    rw [Nat.testBit_eq_false_of_lt (by omega), Nat.testBit_eq_false_of_lt (by omega)]

theorem combinations_order (items : List Item) (target : Int)
    (hidx : IndexIsPosition items) :
    ∃ masks : List Nat, masks.Sorted (· < ·) ∧ (∀ m ∈ masks, m < 2 ^ items.length) ∧
      (solveKnapsack items target).Combinations = masks.map (maskPositions items.length) ∧
      (solveKnapsack items target).Combinations.Nodup ∧
      ∀ c ∈ (solveKnapsack items target).Combinations, c.Sorted (· < ·) := by
  obtain ⟨masks, hs, hlt, heq⟩ := fold_masks items target (maskLimit items.length).toNat
  have hlt2 : ∀ m ∈ masks, m < 2 ^ items.length := fun m hm =>
    lt_of_lt_of_le (hlt m hm) (maskLimit_le items.length)
  have hfun : masks.map (maskIndices items) = masks.map (maskPositions items.length) :=
    List.map_congr_left (fun m _ => maskIndices_eq_positions hidx m)
  have hcomb : (solveKnapsack items target).Combinations
      = masks.map (maskPositions items.length) := by
    unfold solveKnapsack
    simp only
    rw [heq, hfun]
  refine ⟨masks, hs, hlt2, hcomb, ?_, ?_⟩
  · rw [hcomb]
    exact List.Nodup.map_on
      (fun x hx y hy hxy => maskPositions_injective _ (hlt2 x hx) (hlt2 y hy) hxy)
      hs.nodup
  · intro c hc
    rw [hcomb] at hc
    obtain ⟨m, _, rfl⟩ := List.mem_map.mp hc
    exact maskPositions_sorted _ m

/-- Under the conditions that keep the sums inside the `int` range, the recorded
combinations are those of the masks below `2 ^ n` whose subset is optimal, in ascending
order of the masks. -/
theorem combinations_optimal_masks {items : List Item} {target : Int}
    (hidx : IndexIsPosition items) (hn : items.length ≤ 62) (hfit : weightsFit items)
    (ht : 0 ≤ target) :
    ∃ masks : List Nat, masks.Sorted (· < ·) ∧
      (∀ m, m ∈ masks ↔
        m < 2 ^ items.length ∧ IsOptimalSubset items target (pickMask m 0 items)) ∧
      (solveKnapsack items target).Combinations = masks.map (maskPositions items.length) := by
  have hmax := achieved_isMax hn hfit ht
  have hinv := fold_invariant hfit ht (2 ^ items.length)
  simp only at hinv
  obtain ⟨_, _, _, _, hcomb⟩ := hinv
  have hach : (solveKnapsack items target).AchievedWeight
      = ((List.range (2 ^ items.length)).foldl (maskStep items target) (0, [])).1 := by
    rw [solveKnapsack_eq_fold items target hn]
  have hcs : (solveKnapsack items target).Combinations
      = ((List.range (2 ^ items.length)).foldl (maskStep items target) (0, [])).2 := by
    rw [solveKnapsack_eq_fold items target hn]
  rw [← hach] at hcomb
  obtain ⟨⟨s0, hs0, hw0, hle0⟩, hub⟩ := hmax
  refine ⟨(List.range (2 ^ items.length)).filter
      (fun m => decide (maskWeight items m = (solveKnapsack items target).AchievedWeight)),
    List.Pairwise.filter _ (List.sorted_lt_range _), ?_, ?_⟩
  · intro m
    rw [List.mem_filter, List.mem_range, decide_eq_true_eq]
    constructor
    · rintro ⟨hm, hw⟩
      refine ⟨hm, pickMask_sublist m items 0, ?_, ?_⟩
      · show maskWeight items m ≤ target
        rw [hw]; exact hle0
      · intro s2 hs2 hle2
        show totalWeight s2 ≤ maskWeight items m
        rw [hw]; exact hub s2 hs2 hle2
    · rintro ⟨hm, _, hle, hbest⟩
      refine ⟨hm, le_antisymm (hub _ (pickMask_sublist m items 0) hle) ?_⟩
      have := hbest s0 hs0 (by rw [hw0]; exact hle0)
      rw [hw0] at this
      exact this
  · rw [hcs, hcomb]
    exact List.map_congr_left (fun m _ => maskIndices_eq_positions hidx m)

theorem overflowItems_optimum_one :
    ∀ s ∈ overflowItems.sublists, totalWeight s ≤ 3 → totalWeight s ≤ 1 := by
  decide

theorem crossover_inv (rng : Nat → Nat) {n : Nat} {parent1 parent2 child1 child2 : Chromosome}
    {w w2 : World} (hh : HeapOK n w.heap) (h1 : ChromOK w.heap parent1)
    (h2 : ChromOK w.heap parent2)
    (h : crossover rng parent1 parent2 w = some ((child1, child2), w2)) :
    ChromOK w2.heap child1 ∧ ChromOK w2.heap child2 ∧ HeapOK n w2.heap ∧
      w.heap.length ≤ w2.heap.length := by
  obtain ⟨g1, hg1, hl1⟩ := heap_lookup hh h1
  obtain ⟨g2, hg2, hl2⟩ := heap_lookup hh h2
  unfold crossover at h
  rw [hg1, hg2] at h
  simp only [ne_eq, hl1, hl2, not_true_eq_false, if_false, randIntn] at h
  by_cases hn : n = 0
  · rw [if_pos hn] at h
    contradiction
  · rw [if_neg hn] at h
    simp only [Option.some.injEq, Prod.mk.injEq] at h
    obtain ⟨⟨rfl, rfl⟩, rfl⟩ := h
    refine ⟨by unfold ChromOK; simp, by unfold ChromOK; simp, ?_, by simp⟩
    apply HeapOK_append hh
    intro g hg
    simp only [List.mem_cons, List.mem_singleton, List.not_mem_nil, or_false] at hg
    rcases hg with h | h <;> (rw [h]; simp)

/-- Whenever a breeding step runs through, its two chromosomes refer to arrays of as many
genes as there are items. -/
theorem breedPair_inv (rng : Nat → Nat) {items : List Item} (target : Int)
    (config : GAConfig) {population : List Chromosome} {w w2 : World} {c1 c2 : Chromosome}
    (hne : population ≠ [])
    (hh : HeapOK items.length w.heap) (hpop : ∀ c ∈ population, ChromOK w.heap c)
    (h : breedPair rng items target config population w = some ((c1, c2), w2)) :
    ChromOK w2.heap c1 ∧ ChromOK w2.heap c2 ∧ HeapOK items.length w2.heap ∧
      w.heap.length ≤ w2.heap.length := by
  obtain ⟨p1, cur1, ht1, hp1⟩ := tournamentSelection_some rng hne 3 w.cursor
  obtain ⟨p2, cur2, ht2, hp2⟩ := tournamentSelection_some rng hne 3 cur1
  have hok1 := hpop p1 hp1
  have hok2 := hpop p2 hp2
  unfold breedPair at h
  rw [ht1] at h
  simp only at h
  rw [ht2] at h
  simp only at h
  generalize hoff : (if (randFloat64 rng cur2).1 < config.CrossoverRate then
      crossover rng p1 p2 { heap := w.heap, cursor := (randFloat64 rng cur2).2 }
    else some ((p1, p2), { heap := w.heap, cursor := (randFloat64 rng cur2).2 })) = offspring
    at h
  cases offspring with
  | none => contradiction
  | some r =>
    obtain ⟨⟨ch1, ch2⟩, w4⟩ := r
    have hchildren : ChromOK w4.heap ch1 ∧ ChromOK w4.heap ch2 ∧
        HeapOK items.length w4.heap ∧ w.heap.length ≤ w4.heap.length := by
      by_cases hx : (randFloat64 rng cur2).1 < config.CrossoverRate
      · rw [if_pos hx] at hoff
        exact @crossover_inv rng items.length p1 p2 ch1 ch2
          { heap := w.heap, cursor := (randFloat64 rng cur2).2 } w4 hh hok1 hok2 hoff
      · rw [if_neg hx] at hoff
        simp only [Option.some.injEq, Prod.mk.injEq] at hoff
        obtain ⟨⟨rfl, rfl⟩, rfl⟩ := hoff
        exact ⟨hok1, hok2, hh, le_refl _⟩
    obtain ⟨hc1, hc2, hh4, hle4⟩ := hchildren
    obtain ⟨w5, hm1, hlen5, hh5⟩ := mutate_some items.length rng config.MutationRate hc1
    have hc2b : ChromOK w5.heap ch2 := ChromOK_mono hc2 (by omega)
    obtain ⟨w6, hm2, hlen6, hh6⟩ := mutate_some items.length rng config.MutationRate hc2b
    have hh6b := hh6 (hh5 hh4)
    have hc1c : ChromOK w6.heap ch1 := ChromOK_mono hc1 (by omega)
    have hc2c : ChromOK w6.heap ch2 := ChromOK_mono hc2 (by omega)
    obtain ⟨d1, hf1, hgen1⟩ := calculateFitness_some target hh6b hc1c
    obtain ⟨d2, hf2, hgen2⟩ := calculateFitness_some target hh6b hc2c
    simp only at h
    rw [hm1] at h
    simp only at h
    rw [hm2] at h
    simp only at h
    rw [hf1] at h
    simp only at h
    rw [hf2] at h
    simp only [Option.some.injEq, Prod.mk.injEq] at h
    obtain ⟨⟨rfl, rfl⟩, rfl⟩ := h
    refine ⟨?_, ?_, hh6b, by omega⟩
    · unfold ChromOK at hc1c ⊢; rw [hgen1]; exact hc1c
    · unfold ChromOK at hc2c ⊢; rw [hgen2]; exact hc2c

theorem fillPopulation_inv (rng : Nat → Nat) {items : List Item} (target : Int)
    (config : GAConfig) {population : List Chromosome} (hne : population ≠ []) (need : Nat) :
    ∀ (acc : List Chromosome) (w : World) (newPopulation : List Chromosome) (w2 : World),
      HeapOK items.length w.heap →
      (∀ c ∈ population, ChromOK w.heap c) → (∀ c ∈ acc, ChromOK w.heap c) →
      fillPopulation rng items target config population need acc w
        = some (newPopulation, w2) →
      newPopulation.length = acc.length + 2 * ((need + 1) / 2) ∧
        (∀ c ∈ newPopulation, ChromOK w2.heap c) ∧ HeapOK items.length w2.heap ∧
        w.heap.length ≤ w2.heap.length := by
  induction need using Nat.strong_induction_on with
  | _ need ih =>
    intro acc w newPopulation w2 hh hpop hacc h
    match need, ih with
    | 0, _ =>
      unfold fillPopulation at h
      simp only [Option.some.injEq, Prod.mk.injEq] at h
      obtain ⟨rfl, rfl⟩ := h
      exact ⟨by simp, hacc, hh, le_refl _⟩
    | 1, _ =>
      unfold fillPopulation at h
      cases hb : breedPair rng items target config population w with
      | none => rw [hb] at h; contradiction
      | some r =>
        obtain ⟨⟨c1, c2⟩, w3⟩ := r
        rw [hb] at h
        simp only [Option.some.injEq, Prod.mk.injEq] at h
        obtain ⟨rfl, rfl⟩ := h
        obtain ⟨hc1, hc2, hh2, hle⟩ := breedPair_inv rng target config hne hh hpop hb
        refine ⟨by simp, ?_, hh2, hle⟩
        intro c hc
        rcases List.mem_append.mp hc with h | h
        · exact ChromOK_mono (hacc c h) hle
        · simp only [List.mem_cons, List.mem_singleton, List.not_mem_nil, or_false] at h
          rcases h with rfl | rfl
          · exact hc1
          · exact hc2
    | k + 2, ih =>
      unfold fillPopulation at h
      cases hb : breedPair rng items target config population w with
      | none => rw [hb] at h; contradiction
      | some r =>
        obtain ⟨⟨c1, c2⟩, w3⟩ := r
        rw [hb] at h
        simp only at h
        obtain ⟨hc1, hc2, hh2, hle⟩ := breedPair_inv rng target config hne hh hpop hb
        have hacc2 : ∀ c ∈ acc ++ [c1, c2], ChromOK w3.heap c := by
          intro c hc
          rcases List.mem_append.mp hc with h | h
          · exact ChromOK_mono (hacc c h) hle
          · simp only [List.mem_cons, List.mem_singleton, List.not_mem_nil, or_false] at h
            rcases h with rfl | rfl
            · exact hc1
            · exact hc2
        obtain ⟨hlen, hall, hh3, hle3⟩ :=
          ih k (by omega) (acc ++ [c1, c2]) w3 newPopulation w2 hh2
            (fun c hc => ChromOK_mono (hpop c hc) hle) hacc2 h
        refine ⟨?_, hall, hh3, by omega⟩
        rw [hlen]
        simp only [List.length_append, List.length_cons, List.length_nil]
        omega

/-- With a population size of at least one, every population handed to a generation step
is non-empty and refers to arrays of as many genes as there are items. -/
theorem stepInput_inv {rng : Nat → Nat} {items : List Item} {problem : KnapsackProblem}
    {config : GAConfig} (hp : 1 ≤ config.PopulationSize) {population : List Chromosome}
    {w : World} (hin : StepInput rng items problem config population w) :
    population ≠ [] ∧ HeapOK items.length w.heap ∧ ∀ c ∈ population, ChromOK w.heap c := by
  induction hin with
  | initial hinit =>
    rename_i population w
    obtain ⟨pop2, w2, hloop, hplen, hh, hall, _⟩ :=
      initLoop_some rng items problem.Target config.PopulationSize.toNat
        { heap := [], cursor := 0 } (fun g hg => absurd hg (List.not_mem_nil _))
    unfold initializePopulation at hinit
    rw [if_neg (by omega), hloop] at hinit
    simp only [Option.some.injEq, Prod.mk.injEq] at hinit
    obtain ⟨rfl, rfl⟩ := hinit
    refine ⟨?_, hh, hall⟩
    intro h
    rw [h] at hplen
    simp only [List.length_nil] at hplen
    omega
  | step _ hfill ih =>
    obtain ⟨hne, hh, hall⟩ := ih
    obtain ⟨hlen, hall2, hh2, _⟩ :=
      fillPopulation_inv rng problem.Target config hne config.PopulationSize.toNat [] _ _ _
        hh hall (fun c hc => absurd hc (List.not_mem_nil _)) hfill
    refine ⟨?_, hh2, hall2⟩
    intro h
    rw [h] at hlen
    simp only [List.length_nil, zero_add] at hlen
    omega

/-! ## Tournaments, generation steps and the order of the combinations: claims -/

/-- C21: for every non-empty population, every tournament size `k ≥ 1` and every stream
of draws, `tournamentSelection` returns one of the `k` drawn chromosomes, say the `i`-th,
whose `Fitness` is the lowest among the `k` drawn and strictly lower than that of every
chromosome drawn before it: among the drawn chromosomes of lowest `Fitness` it is the one
drawn first. -/
theorem tournamentSelection_lowest_first (rng : Nat → Nat) (population : List Chromosome)
    (k cursor : Nat) (hne : population ≠ []) (hk : 1 ≤ k) :
    ∃ (c : Chromosome) (i : Nat),
      tournamentSelection rng population k cursor = some (c, cursor + k) ∧
      i < k ∧ drawnAt rng population cursor i = some c ∧
      (∀ t d, t < k → drawnAt rng population cursor t = some d → c.Fitness ≤ d.Fitness) ∧
      (∀ t d, t < i → drawnAt rng population cursor t = some d → c.Fitness < d.Fitness) :=
  tournamentSelection_first_min rng hne hk cursor

/-- C21, witness: the positions `0, 1, 2` are drawn from chromosomes of fitness `5, 3, 3`;
the second one is returned. -/
theorem tournamentSelection_lowest_first_witness :
    (tiedPopulation ≠ [] ∧ 1 ≤ 3) ∧
    tournamentSelection countingDraws tiedPopulation 3 0 = some (⟨1, 3, 0⟩, 3) ∧
    ∃ (c : Chromosome) (i : Nat),
      tournamentSelection countingDraws tiedPopulation 3 0 = some (c, 0 + 3) ∧
      i < 3 ∧ drawnAt countingDraws tiedPopulation 0 i = some c ∧
      (∀ t d, t < 3 → drawnAt countingDraws tiedPopulation 0 t = some d →
        c.Fitness ≤ d.Fitness) ∧
      (∀ t d, t < i → drawnAt countingDraws tiedPopulation 0 t = some d →
        c.Fitness < d.Fitness) :=
  ⟨⟨by decide, by decide⟩, by decide,
   tournamentSelection_lowest_first countingDraws tiedPopulation 3 0 (by decide) (by decide)⟩

/-- C22: for every run of `geneticAlgorithm` with `PopulationSize ≥ 1`, the population a
generation step produces from the population it receives has exactly `PopulationSize`
chromosomes when `PopulationSize` is even and `PopulationSize + 1` when it is odd, and
every chromosome in it refers to `Genes` of length equal to the number of items.  With a
non-empty item set every step does produce a population. -/
theorem generation_step_population (rng : Nat → Nat) (items : List Item)
    (problem : KnapsackProblem) (config : GAConfig) (hp : 1 ≤ config.PopulationSize)
    {population : List Chromosome} {w : World}
    (hin : StepInput rng items problem config population w) :
    (items ≠ [] → ∃ (newPopulation : List Chromosome) (w2 : World),
      fillPopulation rng items problem.Target config population
        config.PopulationSize.toNat [] w = some (newPopulation, w2)) ∧
    ∀ (newPopulation : List Chromosome) (w2 : World),
      fillPopulation rng items problem.Target config population
        config.PopulationSize.toNat [] w = some (newPopulation, w2) →
      (newPopulation.length : Int) =
          (if config.PopulationSize % 2 = 0 then config.PopulationSize
           else config.PopulationSize + 1) ∧
        ∀ c ∈ newPopulation, ∃ genes : List Bool,
          w2.heap[c.Genes]? = some genes ∧ genes.length = items.length := by
  obtain ⟨hne, hh, hall⟩ := stepInput_inv hp hin
  constructor
  · intro hitems
    have hlen : 1 ≤ items.length := by
      cases items with
      | nil => exact absurd rfl hitems
      | cons a s => simp
    obtain ⟨newPopulation, w2, hfill, _⟩ :=
      fillPopulation_some rng problem.Target config hlen hne config.PopulationSize.toNat [] w
        hh hall (fun c hc => absurd hc (List.not_mem_nil _))
    exact ⟨newPopulation, w2, hfill⟩
  · intro newPopulation w2 hfill
    obtain ⟨hlen, hall2, hh2, _⟩ :=
      fillPopulation_inv rng problem.Target config hne config.PopulationSize.toNat [] _ _ _
        hh hall (fun c hc => absurd hc (List.not_mem_nil _)) hfill
    constructor
    · rw [hlen]
      simp only [List.length_nil, zero_add]
      split_ifs <;> omega
    · intro c hc
      exact heap_lookup hh2 (hall2 c hc)

/-- C22, witness: a population of three over one item, crossover rate one: the first
generation step receives the initial population and produces four chromosomes. -/
theorem generation_step_population_witness :
    (1 ≤ crossingConfig.PopulationSize ∧
      StepInput zeroDraws unitItem zeroProblem crossingConfig
        [⟨0, 1, 1⟩, ⟨1, 1, 1⟩, ⟨2, 1, 1⟩]
        { heap := [[true], [true], [true]], cursor := 3 }) ∧
    (fillPopulation zeroDraws unitItem zeroProblem.Target crossingConfig
        [⟨0, 1, 1⟩, ⟨1, 1, 1⟩, ⟨2, 1, 1⟩] crossingConfig.PopulationSize.toNat []
        { heap := [[true], [true], [true]], cursor := 3 }
      = some ([⟨3, 1, 1⟩, ⟨4, 1, 1⟩, ⟨5, 1, 1⟩, ⟨6, 1, 1⟩],
          { heap := [[true], [true], [true], [true], [true], [true], [true]],
            cursor := 23 })) ∧
    ((unitItem ≠ [] → ∃ (newPopulation : List Chromosome) (w2 : World),
      fillPopulation zeroDraws unitItem zeroProblem.Target crossingConfig
        [⟨0, 1, 1⟩, ⟨1, 1, 1⟩, ⟨2, 1, 1⟩] crossingConfig.PopulationSize.toNat []
        { heap := [[true], [true], [true]], cursor := 3 } = some (newPopulation, w2)) ∧
    ∀ (newPopulation : List Chromosome) (w2 : World),
      fillPopulation zeroDraws unitItem zeroProblem.Target crossingConfig
        [⟨0, 1, 1⟩, ⟨1, 1, 1⟩, ⟨2, 1, 1⟩] crossingConfig.PopulationSize.toNat []
        { heap := [[true], [true], [true]], cursor := 3 } = some (newPopulation, w2) →
      (newPopulation.length : Int) =
          (if crossingConfig.PopulationSize % 2 = 0 then crossingConfig.PopulationSize
           else crossingConfig.PopulationSize + 1) ∧
        ∀ c ∈ newPopulation, ∃ genes : List Bool,
          w2.heap[c.Genes]? = some genes ∧ genes.length = unitItem.length) :=
  ⟨⟨by decide, StepInput.initial (by decide)⟩, by decide,
   generation_step_population zeroDraws unitItem zeroProblem crossingConfig (by decide)
     (StepInput.initial (by decide))⟩

/-- C23 (amended): for every item set of at most 62 items with non-negative weights whose
total is below `2 ^ 63`, whose items carry `Index` equal to their position, and every
target `≥ 0`, the `Combinations` returned by `solveKnapsack` are the index lists of the
masks below `2 ^ n` whose subset is optimal, in strictly ascending order of the masks, so
no combination appears twice; and the indices inside each combination are in strictly
ascending order. -/
theorem solveKnapsack_combinations_in_mask_order (items : List Item) (target : Int)
    (hidx : IndexIsPosition items) (hn : items.length ≤ 62)
    (hw : ∀ it ∈ items, 0 ≤ it.Weight) (hsum : totalWeight items < 2 ^ 63)
    (ht : 0 ≤ target) :
    (∃ masks : List Nat, masks.Sorted (· < ·) ∧
      (∀ m, m ∈ masks ↔
        m < 2 ^ items.length ∧ IsOptimalSubset items target (pickMask m 0 items)) ∧
      (solveKnapsack items target).Combinations
        = masks.map (maskPositions items.length)) ∧
    (solveKnapsack items target).Combinations.Nodup ∧
    ∀ c ∈ (solveKnapsack items target).Combinations, c.Sorted (· < ·) := by
  obtain ⟨_, _, _, _, hnodup, hsorted⟩ := combinations_order items target hidx
  exact ⟨combinations_optimal_masks hidx hn ⟨hw, hsum⟩ ht, hnodup, hsorted⟩

/-- C23, witness: weights `[2, 3, 4, 5]`, target `5`: the optimal subsets are the masks
`3` and `8`, recorded in this order as `[0, 1]` and `[3]`. -/
theorem solveKnapsack_combinations_in_mask_order_witness :
    (IndexIsPosition scenarioItems ∧ scenarioItems.length ≤ 62 ∧
      (∀ it ∈ scenarioItems, 0 ≤ it.Weight) ∧ totalWeight scenarioItems < 2 ^ 63 ∧
      (0 : Int) ≤ 5) ∧
    (solveKnapsack scenarioItems 5).Combinations = [[0, 1], [3]] ∧
    (maskPositions 4 3 = [0, 1] ∧ maskPositions 4 8 = [3]) ∧
    ((∃ masks : List Nat, masks.Sorted (· < ·) ∧
      (∀ m, m ∈ masks ↔
        m < 2 ^ scenarioItems.length ∧
          IsOptimalSubset scenarioItems 5 (pickMask m 0 scenarioItems)) ∧
      (solveKnapsack scenarioItems 5).Combinations
        = masks.map (maskPositions scenarioItems.length)) ∧
    (solveKnapsack scenarioItems 5).Combinations.Nodup ∧
    ∀ c ∈ (solveKnapsack scenarioItems 5).Combinations, c.Sorted (· < ·)) :=
  ⟨by decide, by decide, by decide,
   solveKnapsack_combinations_in_mask_order scenarioItems 5 (by decide) (by decide)
     (by decide) (by decide) (by decide)⟩

/-- C23, counterexample: for the non-negative weights `[1, 2^63 - 1, 2^63 - 1, 4]` and
target `3` the only combination returned is `[0, 1, 2, 3]`, the mask `15`, whose weights
sum to `3` only after wrap-around, and the optimal subset, mask `1`, is not listed; and
for sixty-three items of weight one and target `0` nothing is listed, though the empty
subset, mask `0`, is optimal. -/
theorem solveKnapsack_combinations_in_mask_order_overflow :
    ((IndexIsPosition overflowItems ∧ (∀ it ∈ overflowItems, 0 ≤ it.Weight) ∧
        (0 : Int) ≤ 3) ∧
      (solveKnapsack overflowItems 3).Combinations = [maskPositions 4 15] ∧
      IsOptimalSubset overflowItems 3 (pickMask 1 0 overflowItems) ∧
      ¬ ∃ masks : List Nat,
        (∀ m, m ∈ masks ↔
          m < 2 ^ overflowItems.length ∧
            IsOptimalSubset overflowItems 3 (pickMask m 0 overflowItems)) ∧
        (solveKnapsack overflowItems 3).Combinations
          = masks.map (maskPositions overflowItems.length)) ∧
    ((IndexIsPosition unitItems63 ∧ (∀ it ∈ unitItems63, 0 ≤ it.Weight) ∧
        totalWeight unitItems63 < 2 ^ 63 ∧ (0 : Int) ≤ 0) ∧
      (solveKnapsack unitItems63 0).Combinations = [] ∧
      IsOptimalSubset unitItems63 0 (pickMask 0 0 unitItems63) ∧
      ¬ ∃ masks : List Nat,
        (∀ m, m ∈ masks ↔
          m < 2 ^ unitItems63.length ∧
            IsOptimalSubset unitItems63 0 (pickMask m 0 unitItems63)) ∧
        (solveKnapsack unitItems63 0).Combinations
          = masks.map (maskPositions unitItems63.length)) := by
  have hopt : IsOptimalSubset overflowItems 3 (pickMask 1 0 overflowItems) :=
    ⟨pickMask_sublist 1 overflowItems 0, by decide,
     fun s hs hle => by
       have h1 := overflowItems_optimum_one s (List.mem_sublists.mpr hs) hle
       have h2 : totalWeight (pickMask 1 0 overflowItems) = 1 := by decide
       rw [h2]; exact h1⟩
  have hopt0 : IsOptimalSubset unitItems63 0 (pickMask 0 0 unitItems63) := by
    rw [pickMask_zero]
    exact ⟨List.nil_sublist _, by decide, fun s _ hle => hle⟩
  have hnil : (solveKnapsack unitItems63 0).Combinations = [] := by decide
  refine ⟨⟨by decide, by decide, hopt, ?_⟩, ⟨by decide, hnil, hopt0, ?_⟩⟩
  · rintro ⟨masks, hmem, hcomb⟩
    have h1 : 1 ∈ masks := (hmem 1).mpr ⟨by decide, hopt⟩
    have h2 : maskPositions overflowItems.length 1
        ∈ (solveKnapsack overflowItems 3).Combinations := by
      rw [hcomb]; exact List.mem_map_of_mem _ h1
    exact absurd h2 (by decide)
  · rintro ⟨masks, hmem, hcomb⟩
    have h0 : 0 ∈ masks := (hmem 0).mpr ⟨by positivity, hopt0⟩
    rw [hnil] at hcomb
    have hm : masks = [] := List.map_eq_nil_iff.mp hcomb.symm
    rw [hm] at h0
    exact absurd h0 (List.not_mem_nil _)

/-- C24: the zero-fitness check is not applied to the initial population.  For the one
item of weight `1`, target `0`, a population of two, mutation rate `1`, crossover rate `0`
and stagnation limit `1`, with draws under which all initial genes are false, the initial
population contains a chromosome of `Fitness` `0`, and `geneticAlgorithm` returns a
chromosome of `Fitness` `0` after one generation step with the termination reason
`"no_improvement"`, not `"zero_fitness"`. -/
theorem geneticAlgorithm_initial_zero_fitness_unchecked :
    ∃ (population : List Chromosome) (w : World) (run : GARun),
      initializePopulation apartDraws unitItem.length flipConfig.PopulationSize unitItem
        zeroProblem.Target { heap := [], cursor := 0 } = some (population, w) ∧
      w.heap = [[false], [false]] ∧
      (∃ c ∈ population, c.Fitness = 0) ∧
      geneticAlgorithm apartDraws noClock unitItem zeroProblem flipConfig = some run ∧
      run.best.Fitness = 0 ∧ run.generations = 1 ∧
      run.terminationReason = "no_improvement" ∧
      run.terminationReason ≠ "zero_fitness" :=
  ⟨[⟨0, 0, 0⟩, ⟨1, 0, 0⟩], { heap := [[false], [false]], cursor := 2 },
   { best := ⟨0, 0, 0⟩, generations := 1, terminationReason := "no_improvement",
     noImprovementCount := 1, heap := [[true], [true]] },
   by decide, rfl, ⟨⟨0, 0, 0⟩, by decide, rfl⟩, by decide, rfl, rfl, rfl, by decide⟩

end Labwork1
